import Mathlib

/-!
# scan-api: the block syncer and the account handler

A shallow embedding of `Syncer.checkOlderBlocks`, `Syncer.sync` and
`Syncer.StartSync` (`syncer/syncer.go`), of the ranked account tables and the
account detail (`api/handlers/accountinfo_handler.go`, `api/handlers/types.go`)
and of the two account queries of the store they rest on
(`database/client.go`).

The syncer talks to two collaborators, the chain client (`s.rpc`) and the
store (`s.db`).  Both are modelled by a `World`: every call is recorded as an
`Event`, and the answer to a call is a function of the calls made so far (the
history) and of the call's arguments, so a `World` covers every deterministic
stateful store and node.  Each embedded function takes the history at its
entry and returns the list of events it emitted together with its outcome.

The account handler makes each of its store calls at most once in a run, so
its store is a record of answers, `BlockInfoDB`.  A run-time panic of an index
or slice expression is the result `none`.

A rebuild of one table and a reader of the same table that run concurrently
are two sequences of steps, `Prog`, on the shared fields of the table and on
its `accMutex`; a step is a call of the mutex or one read or one write of a
field, and a schedule picks the goroutine that makes the next step.  A
goroutine waits at `Lock` or `RLock` as a `sync.RWMutex` makes it wait.

For the deletions of the rollback the collections `block` and `transaction`
are lists of documents, `Collections`, in the order in which the server walks
them; the call `Remove` of the driver deletes the first document that its
selector matches.

Unsigned 64-bit counters are natural numbers reduced modulo `2 ^ 64`; loops
that the source does not bound are given fuel, one unit for each iteration.
Calls to the logger are not recorded.
-/

namespace ScanApi

/-- The number of values of a Go `uint64`. -/
def u64 : Nat := 2 ^ 64

/-- Decrement of a `uint64` (`i--`), wrapping below zero. -/
def decU64 (i : Nat) : Nat := (i + u64 - 1) % u64

/-- Increment of a `uint64` (`i++`), wrapping above the maximum. -/
def incU64 (i : Nat) : Nat := (i + 1) % u64

/-- Modelled from the spec: the element type of `DBBlock.Txs` is declared in
the `database` package outside `src/`; only the two endpoint fields that
`checkOlderBlocks` reads are kept. -/
structure DBBlockTx where
  From : String
  To : String
  deriving DecidableEq, Repr

/-- Modelled from the spec: `database.DBBlock` is declared outside `src/`;
the fields are the ones `checkOlderBlocks` reads. -/
structure DBBlock where
  HeadHash : String
  Creator : String
  Txs : List DBBlockTx
  deriving DecidableEq, Repr

/-- Modelled from the spec: `database.DBAccount` is declared outside `src/`;
the fields are the ones the handlers and the syncer read. -/
structure DBAccount where
  AccType : Int
  Address : String
  Balance : Int
  TxCount : Int
  ShardNumber : Int
  Mined : Int
  deriving DecidableEq, Repr

/-- Modelled from the spec: the block record returned by the chain client's
`GetBlockByHeight`, declared in the `rpc` package outside `src/`. -/
structure RpcBlock where
  Hash : String
  Height : Nat
  deriving DecidableEq, Repr

/-- Modelled from the spec: the tip record returned by the chain client's
`CurrentBlock`, declared in the `rpc` package outside `src/`. -/
structure CurrentBlock where
  Hash : String
  Height : Nat
  deriving DecidableEq, Repr

/-- Modelled from the spec: `database.CreateEmptyAccount` is declared outside
`src/`; an account record for the address and shard with every derived value
zero. -/
def CreateEmptyAccount (address : String) (shardNumber : Int) : DBAccount :=
  { AccType := 0, Address := address, Balance := 0, TxCount := 0,
    ShardNumber := shardNumber, Mined := 0 }

/-- One call made by the syncer to a collaborator, with its arguments. -/
inductive Event where
  | dbGetBlockHeight (shard : Int)
  | rpcGetBlockByHeight (height : Nat) (fullTx : Bool)
  | dbGetBlockByHeight (shard : Int) (height : Nat)
  | dbRemoveBlock (height : Nat)
  | dbRemoveTxs (height : Nat)
  | dbGetAccountByAddress (address : String)
  | rpcGetBalance (address : String)
  | dbGetTxCnt (shard : Int) (address : String)
  | dbUpdateAccount (address : String) (balance : Int) (txCnt : Int)
  | dbAddAccount (account : DBAccount)
  | dbGetMinedBlocksCnt (shard : Int) (address : String)
  | dbUpdateAccountMinedBlock (address : String) (mined : Int)
  | rpcCurrentBlock
  | rpcRelease
  | blockSync (block : RpcBlock)
  | txSync (block : RpcBlock)
  | accountSync (block : RpcBlock)
  | pendingTxsSync
  deriving DecidableEq, Repr

/-- The calls made so far, oldest first. -/
abbrev Trace := List Event

/-- The syncer's fields and its collaborators.  An answer `none` (or `false`
for a call that returns only an error) is a call that failed.  The first
argument of every answer is the history before the call.  `blockSync`,
`txSync`, `accountSync` and `pendingTxsSync` are methods of the syncer
declared outside `src/`; each is one recorded call, and the first three
succeed or fail (the error of `pendingTxsSync` is only logged). -/
structure World where
  shardNumber : Int
  nullAddress : String
  dbGetBlockHeight : Trace → Int → Option Nat
  rpcGetBlockByHeight : Trace → Nat → Bool → Option RpcBlock
  dbGetBlockByHeight : Trace → Int → Nat → Option DBBlock
  dbGetAccountByAddress : Trace → String → Option DBAccount
  rpcGetBalance : Trace → String → Option Int
  dbGetTxCnt : Trace → Int → String → Option Int
  dbAddAccount : Trace → DBAccount → Bool
  dbGetMinedBlocksCnt : Trace → Int → String → Option Int
  rpcCurrentBlock : Trace → Option CurrentBlock
  blockSync : Trace → RpcBlock → Bool
  txSync : Trace → RpcBlock → Bool
  accountSync : Trace → RpcBlock → Bool

/-- How a possibly unbounded computation ended. -/
inductive Outcome (α : Type) where
  | returned (value : α)
  | outOfFuel
  deriving DecidableEq, Repr

/-- The body of the loop over `dbBlock.Txs` for one transaction
(`syncer.go` lines 78-116): the events emitted, and `false` when the body
returns from `checkOlderBlocks`. -/
def txStep (w : World) (tx : DBBlockTx) (tr : Trace) : List Event × Bool :=
  match w.dbGetAccountByAddress tr tx.To with
  | none => ([.dbGetAccountByAddress tx.To], false)
  | some _ =>
    let e1 : List Event := [.dbGetAccountByAddress tx.To]
    let toBalance := (w.rpcGetBalance (tr ++ e1) tx.To).getD 0
    let e2 := e1 ++ [.rpcGetBalance tx.To]
    let txCnt := (w.dbGetTxCnt (tr ++ e2) w.shardNumber tx.From).getD 0
    let e3 := e2 ++ [.dbGetTxCnt w.shardNumber tx.From]
    let e4 := e3 ++ [.dbUpdateAccount tx.To toBalance txCnt]
    if tx.From ≠ w.nullAddress then
      let e5 := e4 ++ [.dbGetAccountByAddress tx.From]
      let fromBalance := (w.rpcGetBalance (tr ++ e5) tx.From).getD 0
      let e6 := e5 ++ [.rpcGetBalance tx.From]
      let txCnt2 := (w.dbGetTxCnt (tr ++ e6) w.shardNumber tx.From).getD 0
      let e7 := e6 ++ [.dbGetTxCnt w.shardNumber tx.From]
      (e7 ++ [.dbUpdateAccount tx.To fromBalance txCnt2], true)
    else
      (e4, true)

/-- The loop `for j := 0; j < len(dbBlock.Txs); j++` of `checkOlderBlocks`:
the events emitted, and `false` when it returns from `checkOlderBlocks`. -/
def txLoop (w : World) : List DBBlockTx → Trace → List Event × Bool
  | [], _ => ([], true)
  | tx :: rest, tr =>
    let r := txStep w tx tr
    if r.2 then
      let r2 := txLoop w rest (tr ++ r.1)
      (r.1 ++ r2.1, r2.2)
    else
      (r.1, false)

/-- The block `if dbBlock.Creator != nullAddress` of `checkOlderBlocks`
(`syncer.go` lines 119-141). -/
def minerUpdate (w : World) (dbBlock : DBBlock) (tr : Trace) : List Event :=
  if dbBlock.Creator ≠ w.nullAddress then
    let e1 : List Event := [.dbGetAccountByAddress dbBlock.Creator]
    let e2 : List Event :=
      match w.dbGetAccountByAddress tr dbBlock.Creator with
      | some _ => e1
      | none =>
        let minerAccount := CreateEmptyAccount dbBlock.Creator w.shardNumber
        if w.dbAddAccount (tr ++ e1) minerAccount then
          e1 ++ [.dbAddAccount minerAccount, .dbGetAccountByAddress dbBlock.Creator]
        else
          e1 ++ [.dbAddAccount minerAccount]
    let blockCnt := (w.dbGetMinedBlocksCnt (tr ++ e2) w.shardNumber dbBlock.Creator).getD 0
    e2 ++ [.dbGetMinedBlocksCnt w.shardNumber dbBlock.Creator,
           .dbUpdateAccountMinedBlock dbBlock.Creator blockCnt]
  else
    []

/-- The part of the body of the rollback loop that follows the comparison of
the hashes (`syncer.go` lines 70-141): the stale block at height `i` and its
transactions are deleted and the accounts refreshed.  The events emitted, and
`false` when it returns from `checkOlderBlocks`. -/
def rollbackBlock (w : World) (dbBlock : DBBlock) (i : Nat) (tr : Trace) : List Event × Bool :=
  let e1 : List Event := [.dbRemoveBlock i, .dbRemoveTxs i]
  let t := txLoop w dbBlock.Txs (tr ++ e1)
  if t.2 then
    let e2 := e1 ++ t.1
    (e2 ++ minerUpdate w dbBlock (tr ++ e2), true)
  else
    (e1 ++ t.1, false)

/-- The loop `for i := dbBlockHeight - 1; i >= 0; i--` of `checkOlderBlocks`,
entered with counter `i` and flag `fallBack` after the calls in `tr`.  The
counter is a `uint64`, so the test `i >= 0` is `0 ≤ i` on a natural number and
the decrement wraps. -/
def checkLoop (w : World) : Nat → Nat → Bool → Trace → List Event × Outcome Bool
  | 0, _, _, _ => ([], .outOfFuel)
  | fuel + 1, i, fallBack, tr =>
    if 0 ≤ i then
      let e1 : List Event := [.rpcGetBlockByHeight i true]
      match w.rpcGetBlockByHeight tr i true with
      | none => (e1, .returned fallBack)
      | some rpcBlock =>
        let e2 := e1 ++ [.dbGetBlockByHeight w.shardNumber i]
        match w.dbGetBlockByHeight (tr ++ e1) w.shardNumber i with
        | none => (e2, .returned fallBack)
        | some dbBlock =>
          if dbBlock.HeadHash = rpcBlock.Hash then
            (e2, .returned fallBack)
          else
            let d := rollbackBlock w dbBlock i (tr ++ e2)
            if d.2 then
              let e3 := e2 ++ d.1
              let r := checkLoop w fuel (decU64 i) true (tr ++ e3)
              (e3 ++ r.1, r.2)
            else
              (e2 ++ d.1, .returned fallBack)
    else
      ([], .returned fallBack)

/-- `Syncer.checkOlderBlocks` (`syncer.go` lines 42-147), started after the
calls in `tr`: the events it emits and the boolean it returns. -/
def checkOlderBlocks (w : World) (fuel : Nat) (tr : Trace) : List Event × Outcome Bool :=
  let e0 : List Event := [.dbGetBlockHeight w.shardNumber]
  match w.dbGetBlockHeight tr w.shardNumber with
  | none => (e0, .returned false)
  | some dbBlockHeight =>
    if dbBlockHeight % u64 = 0 then
      (e0, .returned false)
    else
      let r := checkLoop w fuel (decU64 (dbBlockHeight % u64)) false (tr ++ e0)
      (e0 ++ r.1, r.2)

/-- The loop `for i := dbBlockHeight; i <= curBlock.Height; i++` of `sync`
(`syncer.go` lines 167-192), entered with counter `i` after the calls in
`tr`; `height` is `curBlock.Height`.  Every `break` and the failing loop test
end in `returned ()`. -/
def forwardLoop (w : World) (height : Nat) : Nat → Nat → Trace → List Event × Outcome Unit
  | 0, _, _ => ([], .outOfFuel)
  | fuel + 1, i, tr =>
    if i ≤ height then
      let e1 : List Event := [.rpcGetBlockByHeight i true]
      match w.rpcGetBlockByHeight tr i true with
      | none => (e1 ++ [.rpcRelease], .returned ())
      | some rpcBlock =>
        let e2 := e1 ++ [.blockSync rpcBlock]
        if w.blockSync (tr ++ e1) rpcBlock then
          let e3 := e2 ++ [.txSync rpcBlock]
          if w.txSync (tr ++ e2) rpcBlock then
            let e4 := e3 ++ [.accountSync rpcBlock]
            if w.accountSync (tr ++ e3) rpcBlock then
              let r := forwardLoop w height fuel (incU64 i) (tr ++ e4)
              (e4 ++ r.1, r.2)
            else
              (e4, .returned ())
          else
            (e3, .returned ())
        else
          (e2, .returned ())
    else
      ([], .returned ())

/-- `Syncer.sync` (`syncer.go` lines 150-201), started after the calls in
`tr`: the events it emits, and whether the error it returns is non-nil. -/
def sync (w : World) (fuel : Nat) (tr : Trace) : List Event × Outcome Bool :=
  let c := checkOlderBlocks w fuel tr
  match c.2 with
  | .outOfFuel => (c.1, .outOfFuel)
  | .returned _ =>
    let e1 := c.1 ++ [.rpcCurrentBlock]
    match w.rpcCurrentBlock (tr ++ c.1) with
    | none => (e1, .returned true)
    | some curBlock =>
      let e2 := e1 ++ [.dbGetBlockHeight w.shardNumber]
      match w.dbGetBlockHeight (tr ++ e1) w.shardNumber with
      | none => (e2, .returned true)
      | some dbBlockHeight =>
        let f := forwardLoop w (curBlock.Height % u64) fuel (dbBlockHeight % u64) (tr ++ e2)
        match f.2 with
        | .outOfFuel => (e2 ++ f.1, .outOfFuel)
        | .returned _ => (e2 ++ f.1 ++ [.pendingTxsSync], .returned false)

/-! ## Kinds of calls -/

/-- Whether a call is `RemoveBlock` or `RemoveTxs`. -/
def isRemoval : Event → Bool
  | .dbRemoveBlock _ => true
  | .dbRemoveTxs _ => true
  | _ => false

/-- The deletions among a list of events, in order. -/
def removals (es : List Event) : List Event :=
  es.filter isRemoval

/-- Whether a call is `RemoveBlock`. -/
def isRemoveBlock : Event → Bool
  | .dbRemoveBlock _ => true
  | _ => false

/-- The heights `hi - 1, hi - 2, ..., lo`, highest first. -/
def heightsDown (hi lo : Nat) : List Nat :=
  (List.range (hi - lo)).map fun d => hi - 1 - d

/-- Whether a call is one of the account calls of the rollback. -/
def isAccountCall : Event → Bool
  | .dbGetAccountByAddress _ => true
  | .rpcGetBalance _ => true
  | .dbGetTxCnt _ _ => true
  | .dbUpdateAccount _ _ _ => true
  | .dbAddAccount _ => true
  | .dbGetMinedBlocksCnt _ _ => true
  | .dbUpdateAccountMinedBlock _ _ => true
  | _ => false

/-- Whether a call is one of the queries that drive the rollback scan: the
block count of the store, or a block fetch from the node or from the store. -/
def isScanQuery : Event → Bool
  | .dbGetBlockHeight _ => true
  | .rpcGetBlockByHeight _ _ => true
  | .dbGetBlockByHeight _ _ => true
  | _ => false

/-- Whether the call `e`, made after the calls in `hist`, is a query of the
rollback scan that fails. -/
def scanQueryFails (w : World) (hist : Trace) : Event → Bool
  | .dbGetBlockHeight s => (w.dbGetBlockHeight hist s).isNone
  | .rpcGetBlockByHeight h f => (w.rpcGetBlockByHeight hist h f).isNone
  | .dbGetBlockByHeight s h => (w.dbGetBlockByHeight hist s h).isNone
  | _ => false

/-- Whether a call is one that only `sync` itself makes, outside
`checkOlderBlocks`. -/
def isSyncCall : Event → Bool
  | .rpcCurrentBlock => true
  | .rpcRelease => true
  | .blockSync _ => true
  | .txSync _ => true
  | .accountSync _ => true
  | .pendingTxsSync => true
  | _ => false

/-- Whether a call is a step of the forward replay of one height: the fetch
of the remote block, `blockSync`, `txSync` or `accountSync`. -/
def isReplayStep : Event → Bool
  | .rpcGetBlockByHeight _ _ => true
  | .blockSync _ => true
  | .txSync _ => true
  | .accountSync _ => true
  | _ => false

/-- Whether the call `e`, made after the calls in `hist`, is a step of the
forward replay that fails. -/
def replayStepFails (w : World) (hist : Trace) : Event → Bool
  | .rpcGetBlockByHeight h f => (w.rpcGetBlockByHeight hist h f).isNone
  | .blockSync b => !(w.blockSync hist b)
  | .txSync b => !(w.txSync hist b)
  | .accountSync b => !(w.accountSync hist b)
  | _ => false

/-- Whether a call changes the block, transaction or account collection. -/
def isMutation : Event → Bool
  | .dbRemoveBlock _ => true
  | .dbRemoveTxs _ => true
  | .dbUpdateAccount _ _ _ => true
  | .dbAddAccount _ => true
  | .dbUpdateAccountMinedBlock _ _ => true
  | .blockSync _ => true
  | .txSync _ => true
  | .accountSync _ => true
  | _ => false

/-- The calls of the forward replay of the heights `n, n + 1, ..., n + c - 1`
on a remote chain `remote`. -/
def replayOf (remote : Nat → RpcBlock) (n c : Nat) : List Event :=
  (List.range' n c).flatMap fun h =>
    [Event.rpcGetBlockByHeight h true, Event.blockSync (remote h),
     Event.txSync (remote h), Event.accountSync (remote h)]

/-! ## Example worlds -/

/-- An example replica: local blocks 0-4, the remote chain agrees on heights
0-2 and differs on heights 3 and 4.  Block 4 holds one transfer from
`alice` to `bob`; block 3 holds a reward paid to `carol` by the null
address and was mined by `miner`.  The store forgets a block once it has
been removed. -/
def reorgWorld : World where
  shardNumber := 1
  nullAddress := "0x0"
  dbGetBlockHeight := fun tr _ => some (5 - (tr.filter isRemoveBlock).length)
  rpcGetBlockByHeight := fun _ h _ =>
    if h < 3 then some ⟨"h", h⟩ else if h < 5 then some ⟨"new", h⟩ else none
  dbGetBlockByHeight := fun tr _ h =>
    if Event.dbRemoveBlock h ∈ tr then none
    else if h < 3 then some ⟨"h", "0x0", []⟩
    else if h = 3 then some ⟨"old", "miner", [⟨"0x0", "carol"⟩]⟩
    else if h = 4 then some ⟨"old", "0x0", [⟨"alice", "bob"⟩]⟩
    else none
  dbGetAccountByAddress := fun _ a => some (CreateEmptyAccount a 1)
  rpcGetBalance := fun _ a =>
    if a = "alice" then some 70 else if a = "bob" then some 30 else some 10
  dbGetTxCnt := fun _ _ a =>
    if a = "alice" then some 5 else if a = "bob" then some 2 else some 1
  dbAddAccount := fun _ _ => true
  dbGetMinedBlocksCnt := fun _ _ _ => some 7
  rpcCurrentBlock := fun _ => some ⟨"new", 4⟩
  blockSync := fun _ _ => true
  txSync := fun _ _ => true
  accountSync := fun _ _ => true

/-- An example replica with two blocks: the remote chain agrees on height 0
and differs on height 1, whose stored block holds one transfer from `alice`
to `bob`.  The node reports balance 70 for `alice` and 30 for `bob`; the
store counts 5 transactions for `alice` and 2 for `bob`. -/
def transferWorld : World where
  shardNumber := 1
  nullAddress := "0x0"
  dbGetBlockHeight := fun _ _ => some 2
  rpcGetBlockByHeight := fun _ h _ =>
    if h = 0 then some ⟨"g", 0⟩ else if h = 1 then some ⟨"new", 1⟩ else none
  dbGetBlockByHeight := fun _ _ h =>
    if h = 0 then some ⟨"g", "0x0", []⟩
    else if h = 1 then some ⟨"old", "0x0", [⟨"alice", "bob"⟩]⟩
    else none
  dbGetAccountByAddress := fun _ a => some (CreateEmptyAccount a 1)
  rpcGetBalance := fun _ a =>
    if a = "alice" then some 70 else if a = "bob" then some 30 else none
  dbGetTxCnt := fun _ _ a =>
    if a = "alice" then some 5 else if a = "bob" then some 2 else none
  dbAddAccount := fun _ _ => true
  dbGetMinedBlocksCnt := fun _ _ _ => some 0
  rpcCurrentBlock := fun _ => some ⟨"new", 1⟩
  blockSync := fun _ _ => true
  txSync := fun _ _ => true
  accountSync := fun _ _ => true

/-- The replica of `transferWorld` in front of a node whose balance query
fails. -/
def balanceDownWorld : World :=
  { transferWorld with rpcGetBalance := fun _ _ => none }

/-- The replica of `transferWorld` on a store whose account lookup fails. -/
def accountsDownWorld : World :=
  { transferWorld with dbGetAccountByAddress := fun _ _ => none }

/-- An example replica holding only the block at height 0, whose head hash
differs from the remote hash at height 0; neither the node nor the store has
a block at any other height. -/
def genesisForkWorld : World where
  shardNumber := 1
  nullAddress := "0x0"
  dbGetBlockHeight := fun _ _ => some 1
  rpcGetBlockByHeight := fun _ h _ => if h = 0 then some ⟨"new", 0⟩ else none
  dbGetBlockByHeight := fun _ _ h => if h = 0 then some ⟨"old", "0x0", []⟩ else none
  dbGetAccountByAddress := fun _ _ => none
  rpcGetBalance := fun _ _ => none
  dbGetTxCnt := fun _ _ _ => none
  dbAddAccount := fun _ _ => true
  dbGetMinedBlocksCnt := fun _ _ _ => some 0
  rpcCurrentBlock := fun _ => some ⟨"new", 0⟩
  blockSync := fun _ _ => true
  txSync := fun _ _ => true
  accountSync := fun _ _ => true

/-- The remote chain seen by `reorgWorld`. -/
def reorgRemote (h : Nat) : RpcBlock :=
  if h < 3 then ⟨"h", h⟩ else ⟨"new", h⟩

/-- The blocks stored by `reorgWorld` before the rollback. -/
def reorgLocal (h : Nat) : DBBlock :=
  if h < 3 then ⟨"h", "0x0", []⟩
  else if h = 3 then ⟨"old", "miner", [⟨"0x0", "carol"⟩]⟩
  else ⟨"old", "0x0", [⟨"alice", "bob"⟩]⟩

/-- The replica of `transferWorld` in front of a node whose tip query
fails. -/
def tipDownWorld : World :=
  { transferWorld with rpcCurrentBlock := fun _ => none }

/-- The replica of `transferWorld` on a store whose block count query
fails. -/
def heightDownWorld : World :=
  { transferWorld with dbGetBlockHeight := fun _ _ => none }

/-- The replica of `reorgWorld` when `txSync` fails for the block of
height 4. -/
def txSyncDownWorld : World :=
  { reorgWorld with txSync := fun _ b => decide (b.Height < 4) }

/-- An example replica that has converged: three stored blocks carrying the
remote hashes, the remote tip at height 2. -/
def convergedWorld : World where
  shardNumber := 1
  nullAddress := "0x0"
  dbGetBlockHeight := fun _ _ => some 3
  rpcGetBlockByHeight := fun _ h _ => if h < 3 then some ⟨"h", h⟩ else none
  dbGetBlockByHeight := fun _ _ h => if h < 3 then some ⟨"h", "0x0", []⟩ else none
  dbGetAccountByAddress := fun _ _ => none
  rpcGetBalance := fun _ _ => none
  dbGetTxCnt := fun _ _ _ => none
  dbAddAccount := fun _ _ => true
  dbGetMinedBlocksCnt := fun _ _ _ => some 0
  rpcCurrentBlock := fun _ => some ⟨"h", 2⟩
  blockSync := fun _ _ => true
  txSync := fun _ _ => true
  accountSync := fun _ _ => true

/-- A store and a node at the end of the `uint64` range: the store counts
`2 ^ 64 - 1` blocks, the remote tip is at height `2 ^ 64 - 1`, every block
fetched carries the same hash and every call succeeds. -/
def maxTipWorld : World where
  shardNumber := 1
  nullAddress := "0x0"
  dbGetBlockHeight := fun _ _ => some 18446744073709551615
  rpcGetBlockByHeight := fun _ h _ => some ⟨"h", h⟩
  dbGetBlockByHeight := fun _ _ _ => some ⟨"h", "0x0", []⟩
  dbGetAccountByAddress := fun _ _ => none
  rpcGetBalance := fun _ _ => none
  dbGetTxCnt := fun _ _ _ => none
  dbAddAccount := fun _ _ => true
  dbGetMinedBlocksCnt := fun _ _ _ => some 0
  rpcCurrentBlock := fun _ => some ⟨"h", 18446744073709551615⟩
  blockSync := fun _ _ => true
  txSync := fun _ _ => true
  accountSync := fun _ _ => true

/-- An example replica that holds no block. -/
def emptyWorld : World :=
  { convergedWorld with dbGetBlockHeight := fun _ _ => some 0 }

/-! ## The sync loop (`Syncer.StartSync`) -/

/-- What a receive from the ticker's channel yields: a delivered tick, or the
news that the channel is closed. -/
inductive Recv where
  | tick
  | closed
  deriving DecidableEq, Repr

/-- What `StartSync` and its goroutine do, in order: a run of `sync`, or a
receive from the ticker's channel. -/
inductive LoopEvent where
  | sync
  | recv (r : Recv)
  deriving DecidableEq, Repr

/-- The goroutine of `StartSync` (`syncer.go` lines 210-216),
`for range tick { s.sync(); _, ok := <-tick; if !ok { break } }`, run on the
receives the channel delivers; it blocks when they are used up. -/
def tickLoop : List Recv → List LoopEvent
  | [] => []
  | .closed :: _ => [.recv .closed]
  | .tick :: rest =>
    .recv .tick :: .sync ::
      match rest with
      | [] => []
      | .closed :: _ => [.recv .closed]
      | .tick :: rest' => .recv .tick :: tickLoop rest'

/-- `Syncer.StartSync` (`syncer.go` lines 204-218): one run of `sync`, then
the goroutine on the ticker's channel. -/
def StartSync (delivered : List Recv) : List LoopEvent :=
  .sync :: tickLoop delivered

/-- For each run of `sync` in a list of events, the number of ticks received
before it starts, counting from `seen`. -/
def syncStarts : Nat → List LoopEvent → List Nat
  | _, [] => []
  | seen, .sync :: rest => seen :: syncStarts seen rest
  | seen, .recv .tick :: rest => syncStarts (seen + 1) rest
  | seen, .recv .closed :: rest => syncStarts seen rest

/-- The odd numbers `1, 3, ..., 2 k - 1`. -/
def oddsBelow (k : Nat) : List Nat :=
  (List.range k).map fun j => 2 * j + 1

/-! ## The account handler (`api/handlers/accountinfo_handler.go`) -/

/-- The constant `shardCount`. -/
def shardCount : Nat := 20

/-- The constant `maxShowAccountNum`. -/
def maxShowAccountNum : Nat := 10000

/-- The constant `txCount`. -/
def txCount : Nat := 25

/-- The constant `remianTotalBalance`, which excludes a division by zero. -/
def remianTotalBalance : Int := 1

/-- Modelled from the spec: `database.DBTx` is declared outside `src/`; the
fields are the ones `types.go` reads. -/
structure DBTx where
  TxType : Int
  Hash : String
  Block : String
  From : String
  To : String
  Amount : Int
  Pending : Bool
  Fee : Int
  Timestamp : String
  ShardNumber : Int
  AccountNonce : String
  Payload : String
  deriving DecidableEq, Repr

/-- Modelled from the spec: the interface `BlockInfoDB` is declared outside
`src/`; the methods are the ones the account handler calls, with the
signatures of `database.Client`.  An answer `none` is a call that returned an
error.  `GetTotalBalance` answers with the mapping it returns and whether it
also returned an error. -/
structure BlockInfoDB where
  GetAccountsByShardNumber : Int → Int → Option (List DBAccount)
  GetTotalBalance : (Int → Option Int) × Bool
  GetAccountByAddress : String → Option DBAccount
  GetTxsByAddresss : String → Int → Option (List DBTx)
  GetPendingTxsByAddress : String → Option (List DBTx)

/-- The quotient `float64(num) / float64(den)` of two `int64`, kept as its two
operands. -/
structure FloatQuot where
  num : Int
  den : Int
  deriving DecidableEq, Repr

/-- The type `RetSimpleAccountInfo` (`types.go`). -/
structure RetSimpleAccountInfo where
  AccType : Int
  ShardNumber : Int
  Rank : Int
  Address : String
  Balance : Int
  Percentage : FloatQuot
  TxCount : Int
  deriving DecidableEq, Repr

/-- The type `RetDetailAccountTxInfo` (`types.go`). -/
structure RetDetailAccountTxInfo where
  ShardNumber : Int
  TxType : Int
  Hash : String
  Block : String
  From : String
  To : String
  Value : Int
  Age : String
  Fee : Int
  InOrOut : Bool
  Pending : Bool
  deriving DecidableEq, Repr

/-- The type `RetDetailAccountInfo` (`types.go`). -/
structure RetDetailAccountInfo where
  AccType : Int
  ShardNumber : Int
  Address : String
  Balance : Int
  Percentage : FloatQuot
  TxCount : Int
  ContractCreationCode : String
  Txs : List RetDetailAccountTxInfo
  deriving DecidableEq, Repr

/-- What `types.go` takes from outside the repository to describe an age:
`now` is `time.Now().Unix()`, and `parseTimestamp` is
`big.Int.UnmarshalText` followed by `Int64()`, `none` when the text is not a
number. -/
structure Clock where
  now : Int
  parseTimestamp : String → Option Int

/-- The value of an `int64` expression after overflow. -/
def wrapI64 (x : Int) : Int := (x + 2 ^ 63) % 2 ^ 64 - 2 ^ 63

/-- `getElpasedTimeDesc` (`types.go` lines 249-278), on the `int64` value
`minerTimeStamp` of its argument. -/
def getElpasedTimeDesc (clock : Clock) (minerTimeStamp : Int) : String :=
  let elpasedSec := wrapI64 (clock.now - minerTimeStamp)
  if elpasedSec > 365 * 24 * 60 * 60 then
    toString (Int.tdiv elpasedSec (365 * 24 * 60 * 60)) ++ " years ago"
  else if elpasedSec > 30 * 24 * 60 * 60 then
    toString (Int.tdiv elpasedSec (30 * 24 * 60 * 60)) ++ " months ago"
  else if elpasedSec > 24 * 60 * 60 then
    toString (Int.tdiv elpasedSec (24 * 60 * 60)) ++ " days ago"
  else if elpasedSec > 60 * 60 then
    toString (Int.tdiv elpasedSec (60 * 60)) ++ " hours ago"
  else if elpasedSec > 60 then
    toString (Int.tdiv elpasedSec 60) ++ " mins ago"
  else
    toString (if elpasedSec ≤ 0 then 1 else elpasedSec) ++ " secs ago"

/-- `createRetSimpleAccountInfo` (`types.go` lines 196-205); `Rank` is left at
its zero value. -/
def createRetSimpleAccountInfo (account : DBAccount) (ttBalance : Int) : RetSimpleAccountInfo :=
  { AccType := account.AccType
    Address := account.Address
    Balance := account.Balance
    TxCount := account.TxCount
    Percentage := ⟨account.Balance, ttBalance⟩
    ShardNumber := account.ShardNumber
    Rank := 0 }

/-- The body of the loop of `createRetDetailAccountInfo` that converts one
transaction (`types.go` lines 217-238). -/
def createRetDetailAccountTxInfo (clock : Clock) (account : DBAccount) (t : DBTx) :
    RetDetailAccountTxInfo :=
  { TxType := t.TxType
    Value := t.Amount
    Block := t.Block
    From := t.From
    Hash := t.Hash
    To := t.To
    ShardNumber := t.ShardNumber
    InOrOut := if t.From = account.Address then false else true
    Age := match clock.parseTimestamp t.Timestamp with
      | some minerTimeStamp => getElpasedTimeDesc clock minerTimeStamp
      | none => ""
    Fee := t.Fee
    Pending := t.Pending }

/-- The loop of `createRetDetailAccountInfo` over `txs`, which appends to
`ret.Txs` and overwrites `ret.ContractCreationCode`. -/
def detailTxLoop (clock : Clock) (account : DBAccount) :
    List DBTx → RetDetailAccountInfo → RetDetailAccountInfo
  | [], ret => ret
  | t :: rest, ret =>
    let ret1 := { ret with Txs := ret.Txs ++ [createRetDetailAccountTxInfo clock account t] }
    let ret2 := if t.TxType = 1 then { ret1 with ContractCreationCode := t.Payload } else ret1
    detailTxLoop clock account rest ret2

/-- `createRetDetailAccountInfo` (`types.go` lines 208-246). -/
def createRetDetailAccountInfo (clock : Clock) (account : DBAccount) (txs : List DBTx)
    (ttBalance : Int) : RetDetailAccountInfo :=
  let ret : RetDetailAccountInfo :=
    { AccType := account.AccType
      Address := account.Address
      Balance := account.Balance
      TxCount := account.TxCount
      Percentage := ⟨account.Balance, ttBalance⟩
      ShardNumber := 0
      ContractCreationCode := ""
      Txs := [] }
  { detailTxLoop clock account txs ret with ShardNumber := account.ShardNumber }

/-- The type `AccountTbl`; the mutex is left out. -/
structure AccountTbl where
  shardNumber : Int
  DBClient : BlockInfoDB
  accountTbl : List DBAccount
  totalBalance : Int

/-- `AccountTbl.ProcessGAccountTable` (lines 32-41). -/
def AccountTbl.ProcessGAccountTable (a : AccountTbl) : AccountTbl :=
  match a.DBClient.GetAccountsByShardNumber a.shardNumber maxShowAccountNum with
  | none => a
  | some temp => { a with accountTbl := temp }

/-- `AccountTbl.GetAccountCnt` (lines 44-49). -/
def AccountTbl.GetAccountCnt (a : AccountTbl) : Nat :=
  a.accountTbl.length

/-- The upper bound `GetAccountsByIdx` slices with (lines 54-56): `end` is
replaced by `uint64(len(a.accountTbl)) - 1`, in `uint64` arithmetic, when it
exceeds the length `n`. -/
def clampEnd (n end_ : Nat) : Nat :=
  if end_ > n then decU64 n else end_

/-- `AccountTbl.GetAccountsByIdx` (lines 52-61) on `uint64` values `begin` and
`end`; `none` is the run-time panic of the slice expression
`a.accountTbl[begin:end]`.  The bound of a Go slice expression is the
capacity; after the clamp the upper bound is at most the length or it is
`2 ^ 64 - 1`, so the length decides. -/
def AccountTbl.GetAccountsByIdx (a : AccountTbl) (begin end_ : Nat) : Option (List DBAccount) :=
  let end' := clampEnd a.accountTbl.length end_
  if begin ≤ end' ∧ end' ≤ a.accountTbl.length then
    some ((a.accountTbl.drop begin).take (end' - begin))
  else
    none

/-- The loop of `getAccountsByBeginAndEnd` (lines 69-75), entered with
counter `i`. -/
def rankLoop (ttBalance : Int) : Nat → List DBAccount → List RetSimpleAccountInfo
  | _, [] => []
  | i, data :: rest =>
    { createRetSimpleAccountInfo data ttBalance with Rank := (i : Int) + 1 }
      :: rankLoop ttBalance (i + 1) rest

/-- `AccountTbl.getAccountsByBeginAndEnd` (lines 64-78); `none` is the panic
of `GetAccountsByIdx`. -/
def AccountTbl.getAccountsByBeginAndEnd (a : AccountTbl) (begin end_ : Nat) :
    Option (List RetSimpleAccountInfo) :=
  match a.GetAccountsByIdx begin end_ with
  | none => none
  | some dbAccounts => some (rankLoop a.totalBalance 0 dbAccounts)

/-- The type `AccountHandler`. -/
structure AccountHandler where
  accTbls : List AccountTbl
  DBClient : BlockInfoDB

/-- One pass of a loop that updates the table at index `idx i` in place;
`none` is the panic of an index out of range. -/
def updateTblAt (idx : Nat → Nat) (f : Nat → AccountTbl → AccountTbl)
    (tbls : List AccountTbl) (i : Nat) : Option (List AccountTbl) :=
  if idx i < tbls.length then some (tbls.modify (f i) (idx i)) else none

/-- The body of the second loop of `updateImpl` (lines 115-119) on the table
at index `i`. -/
def setTotalBalance (totalBalances : Int → Option Int) (i : Nat) (a : AccountTbl) : AccountTbl :=
  match totalBalances ((i : Int) + 1) with
  | some v => { a with totalBalance := v }
  | none => { a with totalBalance := remianTotalBalance }

/-- `AccountHandler.updateImpl` (lines 103-121); `none` is the panic of an
index out of range.  The first loop runs for `1 ≤ i < shardCount` on the table
at index `i - 1`, the second for `0 ≤ i < shardCount` on the table at index
`i` with the key `i + 1`. -/
def AccountHandler.updateImpl (h : AccountHandler) : Option AccountHandler :=
  match (List.range' 1 (shardCount - 1)).foldlM
      (updateTblAt (fun i => i - 1) (fun _ a => a.ProcessGAccountTable)) h.accTbls with
  | none => none
  | some tbls1 =>
    let totalBalances := h.DBClient.GetTotalBalance.1
    match (List.range shardCount).foldlM
        (updateTblAt (fun i => i) (setTotalBalance totalBalances)) tbls1 with
    | none => none
    | some tbls2 => some { h with accTbls := tbls2 }

/-- The tables `NewAccHandler` builds in its loop `for i := 1; i <= shardCount;
i++` (lines 88-92). -/
def newAccTbls (DBClient : BlockInfoDB) : List AccountTbl :=
  (List.range' 1 shardCount).map fun (i : Nat) =>
    { shardNumber := (i : Int), DBClient := DBClient, accountTbl := [], totalBalance := 0 }

/-- `NewAccHandler` (lines 87-101). -/
def NewAccHandler (DBClient : BlockInfoDB) : Option AccountHandler :=
  AccountHandler.updateImpl { accTbls := newAccTbls DBClient, DBClient := DBClient }

/-- `AccountHandler.GetAccountByAddressImpl` (lines 186-217).  The outer
`none` is the panic of an index out of range, the inner `none` the result
`nil`. -/
def AccountHandler.GetAccountByAddressImpl (clock : Clock) (h : AccountHandler)
    (address : String) : Option (Option RetDetailAccountInfo) :=
  match h.DBClient.GetAccountByAddress address with
  | none => some none
  | some data =>
    if data.AccType ≠ 0 then some none
    else
      match h.DBClient.GetTxsByAddresss address txCount with
      | none => some none
      | some txs =>
        match h.DBClient.GetPendingTxsByAddress address with
        | none => some none
        | some pengdingTxs =>
          let txs := pengdingTxs ++ txs
          if data.ShardNumber ≥ 1 ∧ data.ShardNumber ≤ shardCount then
            match h.accTbls[(data.ShardNumber - 1).toNat]? with
            | none => none
            | some tbl => some (some (createRetDetailAccountInfo clock data txs tbl.totalBalance))
          else
            some (some (createRetDetailAccountInfo clock data txs 0))

/-! ## The account collection of the store (`database/client.go`) -/

/-- The query of `Client.GetAccountsByShardNumber` (lines 508-515) on an
account collection: the external accounts of the shard, by falling balance,
at most `max` of them. -/
def storeGetAccountsByShardNumber (accounts : List DBAccount) (shardNumber max : Int) :
    List DBAccount :=
  ((accounts.filter fun a => a.AccType = 0 ∧ a.ShardNumber = shardNumber).insertionSort
    (fun a b => b.Balance ≤ a.Balance)).take max.toNat

/-- Whether the reduce function of `Client.GetTotalBalance`, the `Array.sum`
of the server, which adds in double-precision floats, adds the values without
rounding in every order and grouping: their absolute values sum to at most
`2 ^ 53`. -/
def sumsExactly (values : List Int) : Bool :=
  decide ((values.map Int.natAbs).sum ≤ 2 ^ 53)

/-- The map-reduce of `Client.GetTotalBalance` (lines 528-554) on an account
collection: for every shard that has an account, the sum of the balances of
its accounts, of both types.  Where the floats of the server add the balances
of the shard without rounding the total is their sum, which an `int64` holds;
where they do not, the total is not modelled: it is the answer of
`inexact`. -/
def storeGetTotalBalance (accounts : List DBAccount) (inexact : Int → Option Int)
    (shardNumber : Int) : Option Int :=
  if accounts.any (fun a => a.ShardNumber = shardNumber) then
    if sumsExactly ((accounts.filter fun a => a.ShardNumber = shardNumber).map (·.Balance)) then
      some ((accounts.filter fun a => a.ShardNumber = shardNumber).map (·.Balance)).sum
    else
      inexact shardNumber
  else
    none

/-- A store whose account collection is `accounts` and does not change; the
other queries, and the totals that the server does not add exactly, are those
of `base`. -/
def storeDB (accounts : List DBAccount) (base : BlockInfoDB) : BlockInfoDB :=
  { base with
    GetAccountsByShardNumber := fun s max => some (storeGetAccountsByShardNumber accounts s max)
    GetTotalBalance := (storeGetTotalBalance accounts base.GetTotalBalance.1, false) }

/-- The sum of `balance / T` over a snapshot, in exact rationals. -/
def shareSum (snapshot : List DBAccount) (T : Int) : ℚ :=
  (snapshot.map fun a => (a.Balance : ℚ) / (T : ℚ)).sum

/-! ## Example stores and tables -/

/-- An account of the examples. -/
def exampleAccount (address : String) (balance shardNumber : Int) : DBAccount :=
  { AccType := 0, Address := address, Balance := balance, TxCount := 1,
    ShardNumber := shardNumber, Mined := 0 }

/-- A store that answers no query. -/
def downDB : BlockInfoDB where
  GetAccountsByShardNumber := fun _ _ => none
  GetTotalBalance := (fun _ => none, true)
  GetAccountByAddress := fun _ => none
  GetTxsByAddresss := fun _ _ => none
  GetPendingTxsByAddress := fun _ => none

/-- An example store: `alice` (balance 70) and `bob` (balance 30) in shard 1,
`zoe` (balance 5) in shard 20. -/
def exampleDB : BlockInfoDB :=
  storeDB [exampleAccount "bob" 30 1, exampleAccount "alice" 70 1, exampleAccount "zoe" 5 20]
    downDB

/-- An example table: a snapshot of three accounts with total balance 100. -/
def exampleTbl : AccountTbl where
  shardNumber := 1
  DBClient := downDB
  accountTbl := [exampleAccount "a" 50 1, exampleAccount "b" 30 1, exampleAccount "c" 20 1]
  totalBalance := 100

/-- An example store in which the contract `c` of shard 1 holds a negative
balance. -/
def negativeDB : BlockInfoDB :=
  storeDB [exampleAccount "a" 10 1,
    { AccType := 1, Address := "c", Balance := -8, TxCount := 0, ShardNumber := 1, Mined := 0 }]
    downDB

/-- An example store for the detail of the account `alice`: one persisted and
one pending transaction. -/
def detailDB : BlockInfoDB :=
  { exampleDB with
    GetAccountByAddress := fun a =>
      if a = "alice" then some (exampleAccount "alice" 70 1) else none
    GetTxsByAddresss := fun _ _ =>
      some [{ TxType := 0, Hash := "t1", Block := "7", From := "alice", To := "bob",
              Amount := 3, Pending := false, Fee := 1, Timestamp := "100", ShardNumber := 1,
              AccountNonce := "0", Payload := "" }]
    GetPendingTxsByAddress := fun _ =>
      some [{ TxType := 0, Hash := "p1", Block := "", From := "bob", To := "alice",
              Amount := 4, Pending := true, Fee := 1, Timestamp := "200", ShardNumber := 1,
              AccountNonce := "1", Payload := "" }] }

/-- An example clock: the time 1000, and timestamps that are never numbers. -/
def exampleClock : Clock where
  now := 1000
  parseTimestamp := fun _ => none

/-- An example table with an empty snapshot. -/
def emptyTbl : AccountTbl where
  shardNumber := 1
  DBClient := downDB
  accountTbl := []
  totalBalance := 1

/-! ## The block and transaction collections of the store (`database/client.go`) -/

/-- Modelled from the spec: a document of the collection `block`.  The record
`database.DBBlock` is declared outside `src/`; the keys `shardNumber` and
`height` are the ones the queries of `client.go` select on. -/
structure BlockDoc where
  shardNumber : Int
  height : Nat
  block : DBBlock
  deriving DecidableEq, Repr

/-- The collections `block` and `transaction`, each in the order in which the
server walks it. -/
structure Collections where
  block : List BlockDoc
  transaction : List DBTx
  deriving DecidableEq, Repr

/-- The call `Remove(selector)` of the driver on a collection: one document
is deleted, the first that the selector matches; the call fails (`false`)
when the selector matches none. -/
def collectionRemove {α : Type} (selector : α → Bool) (c : List α) : List α × Bool :=
  (c.eraseP selector, c.any selector)

/-- `Client.RemoveBlock` (lines 119-125): the selector is
`{"height": height}`. -/
def storeRemoveBlock (st : Collections) (height : Nat) : Collections × Bool :=
  let r := collectionRemove (fun d : BlockDoc => d.height = height) st.block
  ({ st with block := r.1 }, r.2)

/-- `Client.RemoveTxs` (lines 224-230): the selector is
`{"block": strconv.FormatUint(blockHeight, 10)}`. -/
def storeRemoveTxs (st : Collections) (blockHeight : Nat) : Collections × Bool :=
  let r := collectionRemove (fun t : DBTx => t.Block = toString blockHeight) st.transaction
  ({ st with transaction := r.1 }, r.2)

/-- `Client.GetBlockByHeight` (lines 128-135): the selector is
`{"height": height, "shardNumber": shardNumber}`; `none` when no document
matches. -/
def storeGetBlockByHeight (st : Collections) (shardNumber : Int) (height : Nat) :
    Option DBBlock :=
  (st.block.find? fun d => d.height = height ∧ d.shardNumber = shardNumber).map (·.block)

/-- `Client.GetBlockHeight` (lines 172-184): the number of documents of the
shard. -/
def storeGetBlockHeight (st : Collections) (shardNumber : Int) : Nat :=
  st.block.countP fun d => d.shardNumber = shardNumber

/-- The effect of one call of the rollback scan on the collections `block`
and `transaction`.  `RemoveBlock` and `RemoveTxs` are the only calls of the
scan that write to them; its other writes go to the collection `account`. -/
def rollbackEffect (st : Collections) : Event → Collections
  | .dbRemoveBlock height => (storeRemoveBlock st height).1
  | .dbRemoveTxs height => (storeRemoveTxs st height).1
  | _ => st

/-- The collections after the calls `tr` of a rollback scan that started on
`st`. -/
def storeAfter (st : Collections) (tr : Trace) : Collections :=
  tr.foldl rollbackEffect st

/-- The walker of shard `shardNumber` on a store whose collections are `st`
before the first call, in front of a node that serves the blocks `remote`.
The block queries are answered from the collections as the calls made so far
have left them; the account queries succeed with an empty account. -/
def storeWorld (shardNumber : Int) (st : Collections) (remote : Nat → Option RpcBlock) :
    World where
  shardNumber := shardNumber
  nullAddress := "0x0"
  dbGetBlockHeight := fun tr s => some (storeGetBlockHeight (storeAfter st tr) s)
  rpcGetBlockByHeight := fun _ h _ => remote h
  dbGetBlockByHeight := fun tr s h => storeGetBlockByHeight (storeAfter st tr) s h
  dbGetAccountByAddress := fun _ a => some (CreateEmptyAccount a shardNumber)
  rpcGetBalance := fun _ _ => some 0
  dbGetTxCnt := fun _ _ _ => some 0
  dbAddAccount := fun _ _ => true
  dbGetMinedBlocksCnt := fun _ _ _ => some 0
  rpcCurrentBlock := fun _ => none
  blockSync := fun _ _ => false
  txSync := fun _ _ => false
  accountSync := fun _ _ => false

/-- A transaction of the examples, stored for the block at `height` of shard
`shardNumber`. -/
def exampleTx (hash : String) (shardNumber : Int) (height : Nat) : DBTx :=
  { TxType := 0, Hash := hash, Block := toString height, From := "alice", To := "bob",
    Amount := 1, Pending := false, Fee := 0, Timestamp := "0", ShardNumber := shardNumber,
    AccountNonce := "0", Payload := "" }

/-- The remote chain of the store examples: hash `g` at height 0 and hash
`new` at height 1. -/
def forkRemote (h : Nat) : Option RpcBlock :=
  if h = 0 then some ⟨"g", 0⟩ else if h = 1 then some ⟨"new", 1⟩ else none

/-- A store shared by the walkers of shards 1 and 2.  Shard 2 stored its block
of height 1 and the transaction `t2` of that block first; shard 1 holds the
blocks of heights 0 and 1, the latter with the stale hash `old` and the
transaction `t1`. -/
def twoShardStore : Collections where
  block :=
    [⟨2, 1, ⟨"other", "0x0", [⟨"alice", "bob"⟩]⟩⟩,
     ⟨1, 0, ⟨"g", "0x0", []⟩⟩,
     ⟨1, 1, ⟨"old", "0x0", [⟨"alice", "bob"⟩]⟩⟩]
  transaction := [exampleTx "t2" 2 1, exampleTx "t1" 1 1]

/-- A store that holds only shard 1: the blocks of heights 0 and 1, the latter
with the stale hash `old` and the two transactions `t1` and `t2`. -/
def twoTxStore : Collections where
  block :=
    [⟨1, 0, ⟨"g", "0x0", []⟩⟩,
     ⟨1, 1, ⟨"old", "0x0", [⟨"alice", "bob"⟩, ⟨"alice", "bob"⟩]⟩⟩]
  transaction := [exampleTx "t1" 1 1, exampleTx "t2" 1 1]

/-! ## A rebuild and a reader of one table, step by step -/

/-- The fields of an `AccountTbl` that goroutines share, with the state of
its `accMutex`: whether the write lock is held, and how many read locks are
held. -/
structure TblMem where
  accountTbl : List DBAccount
  totalBalance : Int
  writeLocked : Bool
  readLocks : Nat
  deriving DecidableEq, Repr

/-- The code that a goroutine still has to run on one table, as a sequence of
steps.  A step is a call of `accMutex` or one read or one write of a shared
field; a read hands the value it finds to the code that follows.  `panicked`
is the end at a run-time panic. -/
inductive Prog (α : Type) where
  | done (result : α)
  | panicked
  | Lock (k : Prog α)
  | Unlock (k : Prog α)
  | RLock (k : Prog α)
  | RUnlock (k : Prog α)
  | readAccountTbl (k : List DBAccount → Prog α)
  | writeAccountTbl (v : List DBAccount) (k : Prog α)
  | readTotalBalance (k : Int → Prog α)
  | writeTotalBalance (v : Int) (k : Prog α)

/-- The result of code that has ended without a panic. -/
def Prog.result? {α : Type} : Prog α → Option α
  | .done result => some result
  | _ => none

/-- Whether code has ended at a panic. -/
def Prog.hasPanicked {α : Type} : Prog α → Bool
  | .panicked => true
  | _ => false

/-- One step of a goroutine on the shared fields; `none` when the goroutine
has ended or is blocked.  `Lock` of a `sync.RWMutex` waits until no lock is
held, `RLock` waits while the write lock is held. -/
def Prog.step {α : Type} : Prog α → TblMem → Option (Prog α × TblMem)
  | .done _, _ => none
  | .panicked, _ => none
  | .Lock k, m =>
    if m.writeLocked = false ∧ m.readLocks = 0 then some (k, { m with writeLocked := true })
    else none
  | .Unlock k, m => some (k, { m with writeLocked := false })
  | .RLock k, m =>
    if m.writeLocked = false then some (k, { m with readLocks := m.readLocks + 1 }) else none
  | .RUnlock k, m => some (k, { m with readLocks := m.readLocks - 1 })
  | .readAccountTbl k, m => some (k m.accountTbl, m)
  | .writeAccountTbl v k, m => some (k, { m with accountTbl := v })
  | .readTotalBalance k, m => some (k m.totalBalance, m)
  | .writeTotalBalance v k, m => some (k, { m with totalBalance := v })

/-- `AccountTbl.ProcessGAccountTable` (lines 32-41) as steps on the shared
fields, followed by the code `k`: the query of the store is not a step on the
table; when it succeeds the snapshot is assigned between `Lock` and
`Unlock`. -/
def AccountTbl.ProcessGAccountTableSteps {α : Type} (a : AccountTbl) (k : Prog α) : Prog α :=
  match a.DBClient.GetAccountsByShardNumber a.shardNumber maxShowAccountNum with
  | none => k
  | some temp => .Lock (.writeAccountTbl temp (.Unlock k))

/-- The steps of `AccountHandler.updateImpl` (lines 103-121) on the table `a`
at index `j`: `ProcessGAccountTable` in the first loop, when `j + 1 <
shardCount`, and the assignment of the total in the second loop (lines
115-119).  The passes of the loops for the other tables and the call of
`GetTotalBalance` lie between the two; they are no steps on this table. -/
def AccountHandler.updateImplSteps (h : AccountHandler) (j : Nat) (a : AccountTbl) :
    Prog Unit :=
  let second : Prog Unit :=
    .writeTotalBalance (setTotalBalance h.DBClient.GetTotalBalance.1 j a).totalBalance
      (.done ())
  if j + 1 < shardCount then a.ProcessGAccountTableSteps second else second

/-- The slice expression `a.accountTbl[begin:end]` of `GetAccountsByIdx` (line
58) and the `RUnlock` that follows it; the slice expression reads the field
and panics when the bounds are out of range, before `RUnlock` is reached.  As
in the sequential `GetAccountsByIdx`, the length of the slice read stands for
its capacity. -/
def sliceSteps {α : Type} (begin end_ : Nat) (k : List DBAccount → Prog α) : Prog α :=
  .readAccountTbl fun t =>
    if begin ≤ end_ ∧ end_ ≤ t.length then .RUnlock (k ((t.drop begin).take (end_ - begin)))
    else .panicked

/-- `AccountTbl.GetAccountsByIdx` (lines 52-61) as steps on the shared fields,
followed by the code `k` on its result: `RLock`, the read of the field for the
test `end > uint64(len(a.accountTbl))`, the read of the field for the
assignment `end = uint64(len(a.accountTbl)) - 1` when the test holds, and the
slice expression. -/
def GetAccountsByIdxSteps {α : Type} (begin end_ : Nat) (k : List DBAccount → Prog α) :
    Prog α :=
  .RLock (.readAccountTbl fun t1 =>
    if end_ > t1.length then
      .readAccountTbl fun t2 => sliceSteps begin (decU64 t2.length) k
    else
      sliceSteps begin end_ k)

/-- The loop of `getAccountsByBeginAndEnd` (lines 69-75) as steps, entered
with counter `i` and the entries `accounts` built so far: every pass reads
the field `totalBalance` (line 72). -/
def rankLoopSteps : Nat → List DBAccount → List RetSimpleAccountInfo →
    Prog (List RetSimpleAccountInfo)
  | _, [], accounts => .done accounts
  | i, data :: rest, accounts =>
    .readTotalBalance fun ttBalance =>
      rankLoopSteps (i + 1) rest
        (accounts ++ [{ createRetSimpleAccountInfo data ttBalance with Rank := (i : Int) + 1 }])

/-- `AccountTbl.getAccountsByBeginAndEnd` (lines 64-78) as steps on the shared
fields. -/
def getAccountsByBeginAndEndSteps (begin end_ : Nat) : Prog (List RetSimpleAccountInfo) :=
  GetAccountsByIdxSteps begin end_ fun dbAccounts => rankLoopSteps 0 dbAccounts []

/-- A rebuild and a reader at work on one table: the shared fields and the
code each of the two goroutines still has to run. -/
structure Config (α : Type) where
  mem : TblMem
  writer : Prog Unit
  reader : Prog α

/-- One step of the goroutine that the scheduler picks, the rebuild when
`writerMoves` holds and the reader otherwise; a goroutine that has ended or is
blocked does not move. -/
def Config.move {α : Type} (c : Config α) (writerMoves : Bool) : Config α :=
  if writerMoves then
    match c.writer.step c.mem with
    | some (w, m) => { c with writer := w, mem := m }
    | none => c
  else
    match c.reader.step c.mem with
    | some (r, m) => { c with reader := r, mem := m }
    | none => c

/-- The run of the two goroutines under a schedule, the list of the choices
of the scheduler. -/
def Config.run {α : Type} (c : Config α) (schedule : List Bool) : Config α :=
  schedule.foldl Config.move c

/-- `AccountTbl.GetAccountCnt` (lines 44-49) as steps on the shared fields. -/
def GetAccountCntSteps : Prog Nat :=
  .RLock (.readAccountTbl fun t => .RUnlock (.done t.length))

/-- The table `a`, no lock held, with a run of `updateImpl` about to start on
it as the table at index `j` of the handler `h`, and a reader about to
start. -/
def AccountHandler.rebuildWith {α : Type} (h : AccountHandler) (j : Nat) (a : AccountTbl)
    (reader : Prog α) : Config α where
  mem := { accountTbl := a.accountTbl, totalBalance := a.totalBalance,
           writeLocked := false, readLocks := 0 }
  writer := h.updateImplSteps j a
  reader := reader

/-- The points of a rebuild that replaces the snapshot `old` by `new` and then
the total `oldTotal` by `total`, each with what holds of the locks and of the
shared fields when the rebuild stands there. -/
def rebuildAt (old new : List DBAccount) (oldTotal total : Int) (m : TblMem)
    (w : Prog Unit) : Prop :=
  (w = .Lock (.writeAccountTbl new (.Unlock (.writeTotalBalance total (.done ()))))
      ∧ m.accountTbl = old ∧ m.totalBalance = oldTotal)
    ∨ (w = .writeAccountTbl new (.Unlock (.writeTotalBalance total (.done ())))
      ∧ m.writeLocked = true ∧ m.readLocks = 0 ∧ m.accountTbl = old
      ∧ m.totalBalance = oldTotal)
    ∨ (w = .Unlock (.writeTotalBalance total (.done ()))
      ∧ m.writeLocked = true ∧ m.readLocks = 0 ∧ m.accountTbl = new
      ∧ m.totalBalance = oldTotal)
    ∨ (w = .writeTotalBalance total (.done ()) ∧ m.writeLocked = false ∧ m.accountTbl = new
      ∧ m.totalBalance = oldTotal)
    ∨ (w = .done () ∧ m.writeLocked = false ∧ m.accountTbl = new ∧ m.totalBalance = total)

/-- What `GetAccountsByIdx` returns on the snapshot `s` without a rebuild at
work: the slice between `begin` and the clamped `end`, when the bounds are in
range. -/
def pageOf (begin end_ : Nat) (s page : List DBAccount) : Prop :=
  begin ≤ clampEnd s.length end_ ∧ clampEnd s.length end_ ≤ s.length
    ∧ page = (s.drop begin).take (clampEnd s.length end_ - begin)

/-- The points of a call of `GetAccountsByIdx`, followed by the code `k`,
during a rebuild that replaces the snapshot `old` by `new`, each with what
holds of the locks and of the values read so far when the reader stands
there; `after page` are the points of the code `k` on the page `page`. -/
def readerAt {α : Type} (begin end_ : Nat) (old new : List DBAccount)
    (k : List DBAccount → Prog α) (after : List DBAccount → Prog α → Prop)
    (m : TblMem) (r : Prog α) : Prop :=
  (r = GetAccountsByIdxSteps begin end_ k ∧ m.readLocks = 0)
    ∨ (r = .readAccountTbl (fun t1 =>
          if end_ > t1.length then
            .readAccountTbl fun t2 => sliceSteps begin (decU64 t2.length) k
          else
            sliceSteps begin end_ k)
      ∧ m.readLocks = 1 ∧ m.writeLocked = false)
    ∨ (r = .readAccountTbl (fun t2 => sliceSteps begin (decU64 t2.length) k)
      ∧ m.readLocks = 1 ∧ m.writeLocked = false ∧ end_ > m.accountTbl.length)
    ∨ (r = sliceSteps begin (clampEnd m.accountTbl.length end_) k
      ∧ m.readLocks = 1 ∧ m.writeLocked = false)
    ∨ (∃ page, r = .RUnlock (k page) ∧ m.readLocks = 1 ∧ m.writeLocked = false
      ∧ pageOf begin end_ m.accountTbl page)
    ∨ (∃ page, after page r ∧ m.readLocks = 0
      ∧ (pageOf begin end_ old page ∨ pageOf begin end_ new page))
    ∨ (r = .panicked ∧ m.readLocks = 1 ∧ m.writeLocked = false
      ∧ ¬ (begin ≤ clampEnd m.accountTbl.length end_
        ∧ clampEnd m.accountTbl.length end_ ≤ m.accountTbl.length))

/-- The points of the loop of `getAccountsByBeginAndEnd` on the page `page`
during a rebuild that replaces the total `oldTotal` by `total`: the accounts
`pre` of the page have been listed, each with one of the two totals, and the
accounts `rest` are still to come. -/
def rankLoopAt (oldTotal total : Int) (page : List DBAccount)
    (r : Prog (List RetSimpleAccountInfo)) : Prop :=
  ∃ (pre rest : List DBAccount) (accounts : List RetSimpleAccountInfo),
    r = rankLoopSteps pre.length rest accounts ∧ page = pre ++ rest
      ∧ accounts.length = pre.length
      ∧ ∀ (i : Nat) (data : DBAccount), pre[i]? = some data →
          ∃ tt, (tt = oldTotal ∨ tt = total)
            ∧ accounts[i]?
              = some { createRetSimpleAccountInfo data tt with Rank := (i : Int) + 1 }

/-- The points of a call of `GetAccountCnt` during a rebuild that replaces the
snapshot `old` by `new`. -/
def countAt (old new : List DBAccount) (m : TblMem) (r : Prog Nat) : Prop :=
  (r = GetAccountCntSteps ∧ m.readLocks = 0)
    ∨ (r = .readAccountTbl (fun t => .RUnlock (.done t.length))
      ∧ m.readLocks = 1 ∧ m.writeLocked = false)
    ∨ (r = .RUnlock (.done m.accountTbl.length) ∧ m.readLocks = 1 ∧ m.writeLocked = false)
    ∨ (∃ n, r = .done n ∧ m.readLocks = 0 ∧ (n = old.length ∨ n = new.length))

/-- The table of shard 1 with the snapshot and the total that a run of
`updateImpl` stored while the store held only `bob` (balance 30), at the time
the store has become that of `exampleDB`. -/
def staleTbl : AccountTbl where
  shardNumber := 1
  DBClient := exampleDB
  accountTbl := [exampleAccount "bob" 30 1]
  totalBalance := 30

/-- The table `staleTbl` with a rebuild and a reader about to start. -/
def staleConfig {α : Type} (reader : Prog α) : Config α :=
  AccountHandler.rebuildWith ⟨newAccTbls exampleDB, exampleDB⟩ 0 staleTbl reader

/-- A store whose account collection holds one account, the empty account of
the block creator `miner` in shard 1, with balance 0. -/
def zeroDB : BlockInfoDB :=
  storeDB [CreateEmptyAccount "miner" 1] downDB

/-! ## Further example worlds -/

/-- The replica of `transferWorld` on a store whose block count query
succeeds while no other call has been made and fails afterwards: the rollback
scan reads the count, the read of `sync` that follows `CurrentBlock` fails. -/
def heightLostWorld : World :=
  { transferWorld with
    dbGetBlockHeight := fun tr _ => if tr = [] then some 2 else none }

/-- The replica of `transferWorld` in front of a remote chain that differs at
both heights: the scan deletes height 1 and reaches height 0 with a
mismatch. -/
def reorgFromGenesisWorld : World :=
  { transferWorld with
    rpcGetBlockByHeight := fun _ h _ =>
      if h = 0 then some ⟨"new", 0⟩ else if h = 1 then some ⟨"new", 1⟩ else none
    dbGetBlockByHeight := fun _ _ h =>
      if h = 0 then some ⟨"old", "0x0", []⟩
      else if h = 1 then some ⟨"old", "0x0", [⟨"alice", "bob"⟩]⟩
      else none }

/-- The replica of `transferWorld` when the stale block of height 1 was mined
by `miner` and every balance fetch, transaction count query and mined count
query fails. -/
def countsDownWorld : World :=
  { transferWorld with
    dbGetBlockByHeight := fun _ _ h =>
      if h = 0 then some ⟨"g", "0x0", []⟩
      else if h = 1 then some ⟨"old", "miner", [⟨"alice", "bob"⟩]⟩
      else none
    rpcGetBalance := fun _ _ => none
    dbGetTxCnt := fun _ _ _ => none
    dbGetMinedBlocksCnt := fun _ _ _ => none }

/-! ## Lemmas on the rollback scan -/

theorem removals_append (a b : List Event) : removals (a ++ b) = removals a ++ removals b := by
  simp [removals]

theorem removals_txStep (w : World) (tx : DBBlockTx) (tr : Trace) :
    removals (txStep w tx tr).1 = [] := by
  unfold txStep
  split
  · simp [removals, isRemoval]
  · split_ifs <;> simp [removals, isRemoval]

theorem removals_txLoop (w : World) (txs : List DBBlockTx) :
    ∀ tr : Trace, removals (txLoop w txs tr).1 = [] := by
  induction txs with
  | nil => intro tr; simp [txLoop, removals]
  | cons tx rest ih =>
    intro tr
    simp only [txLoop]
    split_ifs
    · simp [removals_append, removals_txStep, ih]
    · exact removals_txStep w tx tr

theorem removals_minerUpdate (w : World) (b : DBBlock) (tr : Trace) :
    removals (minerUpdate w b tr) = [] := by
  unfold minerUpdate
  split_ifs
  · split
    · simp [removals, isRemoval]
    · dsimp only
      split_ifs <;> simp [removals, isRemoval]
  · simp [removals]

theorem heightsDown_succ {hi lo : Nat} (h : lo ≤ hi) :
    heightsDown (hi + 1) lo = hi :: heightsDown hi lo := by
  unfold heightsDown
  have : hi + 1 - lo = (hi - lo) + 1 := by omega
  rw [this, List.range_succ_eq_map]
  simp only [List.map_cons, List.map_map]
  congr 1
  apply List.map_congr_left
  intro a _
  simp only [Function.comp]
  omega

theorem decU64_succ {i : Nat} (h : i + 1 < u64) : decU64 (i + 1) = i := by
  unfold decU64
  have : i + 1 + u64 - 1 = i + u64 := by omega
  rw [this, Nat.add_mod_right, Nat.mod_eq_of_lt (by omega)]

theorem txStep_ok (w : World) (tx : DBBlockTx) (tr : Trace)
    (h : w.dbGetAccountByAddress tr tx.To ≠ none) : (txStep w tx tr).2 = true := by
  unfold txStep
  split
  · contradiction
  · split_ifs <;> rfl

theorem txLoop_ok (w : World) (txs : List DBBlockTx) :
    ∀ tr : Trace, (∀ ev a, w.dbGetAccountByAddress (tr ++ ev) a ≠ none) →
      (txLoop w txs tr).2 = true := by
  induction txs with
  | nil => intro tr _; rfl
  | cons tx rest ih =>
    intro tr h
    have h1 : (txStep w tx tr).2 = true := txStep_ok w tx tr (by simpa using h [] tx.To)
    simp only [txLoop, h1, if_true]
    apply ih
    intro ev a
    rw [List.append_assoc]
    exact h _ a

theorem removals_rollbackBlock (w : World) (b : DBBlock) (i : Nat) (tr : Trace) :
    removals (rollbackBlock w b i tr).1 = [Event.dbRemoveBlock i, Event.dbRemoveTxs i] := by
  unfold rollbackBlock
  dsimp only
  split_ifs
  · simp only [removals_append, removals_txLoop, removals_minerUpdate, List.append_nil]
    rfl
  · simp only [removals_append, removals_txLoop, List.append_nil]
    rfl

theorem rollbackBlock_ok (w : World) (b : DBBlock) (i : Nat) (tr : Trace)
    (h : ∀ ev a, w.dbGetAccountByAddress (tr ++ ev) a ≠ none) :
    (rollbackBlock w b i tr).2 = true := by
  have h1 : (txLoop w b.Txs (tr ++ [Event.dbRemoveBlock i, Event.dbRemoveTxs i])).2 = true := by
    apply txLoop_ok
    intro ev a
    rw [List.append_assoc]
    exact h _ a
  simp [rollbackBlock, h1]

theorem mem_removals {e : Event} {es : List Event} :
    e ∈ removals es ↔ e ∈ es ∧ isRemoval e = true := by
  simp [removals, List.mem_filter]

/-- The rollback loop entered at height `i = k + d`, where `k` is the greatest
matching height: it deletes `i, i - 1, ..., k + 1` and returns at `k`. -/
theorem checkLoop_rollback (w : World) (remote : Nat → RpcBlock) (loc : Nat → DBBlock)
    (k : Nat) (hk : (loc k).HeadHash = (remote k).Hash) :
    ∀ (d fuel i : Nat) (fb : Bool) (tr : Trace), i = k + d → i < u64 → d < fuel →
      (∀ ev h, h ≤ i → w.rpcGetBlockByHeight (tr ++ ev) h true = some (remote h)) →
      (∀ ev h, h ≤ i → Event.dbRemoveBlock h ∉ ev →
        w.dbGetBlockByHeight (tr ++ ev) w.shardNumber h = some (loc h)) →
      (∀ ev a, w.dbGetAccountByAddress (tr ++ ev) a ≠ none) →
      (∀ j, k < j → j ≤ i → (loc j).HeadHash ≠ (remote j).Hash) →
      removals (checkLoop w fuel i fb tr).1
          = (heightsDown (i + 1) (k + 1)).flatMap
              (fun h => [Event.dbRemoveBlock h, Event.dbRemoveTxs h])
        ∧ (checkLoop w fuel i fb tr).2 = .returned (fb || decide (k < i)) := by
  intro d
  induction d with
  | zero =>
    intro fuel i fb tr hi _ hfuel hrpc hdb _ _
    obtain ⟨f, rfl⟩ : ∃ f, fuel = f + 1 := ⟨fuel - 1, by omega⟩
    have hik : i = k := by omega
    subst hik
    have h1 := hrpc [] i (le_refl _)
    have h2 := hdb [Event.rpcGetBlockByHeight i true] i (le_refl _) (by simp)
    simp only [List.append_nil] at h1
    simp [checkLoop, h1, h2, hk, removals, isRemoval, heightsDown]
  | succ d ih =>
    intro fuel i fb tr hi hlt hfuel hrpc hdb hacc hne
    obtain ⟨f, rfl⟩ : ∃ f, fuel = f + 1 := ⟨fuel - 1, by omega⟩
    obtain ⟨i', rfl⟩ : ∃ i', i = i' + 1 := ⟨i - 1, by omega⟩
    have h1 := hrpc [] (i' + 1) (le_refl _)
    have h2 := hdb [Event.rpcGetBlockByHeight (i' + 1) true] (i' + 1) (le_refl _) (by simp)
    simp only [List.append_nil] at h1
    have h3 : (loc (i' + 1)).HeadHash ≠ (remote (i' + 1)).Hash := hne _ (by omega) (le_refl _)
    have h4 : ∀ hist, (∀ ev a, w.dbGetAccountByAddress (hist ++ ev) a ≠ none) →
        (rollbackBlock w (loc (i' + 1)) (i' + 1) hist).2 = true :=
      fun hist hh => rollbackBlock_ok w _ _ hist hh
    have h5 := h4 (tr ++ ([Event.rpcGetBlockByHeight (i' + 1) true]
        ++ [Event.dbGetBlockByHeight w.shardNumber (i' + 1)]))
      (fun ev a => by rw [List.append_assoc]; exact hacc _ a)
    simp only [checkLoop, Nat.zero_le, if_true, h1, h2, h3, if_false, h5, decU64_succ hlt]
    generalize he3 : [Event.rpcGetBlockByHeight (i' + 1) true]
        ++ [Event.dbGetBlockByHeight w.shardNumber (i' + 1)]
        ++ (rollbackBlock w (loc (i' + 1)) (i' + 1)
              (tr ++ ([Event.rpcGetBlockByHeight (i' + 1) true]
                ++ [Event.dbGetBlockByHeight w.shardNumber (i' + 1)]))).1 = e3
    have hrem3 : removals e3 = [Event.dbRemoveBlock (i' + 1), Event.dbRemoveTxs (i' + 1)] := by
      rw [← he3]
      simp only [removals_append, removals_rollbackBlock]
      rfl
    have hnot : ∀ h, h ≤ i' → Event.dbRemoveBlock h ∉ e3 := by
      intro h hh hm
      have : Event.dbRemoveBlock h ∈ removals e3 := mem_removals.2 ⟨hm, rfl⟩
      rw [hrem3] at this
      simp at this
      omega
    have key := ih f i' true (tr ++ e3) (by omega) (by omega) (by omega)
      (fun ev h hh => by rw [List.append_assoc]; exact hrpc _ h (by omega))
      (fun ev h hh hn => by
        rw [List.append_assoc]
        apply hdb _ h (by omega)
        simp only [List.mem_append, not_or]
        exact ⟨hnot h hh, hn⟩)
      (fun ev a => by rw [List.append_assoc]; exact hacc _ a)
      (fun j hj1 hj2 => hne j hj1 (by omega))
    refine ⟨?_, ?_⟩
    · rw [removals_append, hrem3, key.1, @heightsDown_succ (i' + 1) (k + 1) (by omega)]
      simp
    · rw [key.2]
      have : k < i' + 1 := by omega
      simp [this]

/-- Height `h` is never deleted by the rollback loop when the stored block at
`h` carries the remote hash whenever the two are fetched. -/
theorem checkLoop_keeps_matching_height (w : World) (h : Nat)
    (hsame : ∀ hist rpcBlock dbBlock, w.rpcGetBlockByHeight hist h true = some rpcBlock →
      w.dbGetBlockByHeight (hist ++ [Event.rpcGetBlockByHeight h true]) w.shardNumber h
        = some dbBlock →
      dbBlock.HeadHash = rpcBlock.Hash) :
    ∀ (fuel i : Nat) (fb : Bool) (tr : Trace),
      Event.dbRemoveBlock h ∉ (checkLoop w fuel i fb tr).1
        ∧ Event.dbRemoveTxs h ∉ (checkLoop w fuel i fb tr).1 := by
  intro fuel
  induction fuel with
  | zero => intro i fb tr; simp [checkLoop]
  | succ f ih =>
    intro i fb tr
    simp only [checkLoop, Nat.zero_le, if_true]
    cases h1 : w.rpcGetBlockByHeight tr i true with
    | none => simp
    | some rpcBlock =>
      cases h2 : w.dbGetBlockByHeight (tr ++ [Event.rpcGetBlockByHeight i true]) w.shardNumber i with
      | none => simp
      | some dbBlock =>
        by_cases h3 : dbBlock.HeadHash = rpcBlock.Hash
        · simp [h3]
        · have hih : i ≠ h := by
            rintro rfl
            exact h3 (hsame tr rpcBlock dbBlock h1 h2)
          have hd : ∀ hist, Event.dbRemoveBlock h ∉ (rollbackBlock w dbBlock i hist).1
              ∧ Event.dbRemoveTxs h ∉ (rollbackBlock w dbBlock i hist).1 := by
            intro hist
            constructor <;>
            · intro hm
              have := mem_removals.2 ⟨hm, rfl⟩
              rw [removals_rollbackBlock] at this
              simp at this
              exact hih this.symm
          simp only [h3, if_false]
          split_ifs
          · simp only [List.mem_append, not_or]
            exact ⟨⟨⟨⟨by simp, by simp⟩, (hd _).1⟩, (ih _ _ _).1⟩,
              ⟨⟨⟨by simp, by simp⟩, (hd _).2⟩, (ih _ _ _).2⟩⟩
          · simp only [List.mem_append, not_or]
            exact ⟨⟨⟨by simp, by simp⟩, (hd _).1⟩, ⟨⟨by simp, by simp⟩, (hd _).2⟩⟩

theorem isAccountCall_txStep (w : World) (tx : DBBlockTx) (tr : Trace) :
    ∀ e ∈ (txStep w tx tr).1, isAccountCall e = true := by
  unfold txStep
  split
  · simp [isAccountCall]
  · split_ifs <;> simp [isAccountCall]

theorem isAccountCall_txLoop (w : World) (txs : List DBBlockTx) :
    ∀ (tr : Trace), ∀ e ∈ (txLoop w txs tr).1, isAccountCall e = true := by
  induction txs with
  | nil => intro tr; simp [txLoop]
  | cons tx rest ih =>
    intro tr e he
    simp only [txLoop] at he
    split_ifs at he
    · rcases List.mem_append.1 he with h | h
      · exact isAccountCall_txStep w tx tr e h
      · exact ih _ e h
    · exact isAccountCall_txStep w tx tr e he

theorem isAccountCall_minerUpdate (w : World) (b : DBBlock) (tr : Trace) :
    ∀ e ∈ minerUpdate w b tr, isAccountCall e = true := by
  unfold minerUpdate
  split_ifs
  · split
    · simp [isAccountCall]
    · dsimp only
      split_ifs <;> simp [isAccountCall]
  · simp

theorem append_split_of_not_mem {α : Type} {l1 l2 p rest : List α} {e : α}
    (h : l1 ++ l2 = p ++ e :: rest) (hne : e ∉ l1) :
    ∃ p', p = l1 ++ p' ∧ l2 = p' ++ e :: rest := by
  rcases List.append_eq_append_iff.1 h with ⟨a, ha1, ha2⟩ | ⟨c, hc1, hc2⟩
  · exact ⟨a, ha1, ha2⟩
  · cases c with
    | nil =>
      refine ⟨[], ?_, ?_⟩
      · simpa using hc1.symm
      · simpa using hc2.symm
    | cons x c =>
      simp only [List.cons_append, List.cons.injEq] at hc2
      exact absurd (by rw [hc1, hc2.1]; simp) hne

theorem txLoop_append (w : World) (pre suf : List DBBlockTx) :
    ∀ tr : Trace, txLoop w (pre ++ suf) tr
      = if (txLoop w pre tr).2 then
          ((txLoop w pre tr).1 ++ (txLoop w suf (tr ++ (txLoop w pre tr).1)).1,
            (txLoop w suf (tr ++ (txLoop w pre tr).1)).2)
        else txLoop w pre tr := by
  induction pre with
  | nil => intro tr; simp [txLoop]
  | cons tx rest ih =>
    intro tr
    simp only [List.cons_append, txLoop]
    by_cases h : (txStep w tx tr).2 = true
    · simp only [h, if_true, List.append_eq]
      rw [ih]
      by_cases h2 : (txLoop w rest (tr ++ (txStep w tx tr).1)).2 = true
      · simp [h2, List.append_assoc]
      · simp [h2]
    · simp [h]

theorem isScanQuery_of_fails {w : World} {hist : Trace} {e : Event}
    (h : scanQueryFails w hist e = true) : isScanQuery e = true := by
  cases e <;> simp_all [scanQueryFails, isScanQuery]

theorem not_isScanQuery_of_isAccountCall {e : Event} (h : isAccountCall e = true) :
    isScanQuery e = false := by
  cases e <;> simp_all [isAccountCall, isScanQuery]

theorem not_isScanQuery_rollbackBlock (w : World) (b : DBBlock) (i : Nat) (tr : Trace) :
    ∀ e ∈ (rollbackBlock w b i tr).1, isScanQuery e = false := by
  have hT := isAccountCall_txLoop w b.Txs
  have hM := isAccountCall_minerUpdate w b
  intro e he
  unfold rollbackBlock at he
  dsimp only at he
  split_ifs at he
  · simp only [List.mem_append, List.mem_cons, List.mem_singleton, List.not_mem_nil, or_false] at he
    rcases he with ((rfl | rfl) | he) | he
    · rfl
    · rfl
    · exact not_isScanQuery_of_isAccountCall (hT _ e he)
    · exact not_isScanQuery_of_isAccountCall (hM _ e he)
  · simp only [List.mem_append, List.mem_cons, List.mem_singleton, List.not_mem_nil, or_false] at he
    rcases he with (rfl | rfl) | he
    · rfl
    · rfl
    · exact not_isScanQuery_of_isAccountCall (hT _ e he)

theorem checkLoop_stops_at_failed_query (w : World) :
    ∀ (fuel i : Nat) (fb : Bool) (tr p : Trace) (e : Event) (rest : List Event),
      (checkLoop w fuel i fb tr).1 = p ++ e :: rest → scanQueryFails w (tr ++ p) e = true →
      rest = [] ∧ ∃ b, (checkLoop w fuel i fb tr).2 = .returned b := by
  intro fuel
  induction fuel with
  | zero => intro i fb tr p e rest h; simp [checkLoop] at h
  | succ f ih =>
    intro i fb tr p e rest h hf
    have hfetch := isScanQuery_of_fails hf
    simp only [checkLoop, Nat.zero_le, if_true] at h ⊢
    cases h1 : w.rpcGetBlockByHeight tr i true with
    | none =>
      simp only [h1] at h ⊢
      rcases p with _ | ⟨x, p⟩
      · simp at h
        exact ⟨h.2, _, rfl⟩
      · simp at h
    | some rpcBlock =>
      simp only [h1] at h ⊢
      cases h2 : w.dbGetBlockByHeight (tr ++ [Event.rpcGetBlockByHeight i true])
          w.shardNumber i with
      | none =>
        simp only [h2] at h ⊢
        rcases p with _ | ⟨x, _ | ⟨y, p⟩⟩
        · simp at h
          rw [← h.1] at hf
          simp [scanQueryFails, h1] at hf
        · simp at h
          exact ⟨h.2.2, _, rfl⟩
        · simp at h
      | some dbBlock =>
        simp only [h2] at h ⊢
        by_cases h3 : dbBlock.HeadHash = rpcBlock.Hash
        · simp only [h3, if_true] at h ⊢
          rcases p with _ | ⟨x, _ | ⟨y, p⟩⟩
          · simp at h
            rw [← h.1] at hf
            simp [scanQueryFails, h1] at hf
          · simp at h
            exact ⟨h.2.2, _, rfl⟩
          · simp at h
        · simp only [h3, if_false] at h ⊢
          have hD := not_isScanQuery_rollbackBlock w dbBlock i
            (tr ++ ([Event.rpcGetBlockByHeight i true]
              ++ [Event.dbGetBlockByHeight w.shardNumber i]))
          generalize hd : rollbackBlock w dbBlock i
            (tr ++ ([Event.rpcGetBlockByHeight i true]
              ++ [Event.dbGetBlockByHeight w.shardNumber i])) = d at h hD ⊢
          have hnot : e ∉ d.1 := fun hm => by
            have := hD e hm
            rw [hfetch] at this
            exact Bool.noConfusion this
          by_cases h4 : d.2 = true
          · simp only [h4, if_true] at h ⊢
            rcases p with _ | ⟨x, _ | ⟨y, p⟩⟩
            · simp at h
              rw [← h.1] at hf
              simp [scanQueryFails, h1] at hf
            · simp at h
              obtain ⟨rfl, rfl, _⟩ := h
              simp [scanQueryFails, h2] at hf
            · simp only [List.append_assoc, List.cons_append, List.nil_append,
                List.cons.injEq] at h
              obtain ⟨hx, hy, h⟩ := h
              obtain ⟨p', hp, hr⟩ := append_split_of_not_mem h hnot
              have := ih (decU64 i) true _ p' e rest hr (by
                rw [hp, ← hx, ← hy] at hf
                simpa [List.append_assoc] using hf)
              exact this
          · simp only [h4, Bool.false_eq_true, if_false] at h ⊢
            rcases p with _ | ⟨x, _ | ⟨y, p⟩⟩
            · simp at h
              rw [← h.1] at hf
              simp [scanQueryFails, h1] at hf
            · simp at h
              obtain ⟨rfl, rfl, _⟩ := h
              simp [scanQueryFails, h2] at hf
            · exfalso
              simp only [List.append_assoc, List.cons_append, List.nil_append,
                List.cons.injEq] at h
              apply hnot
              rw [h.2.2]
              simp

theorem checkOlderBlocks_stops_at_failed_query (w : World) (fuel : Nat) (tr p : Trace)
    (e : Event) (rest : List Event)
    (h : (checkOlderBlocks w fuel tr).1 = p ++ e :: rest)
    (hf : scanQueryFails w (tr ++ p) e = true) :
    rest = [] ∧ ∃ b, (checkOlderBlocks w fuel tr).2 = .returned b := by
  unfold checkOlderBlocks at h ⊢
  cases h0 : w.dbGetBlockHeight tr w.shardNumber with
  | none =>
    simp only [h0] at h ⊢
    rcases p with _ | ⟨x, p⟩
    · simp at h
      exact ⟨h.2, _, rfl⟩
    · simp at h
  | some n =>
    simp only [h0] at h ⊢
    split_ifs at h ⊢
    · rcases p with _ | ⟨x, p⟩
      · simp at h
        exact ⟨h.2, _, rfl⟩
      · simp at h
    · rcases p with _ | ⟨x, p⟩
      · simp at h
        rw [← h.1] at hf
        simp [scanQueryFails, h0] at hf
      · simp only [List.cons_append, List.nil_append, List.cons.injEq] at h
        obtain ⟨rfl, h⟩ := h
        exact checkLoop_stops_at_failed_query w fuel _ false _ p e rest h
          (by simpa [List.append_assoc] using hf)

theorem checkLoop_stops_at_failed_recipient_lookup (w : World) (fuel i : Nat) (fb : Bool)
    (tr : Trace) (rpcBlock : RpcBlock) (dbBlock : DBBlock) (pre post : List DBBlockTx)
    (tx : DBBlockTx)
    (h1 : w.rpcGetBlockByHeight tr i true = some rpcBlock)
    (h2 : w.dbGetBlockByHeight (tr ++ [Event.rpcGetBlockByHeight i true]) w.shardNumber i
      = some dbBlock)
    (h3 : dbBlock.HeadHash ≠ rpcBlock.Hash)
    (htxs : dbBlock.Txs = pre ++ tx :: post)
    (hpre : (txLoop w pre (tr ++ [Event.rpcGetBlockByHeight i true,
      Event.dbGetBlockByHeight w.shardNumber i, Event.dbRemoveBlock i, Event.dbRemoveTxs i])).2
        = true)
    (hfail : w.dbGetAccountByAddress
      (tr ++ [Event.rpcGetBlockByHeight i true, Event.dbGetBlockByHeight w.shardNumber i,
          Event.dbRemoveBlock i, Event.dbRemoveTxs i]
        ++ (txLoop w pre (tr ++ [Event.rpcGetBlockByHeight i true,
          Event.dbGetBlockByHeight w.shardNumber i, Event.dbRemoveBlock i,
          Event.dbRemoveTxs i])).1) tx.To = none) :
    checkLoop w (fuel + 1) i fb tr
      = ([Event.rpcGetBlockByHeight i true, Event.dbGetBlockByHeight w.shardNumber i,
            Event.dbRemoveBlock i, Event.dbRemoveTxs i]
          ++ (txLoop w pre (tr ++ [Event.rpcGetBlockByHeight i true,
            Event.dbGetBlockByHeight w.shardNumber i, Event.dbRemoveBlock i,
            Event.dbRemoveTxs i])).1
          ++ [Event.dbGetAccountByAddress tx.To], .returned fb) := by
  have hstep : ∀ hist, w.dbGetAccountByAddress hist tx.To = none →
      txLoop w (tx :: post) hist = ([Event.dbGetAccountByAddress tx.To], false) := by
    intro hist hh
    simp [txLoop, txStep, hh]
  have ht := txLoop_append w pre (tx :: post)
    (tr ++ [Event.rpcGetBlockByHeight i true, Event.dbGetBlockByHeight w.shardNumber i,
      Event.dbRemoveBlock i, Event.dbRemoveTxs i])
  rw [hpre, if_pos rfl, hstep _ hfail] at ht
  simp only [checkLoop, Nat.zero_le, if_true, h1, h2, h3, if_false, rollbackBlock, htxs,
    List.append_assoc, List.cons_append, List.nil_append, ht]
  simp

/-! ## Lemmas on the forward replay -/

theorem not_isSyncCall_of_isAccountCall {e : Event} (h : isAccountCall e = true) :
    isSyncCall e = false := by
  cases e <;> simp_all [isAccountCall, isSyncCall]

theorem not_isSyncCall_rollbackBlock (w : World) (b : DBBlock) (i : Nat) (tr : Trace) :
    ∀ e ∈ (rollbackBlock w b i tr).1, isSyncCall e = false := by
  have hT := isAccountCall_txLoop w b.Txs
  have hM := isAccountCall_minerUpdate w b
  intro e he
  unfold rollbackBlock at he
  dsimp only at he
  split_ifs at he
  · simp only [List.mem_append, List.mem_cons, List.mem_singleton, List.not_mem_nil, or_false] at he
    rcases he with ((rfl | rfl) | he) | he
    · rfl
    · rfl
    · exact not_isSyncCall_of_isAccountCall (hT _ e he)
    · exact not_isSyncCall_of_isAccountCall (hM _ e he)
  · simp only [List.mem_append, List.mem_cons, List.mem_singleton, List.not_mem_nil, or_false] at he
    rcases he with (rfl | rfl) | he
    · rfl
    · rfl
    · exact not_isSyncCall_of_isAccountCall (hT _ e he)

theorem not_isSyncCall_checkLoop (w : World) :
    ∀ (fuel i : Nat) (fb : Bool) (tr : Trace),
      ∀ e ∈ (checkLoop w fuel i fb tr).1, isSyncCall e = false := by
  intro fuel
  induction fuel with
  | zero => intro i fb tr e he; simp [checkLoop] at he
  | succ f ih =>
    intro i fb tr e he
    simp only [checkLoop, Nat.zero_le, if_true] at he
    cases h1 : w.rpcGetBlockByHeight tr i true with
    | none =>
      simp only [h1, List.mem_singleton] at he
      subst he; rfl
    | some rpcBlock =>
      simp only [h1] at he
      cases h2 : w.dbGetBlockByHeight (tr ++ [Event.rpcGetBlockByHeight i true])
          w.shardNumber i with
      | none =>
        simp only [h2, List.mem_append, List.mem_singleton] at he
        rcases he with rfl | rfl <;> rfl
      | some dbBlock =>
        simp only [h2] at he
        have hD := not_isSyncCall_rollbackBlock w dbBlock i
        split_ifs at he
        · simp only [List.mem_append, List.mem_singleton] at he
          rcases he with rfl | rfl <;> rfl
        · simp only [List.mem_append, List.mem_singleton] at he
          rcases he with ((rfl | rfl) | he) | he
          · rfl
          · rfl
          · exact hD _ e he
          · exact ih _ _ _ e he
        · simp only [List.mem_append, List.mem_singleton] at he
          rcases he with (rfl | rfl) | he
          · rfl
          · rfl
          · exact hD _ e he

theorem not_isSyncCall_checkOlderBlocks (w : World) (fuel : Nat) (tr : Trace) :
    ∀ e ∈ (checkOlderBlocks w fuel tr).1, isSyncCall e = false := by
  intro e he
  unfold checkOlderBlocks at he
  cases h0 : w.dbGetBlockHeight tr w.shardNumber with
  | none =>
    simp only [h0, List.mem_singleton] at he
    subst he; rfl
  | some n =>
    simp only [h0] at he
    split_ifs at he
    · simp only [List.mem_singleton] at he
      subst he; rfl
    · simp only [List.mem_append, List.mem_singleton] at he
      rcases he with rfl | he
      · rfl
      · exact not_isSyncCall_checkLoop w _ _ _ _ e he

theorem incU64_of_lt {i : Nat} (h : i + 1 < u64) : incU64 i = i + 1 := by
  unfold incU64
  exact Nat.mod_eq_of_lt h

theorem forwardLoop_kinds (w : World) (t : Nat) :
    ∀ (fuel i : Nat) (tr : Trace),
      ∀ e ∈ (forwardLoop w t fuel i tr).1, isReplayStep e = true ∨ e = Event.rpcRelease := by
  intro fuel
  induction fuel with
  | zero => intro i tr e he; simp [forwardLoop] at he
  | succ f ih =>
    intro i tr e he
    simp only [forwardLoop] at he
    split_ifs at he with hle
    · cases h1 : w.rpcGetBlockByHeight tr i true with
      | none =>
        simp only [h1, List.mem_append, List.mem_singleton] at he
        rcases he with rfl | rfl
        · exact Or.inl rfl
        · exact Or.inr rfl
      | some b =>
        simp only [h1] at he
        split_ifs at he
        · simp only [List.mem_append, List.mem_singleton] at he
          rcases he with (((rfl | rfl) | rfl) | rfl) | he
          · exact Or.inl rfl
          · exact Or.inl rfl
          · exact Or.inl rfl
          · exact Or.inl rfl
          · exact ih _ _ e he
        · simp only [List.mem_append, List.mem_singleton] at he
          rcases he with ((rfl | rfl) | rfl) | rfl <;> exact Or.inl rfl
        · simp only [List.mem_append, List.mem_singleton] at he
          rcases he with (rfl | rfl) | rfl <;> exact Or.inl rfl
        · simp only [List.mem_append, List.mem_singleton] at he
          rcases he with rfl | rfl <;> exact Or.inl rfl
    · simp at he

/-- The forward loop ends, whatever fails, when the tip is below the largest
`uint64` and the fuel covers the heights left. -/
theorem forwardLoop_returns (w : World) (t : Nat) (ht : t + 1 < u64) :
    ∀ (fuel i : Nat) (tr : Trace), 1 ≤ fuel → t + 2 ≤ fuel + i →
      (forwardLoop w t fuel i tr).2 = .returned () := by
  intro fuel
  induction fuel with
  | zero => intro i tr h; omega
  | succ f ih =>
    intro i tr _ hf
    simp only [forwardLoop]
    split_ifs with hle
    · cases h1 : w.rpcGetBlockByHeight tr i true with
      | none => rfl
      | some b =>
        dsimp only
        split_ifs
        · rw [incU64_of_lt (by omega)]
          exact ih _ _ (by omega) (by omega)
        · rfl
        · rfl
        · rfl
    · rfl

theorem replayOf_succ (remote : Nat → RpcBlock) (n c : Nat) :
    replayOf remote n (c + 1)
      = [Event.rpcGetBlockByHeight n true, Event.blockSync (remote n),
          Event.txSync (remote n), Event.accountSync (remote n)]
        ++ replayOf remote (n + 1) c := by
  simp [replayOf, List.range'_succ]

/-- With every call succeeding, the forward loop entered at `i` replays the
heights `i, ..., t` and ends. -/
theorem forwardLoop_replay (w : World) (t n : Nat) (remote : Nat → RpcBlock) (ht : t + 1 < u64)
    (hfetch : ∀ hist h, n ≤ h → h ≤ t → w.rpcGetBlockByHeight hist h true = some (remote h))
    (hblock : ∀ hist b, w.blockSync hist b = true)
    (htx : ∀ hist b, w.txSync hist b = true)
    (hacc : ∀ hist b, w.accountSync hist b = true) :
    ∀ (c fuel i : Nat) (tr : Trace), n ≤ i → c = t + 1 - i → c < fuel →
      forwardLoop w t fuel i tr = (replayOf remote i c, .returned ()) := by
  intro c
  induction c with
  | zero =>
    intro fuel i tr _ hi hf
    obtain ⟨f, rfl⟩ : ∃ f, fuel = f + 1 := ⟨fuel - 1, by omega⟩
    have : ¬ i ≤ t := by omega
    simp [forwardLoop, this, replayOf]
  | succ c ih =>
    intro fuel i tr hni hi hf
    obtain ⟨f, rfl⟩ : ∃ f, fuel = f + 1 := ⟨fuel - 1, by omega⟩
    have hle : i ≤ t := by omega
    simp only [forwardLoop, hle, if_true, hfetch _ i hni hle, hblock, htx, hacc,
      incU64_of_lt (show i + 1 < u64 by omega)]
    rw [ih f (i + 1) _ (by omega) (by omega) (by omega), replayOf_succ]
    simp

/-- After a failing step of the forward loop only `rpc.Release` may follow, and
the loop ends. -/
theorem forwardLoop_stops_at_failure (w : World) (t : Nat) :
    ∀ (fuel i : Nat) (tr p : Trace) (e : Event) (rest : List Event),
      (forwardLoop w t fuel i tr).1 = p ++ e :: rest →
      replayStepFails w (tr ++ p) e = true →
      (rest = [] ∨ rest = [Event.rpcRelease])
        ∧ (forwardLoop w t fuel i tr).2 = .returned () := by
  intro fuel
  induction fuel with
  | zero => intro i tr p e rest h; simp [forwardLoop] at h
  | succ f ih =>
    intro i tr p e rest h hf
    simp only [forwardLoop] at h ⊢
    by_cases hle : i ≤ t
    · simp only [hle, if_true] at h ⊢
      cases h1 : w.rpcGetBlockByHeight tr i true with
      | none =>
        simp only [h1] at h ⊢
        rcases p with _ | ⟨x, _ | ⟨y, p⟩⟩
        · simp at h
          obtain ⟨_, rfl⟩ := h
          simp
        · simp at h
          obtain ⟨rfl, rfl, _⟩ := h
          simp [replayStepFails] at hf
        · simp at h
      | some b =>
        simp only [h1] at h ⊢
        by_cases hb : w.blockSync (tr ++ [Event.rpcGetBlockByHeight i true]) b = true
        · simp only [hb, if_true] at h ⊢
          by_cases htx : w.txSync (tr ++ ([Event.rpcGetBlockByHeight i true]
              ++ [Event.blockSync b])) b = true
          · simp only [htx, if_true] at h ⊢
            by_cases hac : w.accountSync (tr ++ ([Event.rpcGetBlockByHeight i true]
                ++ [Event.blockSync b] ++ [Event.txSync b])) b = true
            · simp only [hac, if_true] at h ⊢
              rcases p with _ | ⟨x, _ | ⟨y, _ | ⟨z, _ | ⟨u, p⟩⟩⟩⟩
              · simp at h
                obtain ⟨rfl, _⟩ := h
                simp [replayStepFails, h1] at hf
              · simp at h
                obtain ⟨rfl, rfl, _⟩ := h
                simp [replayStepFails, hb] at hf
              · simp at h
                obtain ⟨rfl, rfl, rfl, _⟩ := h
                simp [replayStepFails] at hf
                simp [hf] at htx
              · simp at h
                obtain ⟨rfl, rfl, rfl, rfl, _⟩ := h
                simp [replayStepFails] at hf
                simp [hf] at hac
              · simp only [List.append_assoc, List.cons_append, List.nil_append,
                  List.cons.injEq] at h
                obtain ⟨rfl, rfl, rfl, rfl, h⟩ := h
                exact ih _ _ p e rest h (by simpa [List.append_assoc] using hf)
            · simp only [hac] at h ⊢
              rcases p with _ | ⟨x, _ | ⟨y, _ | ⟨z, _ | ⟨u, p⟩⟩⟩⟩
              · simp at h
                obtain ⟨rfl, _⟩ := h
                simp [replayStepFails, h1] at hf
              · simp at h
                obtain ⟨rfl, rfl, _⟩ := h
                simp [replayStepFails, hb] at hf
              · simp at h
                obtain ⟨rfl, rfl, rfl, _⟩ := h
                simp [replayStepFails] at hf
                simp [hf] at htx
              · simp at h
                obtain ⟨_, _, _, _, rfl⟩ := h
                simp
              · simp at h
          · simp only [htx] at h ⊢
            rcases p with _ | ⟨x, _ | ⟨y, _ | ⟨z, p⟩⟩⟩
            · simp at h
              obtain ⟨rfl, _⟩ := h
              simp [replayStepFails, h1] at hf
            · simp at h
              obtain ⟨rfl, rfl, _⟩ := h
              simp [replayStepFails, hb] at hf
            · simp at h
              obtain ⟨_, _, _, rfl⟩ := h
              simp
            · simp at h
        · simp only [hb] at h ⊢
          rcases p with _ | ⟨x, _ | ⟨y, p⟩⟩
          · simp at h
            obtain ⟨rfl, _⟩ := h
            simp [replayStepFails, h1] at hf
          · simp at h
            obtain ⟨_, _, rfl⟩ := h
            simp
          · simp at h
    · simp [hle] at h

/-- Every `accountSync` of the forward loop comes right after the fetch of its
block and the successful `blockSync` and `txSync` of that block. -/
theorem forwardLoop_accountSync_after (w : World) (t : Nat) :
    ∀ (fuel i : Nat) (tr q : Trace) (b : RpcBlock) (r : List Event),
      (forwardLoop w t fuel i tr).1 = q ++ Event.accountSync b :: r →
      ∃ q' h, q = q' ++ [Event.rpcGetBlockByHeight h true, Event.blockSync b, Event.txSync b]
        ∧ w.rpcGetBlockByHeight (tr ++ q') h true = some b
        ∧ w.blockSync (tr ++ q' ++ [Event.rpcGetBlockByHeight h true]) b = true
        ∧ w.txSync (tr ++ q' ++ [Event.rpcGetBlockByHeight h true, Event.blockSync b]) b
            = true := by
  intro fuel
  induction fuel with
  | zero => intro i tr q b r h; simp [forwardLoop] at h
  | succ f ih =>
    intro i tr q b r h
    simp only [forwardLoop] at h
    by_cases hle : i ≤ t
    · simp only [hle, if_true] at h
      cases h1 : w.rpcGetBlockByHeight tr i true with
      | none =>
        simp only [h1] at h
        rcases q with _ | ⟨x, _ | ⟨y, q⟩⟩ <;> simp at h
      | some b' =>
        simp only [h1] at h
        by_cases hb : w.blockSync (tr ++ [Event.rpcGetBlockByHeight i true]) b' = true
        · simp only [hb, if_true] at h
          by_cases htx : w.txSync (tr ++ ([Event.rpcGetBlockByHeight i true]
              ++ [Event.blockSync b'])) b' = true
          · simp only [htx, if_true] at h
            have hhere : ∃ q' h, [Event.rpcGetBlockByHeight i true, Event.blockSync b',
                  Event.txSync b']
                = q' ++ [Event.rpcGetBlockByHeight h true, Event.blockSync b', Event.txSync b']
                ∧ w.rpcGetBlockByHeight (tr ++ q') h true = some b'
                ∧ w.blockSync (tr ++ q' ++ [Event.rpcGetBlockByHeight h true]) b' = true
                ∧ w.txSync (tr ++ q' ++ [Event.rpcGetBlockByHeight h true, Event.blockSync b'])
                    b' = true :=
              ⟨[], i, by simp, by simpa using h1, by simpa using hb, by simpa using htx⟩
            by_cases hac : w.accountSync (tr ++ ([Event.rpcGetBlockByHeight i true]
                ++ [Event.blockSync b'] ++ [Event.txSync b'])) b' = true
            · simp only [hac, if_true] at h
              rcases q with _ | ⟨x, _ | ⟨y, _ | ⟨z, _ | ⟨u, q⟩⟩⟩⟩
              · simp at h
              · simp at h
              · simp at h
              · simp at h
                obtain ⟨rfl, rfl, rfl, rfl, _⟩ := h
                exact hhere
              · simp only [List.append_assoc, List.cons_append, List.nil_append,
                  List.cons.injEq] at h
                obtain ⟨rfl, rfl, rfl, rfl, h⟩ := h
                obtain ⟨q', h', hq, h2, h3, h4⟩ := ih _ _ q b r h
                refine ⟨[Event.rpcGetBlockByHeight i true, Event.blockSync b',
                  Event.txSync b', Event.accountSync b'] ++ q', h', ?_, ?_, ?_, ?_⟩
                · simp [hq]
                · simpa [List.append_assoc] using h2
                · simpa [List.append_assoc] using h3
                · simpa [List.append_assoc] using h4
            · simp only [hac] at h
              rcases q with _ | ⟨x, _ | ⟨y, _ | ⟨z, _ | ⟨u, q⟩⟩⟩⟩
              · simp at h
              · simp at h
              · simp at h
              · simp at h
                obtain ⟨rfl, rfl, rfl, rfl, _⟩ := h
                exact hhere
              · simp at h
          · simp only [htx] at h
            rcases q with _ | ⟨x, _ | ⟨y, _ | ⟨z, q⟩⟩⟩ <;> simp at h
        · simp only [hb] at h
          rcases q with _ | ⟨x, _ | ⟨y, q⟩⟩ <;> simp at h
    · simp [hle] at h

theorem concat_split {α : Type} {l p rest : List α} {x e : α}
    (h : l ++ [x] = p ++ e :: rest) :
    (rest = [] ∧ e = x ∧ l = p) ∨ ∃ rest', rest = rest' ++ [x] ∧ l = p ++ e :: rest' := by
  rcases List.eq_nil_or_concat rest with rfl | ⟨L, b, rfl⟩
  · left
    have := List.append_inj' h (by simp)
    simp at this
    exact ⟨rfl, this.2.symm, this.1⟩
  · right
    have h' : l ++ [x] = (p ++ e :: L) ++ [b] := by simpa using h
    have := List.append_inj' h' (by simp)
    simp at this
    exact ⟨L, by rw [this.2]; simp, this.1⟩

/-- The shape of a run of `sync` that reaches the forward loop. -/
theorem sync_of_forward (w : World) (fuel : Nat) (tr : Trace) (fb : Bool) (cur : CurrentBlock)
    (n : Nat)
    (hroll : (checkOlderBlocks w fuel tr).2 = .returned fb)
    (hcur : w.rpcCurrentBlock (tr ++ (checkOlderBlocks w fuel tr).1) = some cur)
    (hheight : w.dbGetBlockHeight
      (tr ++ ((checkOlderBlocks w fuel tr).1 ++ [Event.rpcCurrentBlock])) w.shardNumber = some n) :
    sync w fuel tr
      = match (forwardLoop w (cur.Height % u64) fuel (n % u64)
          (tr ++ ((checkOlderBlocks w fuel tr).1 ++ [Event.rpcCurrentBlock]
            ++ [Event.dbGetBlockHeight w.shardNumber]))).2 with
        | .outOfFuel =>
          ((checkOlderBlocks w fuel tr).1 ++ [Event.rpcCurrentBlock]
            ++ [Event.dbGetBlockHeight w.shardNumber]
            ++ (forwardLoop w (cur.Height % u64) fuel (n % u64)
              (tr ++ ((checkOlderBlocks w fuel tr).1 ++ [Event.rpcCurrentBlock]
                ++ [Event.dbGetBlockHeight w.shardNumber]))).1, .outOfFuel)
        | .returned _ =>
          ((checkOlderBlocks w fuel tr).1 ++ [Event.rpcCurrentBlock]
            ++ [Event.dbGetBlockHeight w.shardNumber]
            ++ (forwardLoop w (cur.Height % u64) fuel (n % u64)
              (tr ++ ((checkOlderBlocks w fuel tr).1 ++ [Event.rpcCurrentBlock]
                ++ [Event.dbGetBlockHeight w.shardNumber]))).1
            ++ [Event.pendingTxsSync], .returned false) := by
  simp only [sync, hroll, hcur, hheight]

/-! ## Lemmas on the account handler -/

theorem rankLoop_length (tt : Int) : ∀ (i : Nat) (l : List DBAccount),
    (rankLoop tt i l).length = l.length := by
  intro i l
  induction l generalizing i with
  | nil => rfl
  | cons d rest ih => simp [rankLoop, ih]

theorem rankLoop_getElem? (tt : Int) : ∀ (i : Nat) (l : List DBAccount) (k : Nat),
    (rankLoop tt i l)[k]?
      = (l[k]?).map fun d =>
          { createRetSimpleAccountInfo d tt with Rank := ((i + k : Nat) : Int) + 1 } := by
  intro i l
  induction l generalizing i with
  | nil => intro k; simp [rankLoop]
  | cons d rest ih =>
    intro k
    cases k with
    | zero => simp [rankLoop]
    | succ k =>
      simp only [rankLoop, List.getElem?_cons_succ, ih]
      have : i + 1 + k = i + (k + 1) := by omega
      rw [this]

/-- What `GetAccountsByIdx` returns when it does not panic. -/
theorem GetAccountsByIdx_eq_some {a : AccountTbl} {begin end_ : Nat} {page : List DBAccount}
    (h : a.GetAccountsByIdx begin end_ = some page) :
    begin ≤ clampEnd a.accountTbl.length end_
      ∧ clampEnd a.accountTbl.length end_ ≤ a.accountTbl.length
      ∧ page = (a.accountTbl.drop begin).take (clampEnd a.accountTbl.length end_ - begin) := by
  unfold AccountTbl.GetAccountsByIdx at h
  dsimp only at h
  split_ifs at h with hc
  exact ⟨hc.1, hc.2, (Option.some.inj h).symm⟩

theorem clampEnd_of_le {n end_ : Nat} (h : end_ ≤ n) : clampEnd n end_ = end_ := by
  unfold clampEnd
  rw [if_neg (by omega)]

theorem clampEnd_of_gt {n end_ : Nat} (h : n < end_) (hn : 1 ≤ n) (hlen : n < u64) :
    clampEnd n end_ = n - 1 := by
  unfold clampEnd
  rw [if_pos h]
  obtain ⟨m, rfl⟩ : ∃ m, n = m + 1 := ⟨n - 1, by omega⟩
  rw [decU64_succ hlen]
  rfl

theorem detailTxLoop_Txs (clock : Clock) (account : DBAccount) :
    ∀ (txs : List DBTx) (ret : RetDetailAccountInfo),
      (detailTxLoop clock account txs ret).Txs
        = ret.Txs ++ txs.map (createRetDetailAccountTxInfo clock account) := by
  intro txs
  induction txs with
  | nil => intro ret; simp [detailTxLoop]
  | cons t rest ih =>
    intro ret
    simp only [detailTxLoop, ih]
    split_ifs <;> simp

/-- A loop of in-place updates succeeds when its indices are in range; it
keeps the number of tables, leaves the tables it does not visit as they were,
and applies its update once to each table it visits. -/
theorem foldlM_updateTblAt (idx : Nat → Nat) (f : Nat → AccountTbl → AccountTbl) :
    ∀ (is : List Nat) (tbls : List AccountTbl), (∀ i ∈ is, idx i < tbls.length) →
      (is.map idx).Nodup →
      ∃ tbls', is.foldlM (updateTblAt idx f) tbls = some tbls'
        ∧ tbls'.length = tbls.length
        ∧ (∀ j, (∀ i ∈ is, idx i ≠ j) → tbls'[j]? = tbls[j]?)
        ∧ (∀ i ∈ is, tbls'[idx i]? = (tbls[idx i]?).map (f i)) := by
  intro is
  induction is with
  | nil => intro tbls _ _; exact ⟨tbls, rfl, rfl, fun _ _ => rfl, fun i hi => by simp at hi⟩
  | cons i rest ih =>
    intro tbls hrange hnodup
    have hi : idx i < tbls.length := hrange i (by simp)
    simp only [List.map_cons, List.nodup_cons] at hnodup
    obtain ⟨tbls', h1, h2, h3, h4⟩ := ih (tbls.modify (f i) (idx i))
      (fun i' hi' => by
        rw [List.length_modify]
        exact hrange i' (by simp [hi']))
      hnodup.2
    refine ⟨tbls', ?_, ?_, ?_, ?_⟩
    · simp only [List.foldlM_cons, updateTblAt, hi, if_true]
      exact h1
    · rw [h2, List.length_modify]
    · intro j hj
      rw [h3 j (fun i' hi' => hj i' (by simp [hi'])), List.getElem?_modify]
      have : idx i ≠ j := hj i (by simp)
      simp [this]
    · intro i' hi'
      rcases List.mem_cons.1 hi' with rfl | hi'
      · rw [h3 (idx i') (fun i'' hi'' heq => hnodup.1 (by
          rw [← heq]
          exact List.mem_map_of_mem idx hi'')), List.getElem?_modify]
        simp
      · rw [h4 i' hi', List.getElem?_modify]
        have : idx i ≠ idx i' := fun heq => hnodup.1 (by
          rw [heq]
          exact List.mem_map_of_mem idx hi')
        simp [this]

/-- What `updateImpl` does to a handler of `shardCount` tables: the table at
index `j` is rebuilt when `j + 1 < shardCount`, and then receives its total
balance. -/
theorem updateImpl_spec (h : AccountHandler) (hlen : h.accTbls.length = shardCount) :
    ∃ h', h.updateImpl = some h' ∧ h'.DBClient = h.DBClient
      ∧ h'.accTbls.length = shardCount
      ∧ ∀ j, j < shardCount →
          h'.accTbls[j]? = (h.accTbls[j]?).map fun t =>
            setTotalBalance h.DBClient.GetTotalBalance.1 j
              (if j + 1 < shardCount then t.ProcessGAccountTable else t) := by
  obtain ⟨tbls1, h1, hl1, hf1, ht1⟩ := foldlM_updateTblAt (fun i => i - 1)
    (fun _ a => a.ProcessGAccountTable) (List.range' 1 (shardCount - 1)) h.accTbls
    (fun i hi => by
      rw [List.mem_range'_1] at hi
      simp only [shardCount] at hi hlen ⊢
      omega)
    (by decide)
  obtain ⟨tbls2, h2, hl2, _, ht2⟩ := foldlM_updateTblAt (fun i => i)
    (setTotalBalance h.DBClient.GetTotalBalance.1) (List.range shardCount) tbls1
    (fun i hi => by
      rw [List.mem_range] at hi
      show i < tbls1.length
      omega)
    (by decide)
  refine ⟨{ h with accTbls := tbls2 }, ?_, rfl, by rw [hl2, hl1, hlen], ?_⟩
  · simp only [AccountHandler.updateImpl, h1, h2]
  · intro j hj
    have hj2 := ht2 j (List.mem_range.2 hj)
    simp only at hj2
    rw [hj2]
    by_cases hlast : j + 1 < shardCount
    · have := ht1 (j + 1) (by
        rw [List.mem_range'_1]
        simp only [shardCount] at hlast ⊢
        omega)
      simp only [Nat.add_sub_cancel] at this
      rw [this]
      simp only [hlast, if_true, Option.map_map]
      rfl
    · have := hf1 j (fun i hi heq => by
        rw [List.mem_range'_1] at hi
        simp only [shardCount] at hlast hi
        omega)
      rw [this]
      simp [hlast]

theorem tickLoop_two_ticks (rest : List Recv) :
    tickLoop (Recv.tick :: Recv.tick :: rest)
      = LoopEvent.recv Recv.tick :: LoopEvent.sync :: LoopEvent.recv Recv.tick :: tickLoop rest := by
  simp [tickLoop]

theorem replicate_two_mul_succ (k : Nat) :
    List.replicate (2 * (k + 1)) Recv.tick
      = Recv.tick :: Recv.tick :: List.replicate (2 * k) Recv.tick := by
  have : 2 * (k + 1) = 2 * k + 1 + 1 := by omega
  rw [this, List.replicate_succ, List.replicate_succ]

theorem oddsFrom_succ (seen k : Nat) :
    (List.range (k + 1)).map (fun j => seen + 2 * j + 1)
      = (seen + 1) :: (List.range k).map (fun j => seen + 2 + 2 * j + 1) := by
  rw [List.range_succ_eq_map]
  simp only [List.map_cons, List.map_map, Nat.mul_zero, Nat.add_zero, List.cons.injEq, true_and]
  apply List.map_congr_left
  intro j _
  simp only [Function.comp]
  omega

/-- The runs of `sync` the goroutine starts on `2 k` ticks, and on one tick
more. -/
theorem syncStarts_tickLoop (k : Nat) : ∀ seen : Nat,
    syncStarts seen (tickLoop (List.replicate (2 * k) Recv.tick))
        = (List.range k).map (fun j => seen + 2 * j + 1)
      ∧ syncStarts seen (tickLoop (List.replicate (2 * k) Recv.tick ++ [Recv.tick]))
        = (List.range (k + 1)).map (fun j => seen + 2 * j + 1) := by
  induction k with
  | zero => intro seen; simp [tickLoop, syncStarts, List.range_succ]
  | succ k ih =>
    intro seen
    rw [replicate_two_mul_succ, oddsFrom_succ seen k, oddsFrom_succ seen (k + 1)]
    have h1 := (ih (seen + 1 + 1)).1
    have h2 := (ih (seen + 1 + 1)).2
    simp only [List.cons_append, tickLoop_two_ticks, syncStarts, List.append_eq, h1, h2]
    exact ⟨trivial, trivial⟩

theorem shareSum_eq (snapshot : List DBAccount) (T : Int) :
    shareSum snapshot T = (((snapshot.map fun a => a.Balance).sum : Int) : ℚ) / (T : ℚ) := by
  unfold shareSum
  induction snapshot with
  | nil => simp
  | cons a rest ih =>
    simp only [List.map_cons, List.sum_cons, ih, Int.cast_add]
    rw [add_div]

/-- On an account collection without negative balances, the balances of the
ranked accounts of a shard sum to at most the total balance of the shard, when
the server adds the balances of the shard exactly. -/
theorem store_snapshot_sum_le (accounts : List DBAccount) (inexact : Int → Option Int)
    (shardNumber max : Int) (T : Int)
    (hnonneg : ∀ a ∈ accounts, 0 ≤ a.Balance)
    (hexact : sumsExactly
      ((accounts.filter fun a => a.ShardNumber = shardNumber).map (·.Balance)) = true)
    (htotal : storeGetTotalBalance accounts inexact shardNumber = some T) :
    ((storeGetAccountsByShardNumber accounts shardNumber max).map fun a => a.Balance).sum ≤ T := by
  unfold storeGetTotalBalance at htotal
  rw [hexact] at htotal
  simp only [if_true] at htotal
  split_ifs at htotal
  simp only [Option.some.injEq] at htotal
  subst htotal
  unfold storeGetAccountsByShardNumber
  have hsub1 : ((accounts.filter fun a => a.AccType = 0 ∧ a.ShardNumber = shardNumber).insertionSort
      (fun a b => b.Balance ≤ a.Balance)).take max.toNat
      |>.Sublist ((accounts.filter fun a => a.AccType = 0 ∧ a.ShardNumber = shardNumber).insertionSort
      (fun a b => b.Balance ≤ a.Balance)) := List.take_sublist _ _
  have hperm := List.perm_insertionSort (fun a b : DBAccount => b.Balance ≤ a.Balance)
    (accounts.filter fun a => a.AccType = 0 ∧ a.ShardNumber = shardNumber)
  have hsub2 : (accounts.filter fun a => a.AccType = 0 ∧ a.ShardNumber = shardNumber).Sublist
      (accounts.filter fun a => a.ShardNumber = shardNumber) := by
    apply List.monotone_filter_right
    intro a ha
    simp only [decide_eq_true_eq] at ha ⊢
    exact ha.2
  have hmem : ∀ a ∈ accounts.filter (fun a => a.ShardNumber = shardNumber), 0 ≤ a.Balance :=
    fun a ha => hnonneg a (List.mem_of_mem_filter ha)
  calc ((((accounts.filter fun a => a.AccType = 0 ∧ a.ShardNumber = shardNumber).insertionSort
          (fun a b => b.Balance ≤ a.Balance)).take max.toNat).map fun a => a.Balance).sum
      ≤ (((accounts.filter fun a => a.AccType = 0 ∧ a.ShardNumber = shardNumber).insertionSort
          (fun a b => b.Balance ≤ a.Balance)).map fun a => a.Balance).sum := by
        apply List.Sublist.sum_le_sum (hsub1.map _)
        intro b hb
        obtain ⟨a, ha, rfl⟩ := List.mem_map.1 hb
        exact hmem a (hsub2.subset (hperm.subset ha))
    _ = ((accounts.filter fun a => a.AccType = 0 ∧ a.ShardNumber = shardNumber).map
          fun a => a.Balance).sum := (hperm.map _).sum_eq
    _ ≤ ((accounts.filter fun a => a.ShardNumber = shardNumber).map fun a => a.Balance).sum := by
        apply List.Sublist.sum_le_sum (hsub2.map _)
        intro b hb
        obtain ⟨a, ha, rfl⟩ := List.mem_map.1 hb
        exact hmem a ha

theorem rankLoop_Percentage (tt : Int) : ∀ (i : Nat) (l : List DBAccount),
    ∀ r ∈ rankLoop tt i l, r.Percentage = ⟨r.Balance, tt⟩ := by
  intro i l
  induction l generalizing i with
  | nil => intro r hr; simp [rankLoop] at hr
  | cons d rest ih =>
    intro r hr
    simp only [rankLoop, List.mem_cons] at hr
    rcases hr with rfl | hr
    · rfl
    · exact ih _ r hr

theorem newAccTbls_getElem? (db : BlockInfoDB) (j : Nat) (t : AccountTbl)
    (h : (newAccTbls db)[j]? = some t) :
    t.DBClient = db ∧ t.shardNumber = (j : Int) + 1 ∧ t.accountTbl = [] := by
  unfold newAccTbls at h
  rw [List.getElem?_map] at h
  cases hj : (List.range' 1 shardCount)[j]? with
  | none => simp [hj] at h
  | some i =>
    rw [hj] at h
    simp only [Option.map_some', Option.some.injEq] at h
    have hi : i = 1 + j := by
      have hlt : j < (List.range' 1 shardCount).length := by
        by_contra hcon
        rw [List.getElem?_eq_none (by omega)] at hj
        exact Option.noConfusion hj
      rw [List.getElem?_eq_getElem hlt, List.getElem_range'] at hj
      simp only [Nat.one_mul, Option.some.injEq] at hj
      exact hj.symm
    subst h
    subst hi
    refine ⟨rfl, ?_, rfl⟩
    simp only [Nat.cast_add, Nat.cast_one]
    omega

theorem tickLoop_cycles (k : Nat) :
    tickLoop (List.replicate (2 * k) Recv.tick)
      = (List.range k).flatMap fun _ =>
          [LoopEvent.recv Recv.tick, LoopEvent.sync, LoopEvent.recv Recv.tick] := by
  induction k with
  | zero => simp [tickLoop]
  | succ k ih =>
    rw [replicate_two_mul_succ, tickLoop_two_ticks, ih, List.range_succ_eq_map]
    simp [List.flatMap_map]

/-- The `k`-th entry (from 0) of a page returned by
`getAccountsByBeginAndEnd(begin, end)` is the entry of the snapshot at index
`begin + k`, and its rank is `k + 1`. -/
theorem getAccountsByBeginAndEnd_rank (a : AccountTbl) (begin end_ k : Nat)
    (page : List RetSimpleAccountInfo)
    (hpage : a.getAccountsByBeginAndEnd begin end_ = some page) (hk : k < page.length) :
    page[k]? = (a.accountTbl[begin + k]?).map (fun d =>
        { createRetSimpleAccountInfo d a.totalBalance with Rank := (k : Int) + 1 })
      ∧ (page[k]?).map (fun r => r.Rank) = some ((k : Int) + 1) := by
  unfold AccountTbl.getAccountsByBeginAndEnd at hpage
  cases hidx : a.GetAccountsByIdx begin end_ with
  | none => simp [hidx] at hpage
  | some dbAccounts =>
    simp only [hidx, Option.some.injEq] at hpage
    obtain ⟨_, _, hdb⟩ := GetAccountsByIdx_eq_some hidx
    subst hpage
    rw [rankLoop_length] at hk
    have hk2 : k < clampEnd a.accountTbl.length end_ - begin := by
      rw [hdb, List.length_take] at hk
      omega
    have hget : dbAccounts[k]? = a.accountTbl[begin + k]? := by
      rw [hdb, List.getElem?_take, if_pos hk2, List.getElem?_drop]
    have hsome : ∃ d, dbAccounts[k]? = some d := ⟨dbAccounts[k], List.getElem?_eq_getElem hk⟩
    obtain ⟨d, hd⟩ := hsome
    rw [rankLoop_getElem?, ← hget, hd]
    simp

/-! ## Lemmas on the account detail -/

/-- The loop over the transactions of `createRetDetailAccountInfo` leaves the
fields copied from the account as they are. -/
theorem detailTxLoop_account (clock : Clock) (account : DBAccount) :
    ∀ (txs : List DBTx) (ret : RetDetailAccountInfo),
      (detailTxLoop clock account txs ret).AccType = ret.AccType
        ∧ (detailTxLoop clock account txs ret).Address = ret.Address
        ∧ (detailTxLoop clock account txs ret).Balance = ret.Balance
        ∧ (detailTxLoop clock account txs ret).TxCount = ret.TxCount := by
  intro txs
  induction txs with
  | nil => intro ret; exact ⟨rfl, rfl, rfl, rfl⟩
  | cons t rest ih =>
    intro ret
    simp only [detailTxLoop]
    split_ifs
    · obtain ⟨h1, h2, h3, h4⟩ := ih { ret with
        Txs := ret.Txs ++ [createRetDetailAccountTxInfo clock account t],
        ContractCreationCode := t.Payload }
      exact ⟨h1, h2, h3, h4⟩
    · obtain ⟨h1, h2, h3, h4⟩ := ih { ret with
        Txs := ret.Txs ++ [createRetDetailAccountTxInfo clock account t] }
      exact ⟨h1, h2, h3, h4⟩

/-! ## Lemmas on a reader at work during a rebuild -/

/-- The snapshot in the table is the old or the new one and the total is the
old or the new one at every point of the rebuild. -/
theorem rebuildAt_fields {old new : List DBAccount} {oldTotal total : Int} {m : TblMem}
    {w : Prog Unit} (hw : rebuildAt old new oldTotal total m w) :
    (m.accountTbl = old ∨ m.accountTbl = new)
      ∧ (m.totalBalance = oldTotal ∨ m.totalBalance = total) := by
  rcases hw with ⟨_, g, t⟩ | ⟨_, _, _, g, t⟩ | ⟨_, _, _, g, t⟩ | ⟨_, _, g, t⟩ | ⟨_, _, g, t⟩
  · exact ⟨Or.inl g, Or.inl t⟩
  · exact ⟨Or.inl g, Or.inl t⟩
  · exact ⟨Or.inr g, Or.inl t⟩
  · exact ⟨Or.inr g, Or.inl t⟩
  · exact ⟨Or.inr g, Or.inr t⟩

/-- A step of the rebuild keeps it at a point of its code, leaves the reader
where it is, and changes the shared fields in one of three ways: not at all,
while no read lock is held, or without a change of the snapshot and the
locks. -/
theorem writer_move {α : Type} (old new : List DBAccount) (oldTotal total : Int)
    (c : Config α) (hw : rebuildAt old new oldTotal total c.mem c.writer) :
    rebuildAt old new oldTotal total (c.move true).mem (c.move true).writer
      ∧ (c.move true).reader = c.reader
      ∧ ((c.move true).mem = c.mem
        ∨ (c.mem.readLocks = 0 ∧ (c.move true).mem.readLocks = 0)
        ∨ ((c.move true).mem.accountTbl = c.mem.accountTbl
          ∧ (c.move true).mem.readLocks = c.mem.readLocks
          ∧ (c.move true).mem.writeLocked = c.mem.writeLocked)) := by
  obtain ⟨m, w, r⟩ := c
  simp only at hw
  rcases hw with ⟨rfl, h1, t⟩ | ⟨rfl, h1, h2, h3, t⟩ | ⟨rfl, h1, h2, h3, t⟩ | ⟨rfl, h1, h2, t⟩
    | ⟨rfl, h1, h2, t⟩
  · by_cases hen : m.writeLocked = false ∧ m.readLocks = 0
    · have hmv : @Config.move α ⟨m, Prog.Lock (Prog.writeAccountTbl new (Prog.Unlock
          (Prog.writeTotalBalance total (Prog.done ())))), r⟩ true
          = ⟨{ m with writeLocked := true }, Prog.writeAccountTbl new (Prog.Unlock
              (Prog.writeTotalBalance total (Prog.done ()))), r⟩ := by
        simp only [Config.move, Prog.step, hen, and_self, if_true]
      rw [hmv]
      exact ⟨Or.inr (Or.inl ⟨rfl, rfl, hen.2, h1, t⟩), rfl, Or.inr (Or.inl ⟨hen.2, hen.2⟩)⟩
    · have hmv : @Config.move α ⟨m, Prog.Lock (Prog.writeAccountTbl new (Prog.Unlock
          (Prog.writeTotalBalance total (Prog.done ())))), r⟩ true
          = ⟨m, Prog.Lock (Prog.writeAccountTbl new (Prog.Unlock
              (Prog.writeTotalBalance total (Prog.done ())))), r⟩ := by
        simp only [Config.move, Prog.step, hen, if_false, if_true]
      rw [hmv]
      exact ⟨Or.inl ⟨rfl, h1, t⟩, rfl, Or.inl rfl⟩
  · have hmv : @Config.move α ⟨m, Prog.writeAccountTbl new (Prog.Unlock
        (Prog.writeTotalBalance total (Prog.done ()))), r⟩ true
        = ⟨{ m with accountTbl := new }, Prog.Unlock
            (Prog.writeTotalBalance total (Prog.done ())), r⟩ := by
      simp only [Config.move, Prog.step, if_true]
    rw [hmv]
    exact ⟨Or.inr (Or.inr (Or.inl ⟨rfl, h1, h2, rfl, t⟩)), rfl, Or.inr (Or.inl ⟨h2, h2⟩)⟩
  · have hmv : @Config.move α ⟨m, Prog.Unlock
        (Prog.writeTotalBalance total (Prog.done ())), r⟩ true
        = ⟨{ m with writeLocked := false }, Prog.writeTotalBalance total (Prog.done ()), r⟩ := by
      simp only [Config.move, Prog.step, if_true]
    rw [hmv]
    exact ⟨Or.inr (Or.inr (Or.inr (Or.inl ⟨rfl, rfl, h3, t⟩))), rfl,
      Or.inr (Or.inl ⟨h2, h2⟩)⟩
  · have hmv : @Config.move α ⟨m, Prog.writeTotalBalance total (Prog.done ()), r⟩ true
        = ⟨{ m with totalBalance := total }, Prog.done (), r⟩ := by
      simp only [Config.move, Prog.step, if_true]
    rw [hmv]
    exact ⟨Or.inr (Or.inr (Or.inr (Or.inr ⟨rfl, h1, h2, rfl⟩))), rfl,
      Or.inr (Or.inr ⟨rfl, rfl, rfl⟩)⟩
  · have hmv : @Config.move α ⟨m, Prog.done (), r⟩ true = ⟨m, Prog.done (), r⟩ := by
      simp only [Config.move, Prog.step, if_true]
    rw [hmv]
    exact ⟨Or.inr (Or.inr (Or.inr (Or.inr ⟨rfl, h1, h2, t⟩))), rfl, Or.inl rfl⟩

/-- A change of the read locks made while the write lock is free, with the
other shared fields as they were, keeps the rebuild at its point. -/
theorem rebuildAt_of_reader_step {old new : List DBAccount} {oldTotal total : Int}
    {m m' : TblMem} {w : Prog Unit} (hw : rebuildAt old new oldTotal total m w)
    (h1 : m'.accountTbl = m.accountTbl) (h2 : m'.totalBalance = m.totalBalance)
    (h3 : m'.writeLocked = m.writeLocked)
    (h4 : m'.readLocks = m.readLocks ∨ m.writeLocked = false) :
    rebuildAt old new oldTotal total m' w := by
  rcases hw with ⟨g1, g2, t⟩ | ⟨g1, g2, g3, g4, t⟩ | ⟨g1, g2, g3, g4, t⟩ | ⟨g1, g2, g3, t⟩
    | ⟨g1, g2, g3, t⟩
  · exact Or.inl ⟨g1, h1 ▸ g2, h2 ▸ t⟩
  · refine Or.inr (Or.inl ⟨g1, h3 ▸ g2, ?_, h1 ▸ g4, h2 ▸ t⟩)
    rcases h4 with h4 | h4
    · rw [h4]; exact g3
    · rw [g2] at h4; exact Bool.noConfusion h4
  · refine Or.inr (Or.inr (Or.inl ⟨g1, h3 ▸ g2, ?_, h1 ▸ g4, h2 ▸ t⟩))
    rcases h4 with h4 | h4
    · rw [h4]; exact g3
    · rw [g2] at h4; exact Bool.noConfusion h4
  · exact Or.inr (Or.inr (Or.inr (Or.inl ⟨g1, h3 ▸ g2, h1 ▸ g3, h2 ▸ t⟩)))
  · exact Or.inr (Or.inr (Or.inr (Or.inr ⟨g1, h3 ▸ g2, h1 ▸ g3, h2 ▸ t⟩)))

/-- Under every schedule the rebuild stays at a point of its code and the
reader keeps a property `I` that no step of the rebuild breaks and that every
step of the reader keeps, when the reader changes nothing but the read locks,
and these only while the write lock is free. -/
theorem run_keeps {α : Type} (old new : List DBAccount) (oldTotal total : Int)
    (I : TblMem → Prog α → Prop)
    (hstable : ∀ m m' r, I m r →
      (m' = m ∨ (m.readLocks = 0 ∧ m'.readLocks = 0)
        ∨ (m'.accountTbl = m.accountTbl ∧ m'.readLocks = m.readLocks
          ∧ m'.writeLocked = m.writeLocked)) → I m' r)
    (hstep : ∀ m r r' m', (m.accountTbl = old ∨ m.accountTbl = new) →
      (m.totalBalance = oldTotal ∨ m.totalBalance = total) → I m r →
      r.step m = some (r', m') →
      I m' r' ∧ m'.accountTbl = m.accountTbl ∧ m'.totalBalance = m.totalBalance
        ∧ m'.writeLocked = m.writeLocked
        ∧ (m'.readLocks = m.readLocks ∨ m.writeLocked = false))
    (schedule : List Bool) : ∀ (c : Config α),
    rebuildAt old new oldTotal total c.mem c.writer → I c.mem c.reader →
    rebuildAt old new oldTotal total (c.run schedule).mem (c.run schedule).writer
      ∧ I (c.run schedule).mem (c.run schedule).reader := by
  induction schedule with
  | nil => intro c hw hi; exact ⟨hw, hi⟩
  | cons who rest ih =>
    intro c hw hi
    have hmove : rebuildAt old new oldTotal total (c.move who).mem (c.move who).writer
        ∧ I (c.move who).mem (c.move who).reader := by
      cases who with
      | true =>
        obtain ⟨h1, h2, h3⟩ := writer_move old new oldTotal total c hw
        exact ⟨h1, h2 ▸ hstable _ _ _ hi h3⟩
      | false =>
        obtain ⟨hs, ht⟩ := rebuildAt_fields hw
        cases hr : c.reader.step c.mem with
        | none =>
          have : c.move false = c := by simp [Config.move, hr]
          rw [this]
          exact ⟨hw, hi⟩
        | some p =>
          obtain ⟨r', m'⟩ := p
          obtain ⟨g1, g2, g3, g4, g5⟩ := hstep _ _ _ _ hs ht hi hr
          have : c.move false = { c with reader := r', mem := m' } := by
            simp [Config.move, hr]
          rw [this]
          exact ⟨rebuildAt_of_reader_step hw g2 g3 g4 g5, g1⟩
    exact ih (c.move who) hmove.1 hmove.2

/-- No step of the rebuild breaks what holds of a call of `GetAccountsByIdx`,
when it breaks nothing of the code that follows the call. -/
theorem readerAt_stable {α : Type} (begin end_ : Nat) (old new : List DBAccount)
    (k : List DBAccount → Prog α) (after : List DBAccount → Prog α → Prop)
    (m m' : TblMem) (r : Prog α) (hr : readerAt begin end_ old new k after m r)
    (hframe : m' = m ∨ (m.readLocks = 0 ∧ m'.readLocks = 0)
      ∨ (m'.accountTbl = m.accountTbl ∧ m'.readLocks = m.readLocks
        ∧ m'.writeLocked = m.writeLocked)) :
    readerAt begin end_ old new k after m' r := by
  rcases hframe with rfl | ⟨h0, h0'⟩ | ⟨h1, h2, h3⟩
  · exact hr
  · rcases hr with ⟨g1, _⟩ | ⟨_, g2, _⟩ | ⟨_, g2, _⟩ | ⟨_, g2, _⟩ | ⟨_, _, g2, _⟩
      | ⟨page, g1, _, g3⟩ | ⟨_, g2, _⟩
    · exact Or.inl ⟨g1, h0'⟩
    · omega
    · omega
    · omega
    · omega
    · exact Or.inr (Or.inr (Or.inr (Or.inr (Or.inr (Or.inl ⟨page, g1, h0', g3⟩)))))
    · omega
  · unfold readerAt at hr ⊢
    rw [h1, h2, h3]
    exact hr

/-- Every step of a call of `GetAccountsByIdx` keeps it at a point of its
code, when the code that follows the call keeps to its points and changes no
shared field; the call itself changes only the read locks, and only while the
write lock is free. -/
theorem readerAt_step {α : Type} (begin end_ : Nat) (old new : List DBAccount)
    (oldTotal total : Int)
    (k : List DBAccount → Prog α) (after : List DBAccount → Prog α → Prop)
    (hentry : ∀ page, after page (k page))
    (hafter : ∀ page m r r' m', (m.totalBalance = oldTotal ∨ m.totalBalance = total) →
      after page r → r.step m = some (r', m') → after page r' ∧ m' = m)
    (m : TblMem) (r r' : Prog α) (m' : TblMem)
    (hsnap : m.accountTbl = old ∨ m.accountTbl = new)
    (htotal : m.totalBalance = oldTotal ∨ m.totalBalance = total)
    (hr : readerAt begin end_ old new k after m r) (hs : r.step m = some (r', m')) :
    readerAt begin end_ old new k after m' r' ∧ m'.accountTbl = m.accountTbl
      ∧ m'.totalBalance = m.totalBalance ∧ m'.writeLocked = m.writeLocked
      ∧ (m'.readLocks = m.readLocks ∨ m.writeLocked = false) := by
  rcases hr with ⟨rfl, g1⟩ | ⟨rfl, g1, g2⟩ | ⟨rfl, g1, g2, g3⟩ | ⟨rfl, g1, g2⟩
    | ⟨page, rfl, g1, g2, g3⟩ | ⟨page, g0, g1, g3⟩ | ⟨rfl, g1, g2, g3⟩
  · by_cases hen : m.writeLocked = false
    · simp only [GetAccountsByIdxSteps, Prog.step, hen, if_true, Option.some.injEq,
        Prod.mk.injEq] at hs
      obtain ⟨rfl, rfl⟩ := hs
      refine ⟨Or.inr (Or.inl ⟨rfl, ?_, rfl⟩), rfl, rfl, hen.symm, Or.inr hen⟩
      show m.readLocks + 1 = 1
      omega
    · simp only [GetAccountsByIdxSteps, Prog.step, hen, if_false] at hs
      exact Option.noConfusion hs
  · simp only [Prog.step, Option.some.injEq, Prod.mk.injEq] at hs
    obtain ⟨rfl, rfl⟩ := hs
    refine ⟨?_, rfl, rfl, rfl, Or.inl rfl⟩
    by_cases hlen : end_ > m.accountTbl.length
    · rw [if_pos hlen]
      exact Or.inr (Or.inr (Or.inl ⟨rfl, g1, g2, hlen⟩))
    · rw [if_neg hlen]
      refine Or.inr (Or.inr (Or.inr (Or.inl ⟨?_, g1, g2⟩)))
      simp only [clampEnd, hlen, if_false]
  · simp only [Prog.step, Option.some.injEq, Prod.mk.injEq] at hs
    obtain ⟨rfl, rfl⟩ := hs
    refine ⟨Or.inr (Or.inr (Or.inr (Or.inl ⟨?_, g1, g2⟩))), rfl, rfl, rfl, Or.inl rfl⟩
    simp only [clampEnd, g3, if_true]
  · simp only [sliceSteps, Prog.step, Option.some.injEq, Prod.mk.injEq] at hs
    obtain ⟨rfl, rfl⟩ := hs
    refine ⟨?_, rfl, rfl, rfl, Or.inl rfl⟩
    by_cases hb : begin ≤ clampEnd m.accountTbl.length end_
        ∧ clampEnd m.accountTbl.length end_ ≤ m.accountTbl.length
    · rw [if_pos hb]
      exact Or.inr (Or.inr (Or.inr (Or.inr (Or.inl ⟨_, rfl, g1, g2, hb.1, hb.2, rfl⟩))))
    · rw [if_neg hb]
      exact Or.inr (Or.inr (Or.inr (Or.inr (Or.inr (Or.inr ⟨rfl, g1, g2, hb⟩)))))
  · simp only [Prog.step, Option.some.injEq, Prod.mk.injEq] at hs
    obtain ⟨rfl, rfl⟩ := hs
    refine ⟨Or.inr (Or.inr (Or.inr (Or.inr (Or.inr (Or.inl
      ⟨page, hentry page, ?_, ?_⟩))))), rfl, rfl, rfl, Or.inr g2⟩
    · show m.readLocks - 1 = 0
      omega
    · rcases hsnap with hs | hs
      · exact Or.inl (hs ▸ g3)
      · exact Or.inr (hs ▸ g3)
  · obtain ⟨h1, rfl⟩ := hafter page m r r' m' htotal g0 hs
    exact ⟨Or.inr (Or.inr (Or.inr (Or.inr (Or.inr (Or.inl ⟨page, h1, g1, g3⟩))))),
      rfl, rfl, rfl, Or.inl rfl⟩
  · simp only [Prog.step] at hs
    exact Option.noConfusion hs

/-- No step of the rebuild breaks what holds of a call of `GetAccountCnt`. -/
theorem countAt_stable (old new : List DBAccount) (m m' : TblMem) (r : Prog Nat)
    (hr : countAt old new m r)
    (hframe : m' = m ∨ (m.readLocks = 0 ∧ m'.readLocks = 0)
      ∨ (m'.accountTbl = m.accountTbl ∧ m'.readLocks = m.readLocks
        ∧ m'.writeLocked = m.writeLocked)) :
    countAt old new m' r := by
  rcases hframe with rfl | ⟨h0, h0'⟩ | ⟨h1, h2, h3⟩
  · exact hr
  · rcases hr with ⟨g1, _⟩ | ⟨_, g2, _⟩ | ⟨_, g2, _⟩ | ⟨n, g1, _, g3⟩
    · exact Or.inl ⟨g1, h0'⟩
    · omega
    · omega
    · exact Or.inr (Or.inr (Or.inr ⟨n, g1, h0', g3⟩))
  · unfold countAt at hr ⊢
    rw [h1, h2, h3]
    exact hr

/-- Every step of a call of `GetAccountCnt` keeps it at a point of its code;
the call changes only the read locks, and only while the write lock is
free. -/
theorem countAt_step (old new : List DBAccount) (m : TblMem) (r r' : Prog Nat) (m' : TblMem)
    (hsnap : m.accountTbl = old ∨ m.accountTbl = new)
    (hr : countAt old new m r) (hs : r.step m = some (r', m')) :
    countAt old new m' r' ∧ m'.accountTbl = m.accountTbl
      ∧ m'.totalBalance = m.totalBalance ∧ m'.writeLocked = m.writeLocked
      ∧ (m'.readLocks = m.readLocks ∨ m.writeLocked = false) := by
  rcases hr with ⟨rfl, g1⟩ | ⟨rfl, g1, g2⟩ | ⟨rfl, g1, g2⟩ | ⟨n, rfl, g1, g3⟩
  · by_cases hen : m.writeLocked = false
    · simp only [GetAccountCntSteps, Prog.step, hen, if_true, Option.some.injEq,
        Prod.mk.injEq] at hs
      obtain ⟨rfl, rfl⟩ := hs
      refine ⟨Or.inr (Or.inl ⟨rfl, ?_, rfl⟩), rfl, rfl, hen.symm, Or.inr hen⟩
      show m.readLocks + 1 = 1
      omega
    · simp only [GetAccountCntSteps, Prog.step, hen, if_false] at hs
      exact Option.noConfusion hs
  · simp only [Prog.step, Option.some.injEq, Prod.mk.injEq] at hs
    obtain ⟨rfl, rfl⟩ := hs
    exact ⟨Or.inr (Or.inr (Or.inl ⟨rfl, g1, g2⟩)), rfl, rfl, rfl, Or.inl rfl⟩
  · simp only [Prog.step, Option.some.injEq, Prod.mk.injEq] at hs
    obtain ⟨rfl, rfl⟩ := hs
    refine ⟨Or.inr (Or.inr (Or.inr ⟨_, rfl, ?_, ?_⟩)), rfl, rfl, rfl, Or.inr g2⟩
    · show m.readLocks - 1 = 0
      omega
    · rcases hsnap with hs | hs
      · exact Or.inl (by rw [hs])
      · exact Or.inr (by rw [hs])
  · simp only [Prog.step] at hs
    exact Option.noConfusion hs

/-- The loop of `getAccountsByBeginAndEnd` starts at one of its points. -/
theorem rankLoopAt_entry (oldTotal total : Int) (page : List DBAccount) :
    rankLoopAt oldTotal total page (rankLoopSteps 0 page []) :=
  ⟨[], page, [], rfl, rfl, rfl, fun i data hi => by simp at hi⟩

/-- Every step of the loop of `getAccountsByBeginAndEnd` keeps it at one of
its points and changes no shared field. -/
theorem rankLoopAt_step (oldTotal total : Int) (page : List DBAccount) (m : TblMem)
    (r r' : Prog (List RetSimpleAccountInfo)) (m' : TblMem)
    (htotal : m.totalBalance = oldTotal ∨ m.totalBalance = total)
    (hr : rankLoopAt oldTotal total page r) (hs : r.step m = some (r', m')) :
    rankLoopAt oldTotal total page r' ∧ m' = m := by
  obtain ⟨pre, rest, accounts, rfl, hpage, hlen, hall⟩ := hr
  cases rest with
  | nil =>
    simp only [rankLoopSteps, Prog.step] at hs
    exact Option.noConfusion hs
  | cons data rest =>
    simp only [rankLoopSteps, Prog.step, Option.some.injEq, Prod.mk.injEq] at hs
    obtain ⟨rfl, rfl⟩ := hs
    refine ⟨⟨pre ++ [data], rest,
      accounts ++ [{ createRetSimpleAccountInfo data m.totalBalance with
        Rank := (pre.length : Int) + 1 }], ?_, ?_, ?_, ?_⟩, rfl⟩
    · simp only [List.length_append, List.length_singleton]
    · simp only [hpage, List.append_assoc, List.singleton_append]
    · simp only [List.length_append, List.length_singleton, hlen]
    · intro i d hi
      by_cases hlt : i < pre.length
      · rw [List.getElem?_append_left hlt] at hi
        obtain ⟨tt, htt, hacc⟩ := hall i d hi
        exact ⟨tt, htt, by rw [List.getElem?_append_left (by omega)]; exact hacc⟩
      · have hge : pre.length ≤ i := by omega
        rw [List.getElem?_append_right hge] at hi
        have hi0 : i - pre.length = 0 := by
          by_contra hne
          have : [data][i - pre.length]? = none := by
            apply List.getElem?_eq_none
            simp only [List.length_singleton]
            omega
          rw [this] at hi
          exact Option.noConfusion hi
        have hieq : i = pre.length := by omega
        subst hieq
        simp only [Nat.sub_self, List.getElem?_cons_zero, Option.some.injEq] at hi
        subst hi
        refine ⟨m.totalBalance, htotal, ?_⟩
        rw [List.getElem?_append_right (by omega), hlen]
        simp

/-- The result of the loop of `getAccountsByBeginAndEnd` lists every account
of the page, in order, with its rank in the page and with one of the two
totals. -/
theorem rankLoopAt_result (oldTotal total : Int) (page : List DBAccount)
    (r : Prog (List RetSimpleAccountInfo)) (entries : List RetSimpleAccountInfo)
    (hr : rankLoopAt oldTotal total page r) (hres : r.result? = some entries) :
    entries.length = page.length
      ∧ ∀ (i : Nat) (data : DBAccount), page[i]? = some data →
          ∃ tt, (tt = oldTotal ∨ tt = total)
            ∧ entries[i]?
              = some { createRetSimpleAccountInfo data tt with Rank := (i : Int) + 1 } := by
  obtain ⟨pre, rest, accounts, rfl, hpage, hlen, hall⟩ := hr
  cases rest with
  | nil =>
    simp only [rankLoopSteps, Prog.result?, Option.some.injEq] at hres
    subst hres
    simp only [List.append_nil] at hpage
    subst hpage
    exact ⟨hlen, hall⟩
  | cons data rest =>
    simp only [rankLoopSteps, Prog.result?] at hres
    exact Option.noConfusion hres

/-- The loop of `getAccountsByBeginAndEnd` does not end at a panic. -/
theorem rankLoopAt_no_panic (oldTotal total : Int) (page : List DBAccount)
    (r : Prog (List RetSimpleAccountInfo)) (hr : rankLoopAt oldTotal total page r) :
    r.hasPanicked = false := by
  obtain ⟨pre, rest, accounts, rfl, _⟩ := hr
  cases rest <;> rfl

/-- Without a rebuild at work, the loop of `getAccountsByBeginAndEnd` ends
after one step for each account with the entries of the sequential loop. -/
theorem rankLoopSteps_alone (w : Prog Unit) (m : TblMem) :
    ∀ (rest : List DBAccount) (i : Nat) (accounts : List RetSimpleAccountInfo) (n : Nat),
      rest.length ≤ n →
      Config.run { mem := m, writer := w, reader := rankLoopSteps i rest accounts }
          (List.replicate n false)
        = { mem := m, writer := w,
            reader := Prog.done (accounts ++ rankLoop m.totalBalance i rest) } := by
  intro rest
  induction rest with
  | nil =>
    intro i accounts n _
    induction n with
    | zero => simp [Config.run, rankLoopSteps, rankLoop]
    | succ n ih =>
      have ih' := ih (Nat.zero_le n)
      simp only [List.replicate, Config.run, List.foldl, rankLoopSteps] at ih' ⊢
      simp only [Config.move, Prog.step, Bool.false_eq_true, if_false]
      exact ih'
  | cons data rest ih =>
    intro i accounts n hn
    obtain ⟨n, rfl⟩ : ∃ n', n = n' + 1 := ⟨n - 1, by simp at hn; omega⟩
    have := ih (i + 1)
      (accounts ++ [{ createRetSimpleAccountInfo data m.totalBalance with
        Rank := (i : Int) + 1 }]) n (by simp at hn; omega)
    simp only [List.replicate, Config.run, List.foldl] at this ⊢
    simp only [Config.move, rankLoopSteps, Prog.step, Bool.false_eq_true, if_false]
    rw [this]
    simp [rankLoop]

/-- A run of `updateImpl` on a table starts at a point of a rebuild that
replaces the snapshot and the total by the ones the sequential `updateImpl`
stores. -/
theorem rebuildWith_start {α : Type} (h : AccountHandler) (j : Nat) (a : AccountTbl)
    (reader : Prog α) :
    rebuildAt a.accountTbl (if j + 1 < shardCount then a.ProcessGAccountTable else a).accountTbl
      a.totalBalance (setTotalBalance h.DBClient.GetTotalBalance.1 j a).totalBalance
      (h.rebuildWith j a reader).mem (h.rebuildWith j a reader).writer := by
  unfold AccountHandler.rebuildWith AccountHandler.updateImplSteps
    AccountTbl.ProcessGAccountTableSteps AccountTbl.ProcessGAccountTable
  by_cases hj : j + 1 < shardCount
  · simp only [hj, if_true]
    cases a.DBClient.GetAccountsByShardNumber a.shardNumber maxShowAccountNum with
    | none => exact Or.inr (Or.inr (Or.inr (Or.inl ⟨rfl, rfl, rfl, rfl⟩)))
    | some temp => exact Or.inl ⟨rfl, rfl, rfl⟩
  · simp only [hj, if_false]
    exact Or.inr (Or.inr (Or.inr (Or.inl ⟨rfl, rfl, rfl, rfl⟩)))

/-- A page of a snapshot in the sense of `pageOf` is what the sequential
`GetAccountsByIdx` returns on a table that holds the snapshot. -/
theorem pageOf_iff (a : AccountTbl) (begin end_ : Nat) (page : List DBAccount) :
    pageOf begin end_ a.accountTbl page ↔ a.GetAccountsByIdx begin end_ = some page := by
  unfold pageOf AccountTbl.GetAccountsByIdx
  simp only
  constructor
  · rintro ⟨h1, h2, rfl⟩
    rw [if_pos ⟨h1, h2⟩]
  · intro h
    split_ifs at h with hb
    exact ⟨hb.1, hb.2, (Option.some.inj h).symm⟩

/-- A reader that has ended makes no further step. -/
theorem run_ended {α : Type} (m : TblMem) (w : Prog Unit) (r : Prog α)
    (hr : ∀ m', r.step m' = none) (n : Nat) :
    Config.run { mem := m, writer := w, reader := r } (List.replicate n false)
      = { mem := m, writer := w, reader := r } := by
  induction n with
  | zero => rfl
  | succ n ih =>
    simp only [List.replicate, Config.run, List.foldl] at ih ⊢
    simp only [Config.move, hr, Bool.false_eq_true, if_false]
    exact ih

/-! ## Lemmas on what follows a call of the rollback scan

A property `G hist e rest` speaks of a call `e`, the history `hist` before
it, and the calls `rest` that follow it within one list of calls. -/

/-- A property of what follows a call, which more calls at the end do not
break, holds in a concatenation when it holds in both parts. -/
theorem follows_append {G : Trace → Event → List Event → Prop}
    (hmono : ∀ hist e rest more, G hist e rest → G hist e (rest ++ more))
    {tr : Trace} {A B : List Event}
    (hA : ∀ p e rest, A = p ++ e :: rest → G (tr ++ p) e rest)
    (hB : ∀ p e rest, B = p ++ e :: rest → G (tr ++ A ++ p) e rest) :
    ∀ p e rest, A ++ B = p ++ e :: rest → G (tr ++ p) e rest := by
  intro p e rest h
  rcases List.append_eq_append_iff.1 h with ⟨a, ha1, ha2⟩ | ⟨c, hc1, hc2⟩
  · have := hB a e rest ha2
    rw [ha1, ← List.append_assoc]
    exact this
  · cases c with
    | nil =>
      simp only [List.append_nil] at hc1
      simp only [List.nil_append] at hc2
      have := hB [] e rest hc2.symm
      rw [List.append_nil, hc1] at this
      exact this
    | cons x c =>
      simp only [List.cons_append, List.cons.injEq] at hc2
      obtain ⟨rfl, rfl⟩ := hc2
      exact hmono _ _ _ _ (hA p e c hc1)

/-- A run of the rollback loop is its first pass followed by the run of the
remaining passes, when the first pass goes on. -/
theorem checkLoop_unroll (w : World) (f i : Nat) (fb : Bool) (tr : Trace) :
    (checkLoop w (f + 1) i fb tr).1
      = (checkLoop w 1 i fb tr).1
        ++ (match (checkLoop w 1 i fb tr).2 with
            | .outOfFuel => (checkLoop w f (decU64 i) true (tr ++ (checkLoop w 1 i fb tr).1)).1
            | .returned _ => []) := by
  simp only [checkLoop, Nat.zero_le, if_true]
  cases w.rpcGetBlockByHeight tr i true with
  | none => simp
  | some rpcBlock =>
    cases w.dbGetBlockByHeight (tr ++ [Event.rpcGetBlockByHeight i true]) w.shardNumber i with
    | none => simp
    | some dbBlock =>
      by_cases h3 : dbBlock.HeadHash = rpcBlock.Hash
      · simp [h3]
      · simp only [h3, if_false]
        split_ifs <;> simp

/-- A property of what follows a call holds in a run of the rollback loop
when it holds in every single pass. -/
theorem follows_checkLoop (w : World) {G : Trace → Event → List Event → Prop}
    (hmono : ∀ hist e rest more, G hist e rest → G hist e (rest ++ more))
    (hpass : ∀ i fb tr p e rest, (checkLoop w 1 i fb tr).1 = p ++ e :: rest →
      G (tr ++ p) e rest) :
    ∀ fuel i fb tr p e rest, (checkLoop w fuel i fb tr).1 = p ++ e :: rest →
      G (tr ++ p) e rest := by
  intro fuel
  induction fuel with
  | zero => intro i fb tr p e rest h; simp [checkLoop] at h
  | succ f ih =>
    intro i fb tr p e rest h
    rw [checkLoop_unroll] at h
    refine follows_append hmono (hpass i fb tr) ?_ p e rest h
    intro p' e' rest' h'
    cases hres : (checkLoop w 1 i fb tr).2 with
    | outOfFuel =>
      rw [hres] at h'
      exact ih _ _ _ p' e' rest' h'
    | returned b =>
      rw [hres] at h'
      simp at h'

/-- A property of what follows a call that holds in every pass of the
rollback loop and for the block count query holds in a run of
`checkOlderBlocks`. -/
theorem follows_checkOlderBlocks (w : World) {G : Trace → Event → List Event → Prop}
    (hmono : ∀ hist e rest more, G hist e rest → G hist e (rest ++ more))
    (hcount : ∀ hist s rest, G hist (Event.dbGetBlockHeight s) rest)
    (hpass : ∀ i fb tr p e rest, (checkLoop w 1 i fb tr).1 = p ++ e :: rest →
      G (tr ++ p) e rest) :
    ∀ fuel tr p e rest, (checkOlderBlocks w fuel tr).1 = p ++ e :: rest →
      G (tr ++ p) e rest := by
  intro fuel tr p e rest h
  have hfirst : ∀ p e rest, [Event.dbGetBlockHeight w.shardNumber] = p ++ e :: rest →
      G (tr ++ p) e rest := by
    intro p e rest h
    rcases p with _ | ⟨x, p⟩
    · simp only [List.nil_append, List.cons.injEq] at h
      rw [← h.1]
      exact hcount _ _ _
    · simp at h
  unfold checkOlderBlocks at h
  cases h0 : w.dbGetBlockHeight tr w.shardNumber with
  | none =>
    simp only [h0] at h
    exact hfirst p e rest h
  | some n =>
    simp only [h0] at h
    split_ifs at h
    · exact hfirst p e rest h
    · exact follows_append hmono hfirst
        (fun p' e' rest' h' => follows_checkLoop w hmono hpass _ _ _ _ p' e' rest' h')
        p e rest h
/-- A property of what follows a call that holds for every call of a list
that is not a trigger holds in the list. -/
theorem follows_of_forall {G : Trace → Event → List Event → Prop} {tr : Trace}
    {A : List Event} (hA : ∀ e ∈ A, ∀ hist rest, G hist e rest) :
    ∀ p e rest, A = p ++ e :: rest → G (tr ++ p) e rest := by
  intro p e rest h
  exact hA e (by rw [h]; simp) _ _

/-- A property of what follows a call holds in the loop over the transactions
of a stale block when it holds in every pass of the loop. -/
theorem follows_txLoop (w : World) {G : Trace → Event → List Event → Prop}
    (hmono : ∀ hist e rest more, G hist e rest → G hist e (rest ++ more))
    (hstep : ∀ tx tr p e rest, (txStep w tx tr).1 = p ++ e :: rest → G (tr ++ p) e rest) :
    ∀ txs tr p e rest, (txLoop w txs tr).1 = p ++ e :: rest → G (tr ++ p) e rest := by
  intro txs
  induction txs with
  | nil => intro tr p e rest h; simp [txLoop] at h
  | cons tx more ih =>
    intro tr p e rest h
    simp only [txLoop] at h
    split_ifs at h
    · exact follows_append hmono (hstep tx tr)
        (fun p' e' rest' h' => ih _ p' e' rest' h') p e rest h
    · exact hstep tx tr p e rest h

/-- A property of the account calls holds in a pass of the rollback loop when
it holds in the loop body for one transaction and in the update of the block
creator. -/
theorem follows_pass (w : World) {G : Trace → Event → List Event → Prop}
    (hmono : ∀ hist e rest more, G hist e rest → G hist e (rest ++ more))
    (htriv : ∀ hist e rest, isAccountCall e = false → G hist e rest)
    (hstep : ∀ tx tr p e rest, (txStep w tx tr).1 = p ++ e :: rest → G (tr ++ p) e rest)
    (hminer : ∀ b tr p e rest, minerUpdate w b tr = p ++ e :: rest → G (tr ++ p) e rest) :
    ∀ i fb tr p e rest, (checkLoop w 1 i fb tr).1 = p ++ e :: rest → G (tr ++ p) e rest := by
  have hroll : ∀ b i tr p e rest, (rollbackBlock w b i tr).1 = p ++ e :: rest →
      G (tr ++ p) e rest := by
    intro b i tr p e rest h
    have hdel : ∀ p e rest, [Event.dbRemoveBlock i, Event.dbRemoveTxs i] = p ++ e :: rest →
        G (tr ++ p) e rest :=
      follows_of_forall (fun e he hist rest => htriv hist e rest (by
        simp only [List.mem_cons, List.mem_singleton, List.not_mem_nil, or_false] at he
        rcases he with rfl | rfl <;> rfl))
    have htx : ∀ p e rest,
        [Event.dbRemoveBlock i, Event.dbRemoveTxs i]
          ++ (txLoop w b.Txs (tr ++ [Event.dbRemoveBlock i, Event.dbRemoveTxs i])).1
          = p ++ e :: rest → G (tr ++ p) e rest :=
      follows_append hmono hdel (fun p' e' rest' h' => follows_txLoop w hmono hstep _ _ p' e' rest' h')
    unfold rollbackBlock at h
    dsimp only at h
    split_ifs at h
    · exact follows_append hmono htx (fun p' e' rest' h' => hminer _ _ p' e' rest' h') p e rest h
    · exact htx p e rest h
  intro i fb tr p e rest h
  simp only [checkLoop, Nat.zero_le, if_true] at h
  have hq1 : ∀ p e rest, [Event.rpcGetBlockByHeight i true] = p ++ e :: rest →
      G (tr ++ p) e rest :=
    follows_of_forall (fun e he hist rest => htriv hist e rest (by
      simp only [List.mem_singleton] at he
      subst he; rfl))
  have hq2 : ∀ p e rest, [Event.rpcGetBlockByHeight i true]
      ++ [Event.dbGetBlockByHeight w.shardNumber i] = p ++ e :: rest →
      G (tr ++ p) e rest :=
    follows_of_forall (fun e he hist rest => htriv hist e rest (by
      simp only [List.mem_append, List.mem_singleton] at he
      rcases he with rfl | rfl <;> rfl))
  cases h1 : w.rpcGetBlockByHeight tr i true with
  | none =>
    simp only [h1] at h
    exact hq1 p e rest h
  | some rpcBlock =>
    simp only [h1] at h
    cases h2 : w.dbGetBlockByHeight (tr ++ [Event.rpcGetBlockByHeight i true])
        w.shardNumber i with
    | none =>
      simp only [h2] at h
      exact hq2 p e rest h
    | some dbBlock =>
      simp only [h2] at h
      by_cases h3 : dbBlock.HeadHash = rpcBlock.Hash
      · simp only [h3, if_true] at h
        exact hq2 p e rest h
      · simp only [h3, if_false] at h
        split_ifs at h
        · simp only [List.append_nil] at h
          exact follows_append hmono hq2 (fun p' e' rest' h' => hroll _ _ _ p' e' rest' h')
            p e rest h
        · exact follows_append hmono hq2 (fun p' e' rest' h' => hroll _ _ _ p' e' rest' h')
            p e rest h

/-- Within the loop body for one transaction, the count query and the upsert
follow every balance fetch and the upsert follows every count query; the
upsert carries the values fetched, and 0 in the place of one whose fetch
failed. -/
theorem txStep_uses_answer_or_zero (w : World) (tx : DBBlockTx) (tr p : Trace) (e : Event)
    (rest : List Event) (h : (txStep w tx tr).1 = p ++ e :: rest) :
    (∀ a, e = Event.rpcGetBalance a →
        ∃ x y rest', rest = Event.dbGetTxCnt w.shardNumber x
          :: Event.dbUpdateAccount y ((w.rpcGetBalance (tr ++ p) a).getD 0)
              ((w.dbGetTxCnt (tr ++ p ++ [Event.rpcGetBalance a]) w.shardNumber x).getD 0)
          :: rest')
      ∧ (∀ s x, e = Event.dbGetTxCnt s x →
        ∃ y b rest', rest
          = Event.dbUpdateAccount y b ((w.dbGetTxCnt (tr ++ p) s x).getD 0) :: rest')
      ∧ (∀ s a, e = Event.dbGetMinedBlocksCnt s a →
        ∃ rest', rest = Event.dbUpdateAccountMinedBlock a
          ((w.dbGetMinedBlocksCnt (tr ++ p) s a).getD 0) :: rest') := by
  unfold txStep at h
  split at h
  · rcases p with _ | ⟨x, p⟩
    · simp only [List.nil_append, List.cons.injEq] at h
      obtain ⟨rfl, rfl⟩ := h
      simp
    · simp at h
  · dsimp only at h
    split_ifs at h
    · rcases p with _ | ⟨x1, _ | ⟨x2, _ | ⟨x3, _ | ⟨x4, _ | ⟨x5, _ | ⟨x6, _ | ⟨x7, _ | ⟨x8, p⟩⟩⟩⟩⟩⟩⟩⟩ <;>
        simp only [List.nil_append, List.cons_append, List.append_assoc, List.cons.injEq,
          List.nil_eq, List.append_eq_nil, and_false, reduceCtorEq] at h
      all_goals
        casesm* _ ∧ _
        subst_vars
        simp
    · rcases p with _ | ⟨x1, _ | ⟨x2, _ | ⟨x3, _ | ⟨x4, p⟩⟩⟩⟩ <;>
        simp only [List.nil_append, List.cons_append, List.append_assoc, List.cons.injEq,
          List.nil_eq, List.append_eq_nil, and_false, reduceCtorEq] at h
      all_goals
        casesm* _ ∧ _
        subst_vars
        simp

/-- Within the update of the block creator, the update of the mined count
follows the count query and carries the count fetched, and 0 when the query
failed; there is no balance fetch and no transaction count query. -/
theorem minerUpdate_uses_answer_or_zero (w : World) (b : DBBlock) (tr p : Trace) (e : Event)
    (rest : List Event) (h : minerUpdate w b tr = p ++ e :: rest) :
    (∀ a, e = Event.rpcGetBalance a →
        ∃ x y rest', rest = Event.dbGetTxCnt w.shardNumber x
          :: Event.dbUpdateAccount y ((w.rpcGetBalance (tr ++ p) a).getD 0)
              ((w.dbGetTxCnt (tr ++ p ++ [Event.rpcGetBalance a]) w.shardNumber x).getD 0)
          :: rest')
      ∧ (∀ s x, e = Event.dbGetTxCnt s x →
        ∃ y b rest', rest
          = Event.dbUpdateAccount y b ((w.dbGetTxCnt (tr ++ p) s x).getD 0) :: rest')
      ∧ (∀ s a, e = Event.dbGetMinedBlocksCnt s a →
        ∃ rest', rest = Event.dbUpdateAccountMinedBlock a
          ((w.dbGetMinedBlocksCnt (tr ++ p) s a).getD 0) :: rest') := by
  unfold minerUpdate at h
  split_ifs at h
  · dsimp only at h
    split at h
    · rcases p with _ | ⟨x1, _ | ⟨x2, _ | ⟨x3, p⟩⟩⟩ <;>
        simp only [List.nil_append, List.cons_append, List.append_assoc, List.cons.injEq,
          List.nil_eq, List.append_eq_nil, and_false, reduceCtorEq] at h
      all_goals
        casesm* _ ∧ _
        subst_vars
        simp
    · split_ifs at h
      · rcases p with _ | ⟨x1, _ | ⟨x2, _ | ⟨x3, _ | ⟨x4, _ | ⟨x5, p⟩⟩⟩⟩⟩ <;>
          simp only [List.nil_append, List.cons_append, List.append_assoc, List.cons.injEq,
            List.nil_eq, List.append_eq_nil, and_false, reduceCtorEq] at h
        all_goals
          casesm* _ ∧ _
          subst_vars
          simp
      · rcases p with _ | ⟨x1, _ | ⟨x2, _ | ⟨x3, _ | ⟨x4, p⟩⟩⟩⟩ <;>
          simp only [List.nil_append, List.cons_append, List.append_assoc, List.cons.injEq,
            List.nil_eq, List.append_eq_nil, and_false, reduceCtorEq] at h
        all_goals
          casesm* _ ∧ _
          subst_vars
          simp
  · simp at h

/-- In a run of `checkOlderBlocks`, the count query and the upsert follow
every balance fetch, the upsert follows every transaction count query and the
update of the mined count follows every mined count query; each carries the
value fetched, and 0 in the place of a value whose fetch failed. -/
theorem checkOlderBlocks_uses_answer_or_zero (w : World) (fuel : Nat) (tr p : Trace)
    (e : Event) (rest : List Event) (h : (checkOlderBlocks w fuel tr).1 = p ++ e :: rest) :
    (∀ a, e = Event.rpcGetBalance a →
        ∃ x y rest', rest = Event.dbGetTxCnt w.shardNumber x
          :: Event.dbUpdateAccount y ((w.rpcGetBalance (tr ++ p) a).getD 0)
              ((w.dbGetTxCnt (tr ++ p ++ [Event.rpcGetBalance a]) w.shardNumber x).getD 0)
          :: rest')
      ∧ (∀ s x, e = Event.dbGetTxCnt s x →
        ∃ y b rest', rest
          = Event.dbUpdateAccount y b ((w.dbGetTxCnt (tr ++ p) s x).getD 0) :: rest')
      ∧ (∀ s a, e = Event.dbGetMinedBlocksCnt s a →
        ∃ rest', rest = Event.dbUpdateAccountMinedBlock a
          ((w.dbGetMinedBlocksCnt (tr ++ p) s a).getD 0) :: rest') := by
  have hmono : ∀ (hist : Trace) (e : Event) (rest more : List Event),
      ((∀ a, e = Event.rpcGetBalance a →
          ∃ x y rest', rest = Event.dbGetTxCnt w.shardNumber x
            :: Event.dbUpdateAccount y ((w.rpcGetBalance hist a).getD 0)
                ((w.dbGetTxCnt (hist ++ [Event.rpcGetBalance a]) w.shardNumber x).getD 0)
            :: rest')
        ∧ (∀ s x, e = Event.dbGetTxCnt s x →
          ∃ y b rest', rest
            = Event.dbUpdateAccount y b ((w.dbGetTxCnt hist s x).getD 0) :: rest')
        ∧ (∀ s a, e = Event.dbGetMinedBlocksCnt s a →
          ∃ rest', rest = Event.dbUpdateAccountMinedBlock a
            ((w.dbGetMinedBlocksCnt hist s a).getD 0) :: rest')) →
      ((∀ a, e = Event.rpcGetBalance a →
          ∃ x y rest', rest ++ more = Event.dbGetTxCnt w.shardNumber x
            :: Event.dbUpdateAccount y ((w.rpcGetBalance hist a).getD 0)
                ((w.dbGetTxCnt (hist ++ [Event.rpcGetBalance a]) w.shardNumber x).getD 0)
            :: rest')
        ∧ (∀ s x, e = Event.dbGetTxCnt s x →
          ∃ y b rest', rest ++ more
            = Event.dbUpdateAccount y b ((w.dbGetTxCnt hist s x).getD 0) :: rest')
        ∧ (∀ s a, e = Event.dbGetMinedBlocksCnt s a →
          ∃ rest', rest ++ more = Event.dbUpdateAccountMinedBlock a
            ((w.dbGetMinedBlocksCnt hist s a).getD 0) :: rest')) := by
    rintro hist e rest more ⟨g1, g2, g3⟩
    refine ⟨fun a ha => ?_, fun s x hx => ?_, fun s a ha => ?_⟩
    · obtain ⟨x, y, rest', hr⟩ := g1 a ha
      exact ⟨x, y, rest' ++ more, by rw [hr]; rfl⟩
    · obtain ⟨y, b, rest', hr⟩ := g2 s x hx
      exact ⟨y, b, rest' ++ more, by rw [hr]; rfl⟩
    · obtain ⟨rest', hr⟩ := g3 s a ha
      exact ⟨rest' ++ more, by rw [hr]; rfl⟩
  have htriv : ∀ (hist : Trace) (e : Event) (rest : List Event), isAccountCall e = false →
      ((∀ a, e = Event.rpcGetBalance a →
          ∃ x y rest', rest = Event.dbGetTxCnt w.shardNumber x
            :: Event.dbUpdateAccount y ((w.rpcGetBalance hist a).getD 0)
                ((w.dbGetTxCnt (hist ++ [Event.rpcGetBalance a]) w.shardNumber x).getD 0)
            :: rest')
        ∧ (∀ s x, e = Event.dbGetTxCnt s x →
          ∃ y b rest', rest
            = Event.dbUpdateAccount y b ((w.dbGetTxCnt hist s x).getD 0) :: rest')
        ∧ (∀ s a, e = Event.dbGetMinedBlocksCnt s a →
          ∃ rest', rest = Event.dbUpdateAccountMinedBlock a
            ((w.dbGetMinedBlocksCnt hist s a).getD 0) :: rest')) := by
    intro hist e rest he
    refine ⟨fun a ha => ?_, fun s x hx => ?_, fun s a ha => ?_⟩ <;>
      (subst_vars; simp [isAccountCall] at he)
  exact follows_checkOlderBlocks w hmono (fun hist s rest => htriv hist _ rest rfl)
    (follows_pass w hmono htriv
      (fun tx tr p e rest h => txStep_uses_answer_or_zero w tx tr p e rest h)
      (fun b tr p e rest h => minerUpdate_uses_answer_or_zero w b tr p e rest h))
    fuel tr p e rest h

/-- The calls of the deletion of a stale block start with `RemoveBlock` and
`RemoveTxs` for its height. -/
theorem rollbackBlock_starts_with_removals (w : World) (b : DBBlock) (i : Nat) (tr : Trace) :
    ∃ rest, (rollbackBlock w b i tr).1
      = Event.dbRemoveBlock i :: Event.dbRemoveTxs i :: rest := by
  unfold rollbackBlock
  dsimp only
  split_ifs
  · exact ⟨_, rfl⟩
  · exact ⟨_, rfl⟩

/-- In a run of `checkOlderBlocks`, when the remote block of height 0 is
fetched, the stored block of height 0 is found and the two hashes differ, the
calls that follow the remote fetch are the fetch from the store,
`RemoveBlock(0)` and `RemoveTxs(0)`. -/
theorem checkOlderBlocks_deletes_mismatching_height_zero (w : World) (fuel : Nat)
    (tr p : Trace) (e : Event) (rest : List Event)
    (h : (checkOlderBlocks w fuel tr).1 = p ++ e :: rest) :
    ∀ (rpcBlock : RpcBlock) (dbBlock : DBBlock), e = Event.rpcGetBlockByHeight 0 true →
      w.rpcGetBlockByHeight (tr ++ p) 0 true = some rpcBlock →
      w.dbGetBlockByHeight (tr ++ p ++ [Event.rpcGetBlockByHeight 0 true]) w.shardNumber 0
        = some dbBlock →
      dbBlock.HeadHash ≠ rpcBlock.Hash →
      ∃ rest', rest = Event.dbGetBlockByHeight w.shardNumber 0 :: Event.dbRemoveBlock 0
        :: Event.dbRemoveTxs 0 :: rest' := by
  have hmono : ∀ (hist : Trace) (e : Event) (rest more : List Event),
      (∀ (rpcBlock : RpcBlock) (dbBlock : DBBlock), e = Event.rpcGetBlockByHeight 0 true →
        w.rpcGetBlockByHeight hist 0 true = some rpcBlock →
        w.dbGetBlockByHeight (hist ++ [Event.rpcGetBlockByHeight 0 true]) w.shardNumber 0
          = some dbBlock →
        dbBlock.HeadHash ≠ rpcBlock.Hash →
        ∃ rest', rest = Event.dbGetBlockByHeight w.shardNumber 0 :: Event.dbRemoveBlock 0
          :: Event.dbRemoveTxs 0 :: rest') →
      (∀ (rpcBlock : RpcBlock) (dbBlock : DBBlock), e = Event.rpcGetBlockByHeight 0 true →
        w.rpcGetBlockByHeight hist 0 true = some rpcBlock →
        w.dbGetBlockByHeight (hist ++ [Event.rpcGetBlockByHeight 0 true]) w.shardNumber 0
          = some dbBlock →
        dbBlock.HeadHash ≠ rpcBlock.Hash →
        ∃ rest', rest ++ more = Event.dbGetBlockByHeight w.shardNumber 0
          :: Event.dbRemoveBlock 0 :: Event.dbRemoveTxs 0 :: rest') := by
    intro hist e rest more g r d he h1 h2 h3
    obtain ⟨rest', hr⟩ := g r d he h1 h2 h3
    exact ⟨rest' ++ more, by rw [hr]; rfl⟩
  have hpass : ∀ (i : Nat) (fb : Bool) (tr p : Trace) (e : Event) (rest : List Event),
      (checkLoop w 1 i fb tr).1 = p ++ e :: rest →
      ∀ (rpcBlock : RpcBlock) (dbBlock : DBBlock), e = Event.rpcGetBlockByHeight 0 true →
        w.rpcGetBlockByHeight (tr ++ p) 0 true = some rpcBlock →
        w.dbGetBlockByHeight (tr ++ p ++ [Event.rpcGetBlockByHeight 0 true]) w.shardNumber 0
          = some dbBlock →
        dbBlock.HeadHash ≠ rpcBlock.Hash →
        ∃ rest', rest = Event.dbGetBlockByHeight w.shardNumber 0 :: Event.dbRemoveBlock 0
          :: Event.dbRemoveTxs 0 :: rest' := by
    intro i fb tr p e rest h r d he hr hd hne
    subst he
    -- the remote fetch is the first call of the pass
    have hfirst : ∀ (l : List Event),
        (∀ e ∈ l, isScanQuery e = false ∨ e = Event.dbGetBlockByHeight w.shardNumber i) →
        Event.rpcGetBlockByHeight i true :: l = p ++ Event.rpcGetBlockByHeight 0 true :: rest →
        p = [] ∧ i = 0 ∧ l = rest := by
      intro l hl hsplit
      rcases p with _ | ⟨x, p⟩
      · simp only [List.nil_append, List.cons.injEq, Event.rpcGetBlockByHeight.injEq,
          and_true] at hsplit
        exact ⟨rfl, hsplit.1, hsplit.2⟩
      · exfalso
        simp only [List.cons_append, List.cons.injEq] at hsplit
        have hm : Event.rpcGetBlockByHeight 0 true ∈ l := by rw [hsplit.2]; simp
        rcases hl _ hm with hq | hq
        · simp [isScanQuery] at hq
        · exact Event.noConfusion hq
    simp only [checkLoop, Nat.zero_le, if_true] at h
    cases h1 : w.rpcGetBlockByHeight tr i true with
    | none =>
      simp only [h1] at h
      obtain ⟨rfl, rfl, _⟩ := hfirst [] (by simp) h
      rw [List.append_nil, h1] at hr
      exact Option.noConfusion hr
    | some rpcBlock =>
      simp only [h1] at h
      cases h2 : w.dbGetBlockByHeight (tr ++ [Event.rpcGetBlockByHeight i true])
          w.shardNumber i with
      | none =>
        simp only [h2] at h
        obtain ⟨rfl, rfl, _⟩ := hfirst [Event.dbGetBlockByHeight w.shardNumber i]
          (by simp) h
        rw [List.append_nil, h2] at hd
        exact Option.noConfusion hd
      | some dbBlock =>
        simp only [h2] at h
        by_cases h3 : dbBlock.HeadHash = rpcBlock.Hash
        · simp only [h3, if_true] at h
          obtain ⟨rfl, rfl, _⟩ := hfirst [Event.dbGetBlockByHeight w.shardNumber i]
            (by simp) h
          rw [List.append_nil, h1] at hr
          rw [List.append_nil, h2] at hd
          obtain rfl := Option.some.inj hr
          obtain rfl := Option.some.inj hd
          exact absurd h3 hne
        · simp only [h3, if_false] at h
          have hD := not_isScanQuery_rollbackBlock w dbBlock i
            (tr ++ ([Event.rpcGetBlockByHeight i true]
              ++ [Event.dbGetBlockByHeight w.shardNumber i]))
          obtain ⟨tail, htail⟩ := rollbackBlock_starts_with_removals w dbBlock i
            (tr ++ ([Event.rpcGetBlockByHeight i true]
              ++ [Event.dbGetBlockByHeight w.shardNumber i]))
          generalize rollbackBlock w dbBlock i
            (tr ++ ([Event.rpcGetBlockByHeight i true]
              ++ [Event.dbGetBlockByHeight w.shardNumber i])) = d at h hD htail
          have hsplit : Event.rpcGetBlockByHeight i true
              :: Event.dbGetBlockByHeight w.shardNumber i :: d.1
              = p ++ Event.rpcGetBlockByHeight 0 true :: rest := by
            split_ifs at h
            · simpa [checkLoop] using h
            · simpa using h
          obtain ⟨rfl, rfl, hrest⟩ := hfirst
            (Event.dbGetBlockByHeight w.shardNumber i :: d.1)
            (fun e he => by
              rcases List.mem_cons.1 he with rfl | he
              · exact Or.inr rfl
              · exact Or.inl (hD e he))
            hsplit
          rw [← hrest, htail]
          exact ⟨tail, rfl⟩
  exact follows_checkOlderBlocks w hmono
    (fun hist s rest r d he => Event.noConfusion he) hpass fuel tr p e rest h

/-! ## The rollback scan -/

/-- C1: with `n >= 1` stored blocks, every fetch and store call succeeding and
`k` the greatest height below `n` whose stored head hash equals the remote
hash, `checkOlderBlocks` issues `RemoveBlock` and `RemoveTxs` for exactly the
heights `n - 1, n - 2, ..., k + 1`, in that order, and returns `true`
exactly when `k < n - 1`. -/
theorem checkOlderBlocks_deletes_diverged_suffix (w : World) (fuel : Nat) (tr : Trace)
    (n k : Nat) (remote : Nat → RpcBlock) (loc : Nat → DBBlock)
    (hheight : w.dbGetBlockHeight tr w.shardNumber = some n)
    (hn1 : 1 ≤ n) (hn : n < u64)
    (hrpc : ∀ ev h, h < n → w.rpcGetBlockByHeight (tr ++ ev) h true = some (remote h))
    (hdb : ∀ ev h, h < n → Event.dbRemoveBlock h ∉ ev →
      w.dbGetBlockByHeight (tr ++ ev) w.shardNumber h = some (loc h))
    (hacc : ∀ ev a, w.dbGetAccountByAddress (tr ++ ev) a ≠ none)
    (hk : k < n) (hmatch : (loc k).HeadHash = (remote k).Hash)
    (hgreatest : ∀ j, k < j → j < n → (loc j).HeadHash ≠ (remote j).Hash)
    (hfuel : n - k ≤ fuel) :
    removals (checkOlderBlocks w fuel tr).1
        = (heightsDown n (k + 1)).flatMap
            (fun h => [Event.dbRemoveBlock h, Event.dbRemoveTxs h])
      ∧ (checkOlderBlocks w fuel tr).2 = .returned (decide (k < n - 1)) := by
  obtain ⟨m, rfl⟩ : ∃ m, n = m + 1 := ⟨n - 1, by omega⟩
  have hmod : (m + 1) % u64 = m + 1 := Nat.mod_eq_of_lt hn
  have key := checkLoop_rollback w remote loc k hmatch (m - k) fuel m false
    (tr ++ [Event.dbGetBlockHeight w.shardNumber]) (by omega) (by omega) (by omega)
    (fun ev h hh => by rw [List.append_assoc]; exact hrpc _ h (by omega))
    (fun ev h hh hne => by
      rw [List.append_assoc]
      apply hdb _ h (by omega)
      simpa using hne)
    (fun ev a => by rw [List.append_assoc]; exact hacc _ a)
    (fun j hj1 hj2 => hgreatest j hj1 (by omega))
  simp only [checkOlderBlocks, hheight, hmod, Nat.succ_ne_zero, if_false, decU64_succ hn,
    removals_append, key.1, key.2]
  simp [removals, isRemoval]

/-- C1, on the example replica: local blocks 0-4 with heights 3 and 4
differing from the remote; heights 4 then 3 are deleted, height 2 is kept. -/
theorem checkOlderBlocks_deletes_diverged_suffix_witness :
    reorgWorld.dbGetBlockHeight [] reorgWorld.shardNumber = some 5
      ∧ (reorgLocal 2).HeadHash = (reorgRemote 2).Hash
      ∧ removals (checkOlderBlocks reorgWorld 3 []).1
          = [Event.dbRemoveBlock 4, Event.dbRemoveTxs 4,
             Event.dbRemoveBlock 3, Event.dbRemoveTxs 3]
      ∧ (checkOlderBlocks reorgWorld 3 []).2 = .returned true := by
  have h := checkOlderBlocks_deletes_diverged_suffix reorgWorld 3 [] 5 2 reorgRemote reorgLocal
    (by decide) (by decide) (by decide)
    (fun ev h hh => by
      simp only [reorgWorld, reorgRemote]
      split_ifs <;> rfl)
    (fun ev h hh hne => by
      have hne2 : Event.dbRemoveBlock h ∉ [] ++ ev := by simpa using hne
      simp only [reorgWorld, reorgLocal, hne2, if_false]
      split_ifs <;> first | rfl | omega)
    (fun ev a => by simp [reorgWorld])
    (by decide) (by decide)
    (fun j hj1 hj2 => by
      have : j = 3 ∨ j = 4 := by omega
      rcases this with rfl | rfl <;> decide)
    (by decide)
  exact ⟨by decide, by decide, h.1, h.2⟩

/-- C2: on the replica of `transferWorld` the rollback of block 1 never
upserts the sender `alice`; the upsert built from her balance 70 and her
transaction count 5 is keyed by the recipient `bob`. -/
theorem checkOlderBlocks_sender_upsert_keyed_by_recipient :
    transferWorld.rpcGetBalance [] "alice" = some 70
      ∧ transferWorld.dbGetTxCnt [] 1 "alice" = some 5
      ∧ (checkOlderBlocks transferWorld 2 []).1
          = [Event.dbGetBlockHeight 1,
             Event.rpcGetBlockByHeight 1 true, Event.dbGetBlockByHeight 1 1,
             Event.dbRemoveBlock 1, Event.dbRemoveTxs 1,
             Event.dbGetAccountByAddress "bob", Event.rpcGetBalance "bob",
             Event.dbGetTxCnt 1 "alice", Event.dbUpdateAccount "bob" 30 5,
             Event.dbGetAccountByAddress "alice", Event.rpcGetBalance "alice",
             Event.dbGetTxCnt 1 "alice", Event.dbUpdateAccount "bob" 70 5,
             Event.rpcGetBlockByHeight 0 true, Event.dbGetBlockByHeight 1 0]
      ∧ ∀ balance txCnt,
          Event.dbUpdateAccount "alice" balance txCnt ∉ (checkOlderBlocks transferWorld 2 []).1 := by
  have h : (checkOlderBlocks transferWorld 2 []).1
          = [Event.dbGetBlockHeight 1,
             Event.rpcGetBlockByHeight 1 true, Event.dbGetBlockByHeight 1 1,
             Event.dbRemoveBlock 1, Event.dbRemoveTxs 1,
             Event.dbGetAccountByAddress "bob", Event.rpcGetBalance "bob",
             Event.dbGetTxCnt 1 "alice", Event.dbUpdateAccount "bob" 30 5,
             Event.dbGetAccountByAddress "alice", Event.rpcGetBalance "alice",
             Event.dbGetTxCnt 1 "alice", Event.dbUpdateAccount "bob" 70 5,
             Event.rpcGetBlockByHeight 0 true, Event.dbGetBlockByHeight 1 0] := by decide
  refine ⟨by decide, by decide, h, ?_⟩
  intro balance txCnt
  rw [h]
  simp

/-- C3: on the replica of `transferWorld` the store counts 2 transactions for
the recipient `bob`, yet the recipient upsert of the rollback carries 5, the
count of the sender `alice`. -/
theorem checkOlderBlocks_recipient_upsert_carries_sender_count :
    transferWorld.rpcGetBalance [] "bob" = some 30
      ∧ transferWorld.dbGetTxCnt [] 1 "bob" = some 2
      ∧ transferWorld.dbGetTxCnt [] 1 "alice" = some 5
      ∧ Event.dbUpdateAccount "bob" 30 5 ∈ (checkOlderBlocks transferWorld 2 []).1
      ∧ Event.dbUpdateAccount "bob" 30 2 ∉ (checkOlderBlocks transferWorld 2 []).1
      ∧ Event.dbGetTxCnt 1 "bob" ∉ (checkOlderBlocks transferWorld 2 []).1 := by
  decide

/-- C4, as stated, fails: on the replica of `genesisForkWorld`, whose only
block differs from the remote block at height 0, `checkOlderBlocks` calls
`RemoveBlock(0)` and `RemoveTxs(0)`. -/
theorem checkOlderBlocks_deletes_height_zero :
    Event.dbRemoveBlock 0 ∈ (checkOlderBlocks genesisForkWorld 2 []).1
      ∧ Event.dbRemoveTxs 0 ∈ (checkOlderBlocks genesisForkWorld 2 []).1 := by
  decide

/-- C4, amended: when the stored block at height 0 carries the remote hash of
height 0 whenever the two are fetched, `checkOlderBlocks` never calls
`RemoveBlock(0)` or `RemoveTxs(0)`, however long the scan runs; and whenever
the scan reaches height 0, that is fetches the remote block of height 0, finds
the stored block of height 0 and the two hashes differ, the calls that follow
the remote fetch are the fetch from the store, `RemoveBlock(0)` and
`RemoveTxs(0)`. -/
theorem checkOlderBlocks_height_zero_by_hashes (w : World) (fuel : Nat) (tr : Trace) :
    ((∀ hist rpcBlock dbBlock, w.rpcGetBlockByHeight hist 0 true = some rpcBlock →
        w.dbGetBlockByHeight (hist ++ [Event.rpcGetBlockByHeight 0 true]) w.shardNumber 0
          = some dbBlock →
        dbBlock.HeadHash = rpcBlock.Hash) →
      Event.dbRemoveBlock 0 ∉ (checkOlderBlocks w fuel tr).1
        ∧ Event.dbRemoveTxs 0 ∉ (checkOlderBlocks w fuel tr).1)
    ∧ (∀ (p rest : List Event) (rpcBlock : RpcBlock) (dbBlock : DBBlock),
        (checkOlderBlocks w fuel tr).1 = p ++ Event.rpcGetBlockByHeight 0 true :: rest →
        w.rpcGetBlockByHeight (tr ++ p) 0 true = some rpcBlock →
        w.dbGetBlockByHeight (tr ++ p ++ [Event.rpcGetBlockByHeight 0 true]) w.shardNumber 0
          = some dbBlock →
        dbBlock.HeadHash ≠ rpcBlock.Hash →
        ∃ rest', rest = Event.dbGetBlockByHeight w.shardNumber 0 :: Event.dbRemoveBlock 0
          :: Event.dbRemoveTxs 0 :: rest') := by
  refine ⟨fun hsame => ?_, fun p rest rpcBlock dbBlock h h1 h2 h3 =>
    checkOlderBlocks_deletes_mismatching_height_zero w fuel tr p _ rest h rpcBlock dbBlock rfl
      h1 h2 h3⟩
  have key := checkLoop_keeps_matching_height w 0 hsame
  unfold checkOlderBlocks
  cases w.dbGetBlockHeight tr w.shardNumber with
  | none => simp
  | some n =>
    dsimp only
    split_ifs
    · simp
    · simp only [List.mem_append, not_or]
      exact ⟨⟨by simp, (key _ _ _ _).1⟩, ⟨by simp, (key _ _ _ _).2⟩⟩

/-- C4, amended, on two replicas: on `transferWorld`, whose block at height 0
matches the remote chain, height 0 is not deleted; on `reorgFromGenesisWorld`,
whose two blocks both differ from the remote chain, the scan deletes height 1,
reaches height 0 and deletes it. -/
theorem checkOlderBlocks_height_zero_by_hashes_witness :
    (Event.dbRemoveBlock 0 ∉ (checkOlderBlocks transferWorld 2 []).1
        ∧ Event.dbRemoveTxs 0 ∉ (checkOlderBlocks transferWorld 2 []).1)
      ∧ ∃ rest', (checkOlderBlocks reorgFromGenesisWorld 2 []).1
          = [Event.dbGetBlockHeight 1,
              Event.rpcGetBlockByHeight 1 true, Event.dbGetBlockByHeight 1 1,
              Event.dbRemoveBlock 1, Event.dbRemoveTxs 1,
              Event.dbGetAccountByAddress "bob", Event.rpcGetBalance "bob",
              Event.dbGetTxCnt 1 "alice", Event.dbUpdateAccount "bob" 30 5,
              Event.dbGetAccountByAddress "alice", Event.rpcGetBalance "alice",
              Event.dbGetTxCnt 1 "alice", Event.dbUpdateAccount "bob" 70 5,
              Event.rpcGetBlockByHeight 0 true, Event.dbGetBlockByHeight 1 0,
              Event.dbRemoveBlock 0, Event.dbRemoveTxs 0] ++ rest' := by
  refine ⟨(checkOlderBlocks_height_zero_by_hashes transferWorld 2 []).1
    (fun hist rpcBlock dbBlock h1 h2 => by
      simp only [transferWorld, if_true, Option.some.injEq] at h1 h2
      subst h1 h2
      rfl), ?_⟩
  have hsplit : (checkOlderBlocks reorgFromGenesisWorld 2 []).1
      = [Event.dbGetBlockHeight 1,
          Event.rpcGetBlockByHeight 1 true, Event.dbGetBlockByHeight 1 1,
          Event.dbRemoveBlock 1, Event.dbRemoveTxs 1,
          Event.dbGetAccountByAddress "bob", Event.rpcGetBalance "bob",
          Event.dbGetTxCnt 1 "alice", Event.dbUpdateAccount "bob" 30 5,
          Event.dbGetAccountByAddress "alice", Event.rpcGetBalance "alice",
          Event.dbGetTxCnt 1 "alice", Event.dbUpdateAccount "bob" 70 5]
        ++ Event.rpcGetBlockByHeight 0 true
          :: (checkOlderBlocks reorgFromGenesisWorld 2 []).1.drop 14 := by
    decide
  obtain ⟨rest', hrest⟩ := (checkOlderBlocks_height_zero_by_hashes reorgFromGenesisWorld 2 []).2
    _ _ ⟨"new", 0⟩ ⟨"old", "0x0", []⟩ hsplit (by decide) (by decide) (by decide)
  refine ⟨rest', ?_⟩
  rw [hsplit, hrest]
  rfl

/-- C5: on the replica of `genesisForkWorld`, which holds one block, the scan
does not end at height 0: the counter wraps and the next block requested from
the node is at height `2 ^ 64 - 1`. -/
theorem checkOlderBlocks_counter_wraps_below_zero :
    genesisForkWorld.dbGetBlockHeight [] 1 = some 1
      ∧ (checkOlderBlocks genesisForkWorld 2 []).1
          = [Event.dbGetBlockHeight 1,
             Event.rpcGetBlockByHeight 0 true, Event.dbGetBlockByHeight 1 0,
             Event.dbRemoveBlock 0, Event.dbRemoveTxs 0,
             Event.rpcGetBlockByHeight 18446744073709551615 true] := by
  decide

/-- C6, as stated, fails: on the replica of `balanceDownWorld` both balance
fetches fail, and `checkOlderBlocks` goes on to upsert the account with
balance 0 and to scan the next height. -/
theorem checkOlderBlocks_continues_after_failed_balance_fetch :
    balanceDownWorld.rpcGetBalance
        [Event.dbGetBlockHeight 1,
         Event.rpcGetBlockByHeight 1 true, Event.dbGetBlockByHeight 1 1,
         Event.dbRemoveBlock 1, Event.dbRemoveTxs 1,
         Event.dbGetAccountByAddress "bob"] "bob" = none
      ∧ (checkOlderBlocks balanceDownWorld 2 []).1
          = [Event.dbGetBlockHeight 1,
             Event.rpcGetBlockByHeight 1 true, Event.dbGetBlockByHeight 1 1,
             Event.dbRemoveBlock 1, Event.dbRemoveTxs 1,
             Event.dbGetAccountByAddress "bob", Event.rpcGetBalance "bob",
             Event.dbGetTxCnt 1 "alice", Event.dbUpdateAccount "bob" 0 5,
             Event.dbGetAccountByAddress "alice", Event.rpcGetBalance "alice",
             Event.dbGetTxCnt 1 "alice", Event.dbUpdateAccount "bob" 0 5,
             Event.rpcGetBlockByHeight 0 true, Event.dbGetBlockByHeight 1 0] := by
  decide

/-- C6, amended: a failed query of the scan (the block count, or a block
fetch from the node or from the store) is the last call `checkOlderBlocks`
makes, and it returns; when the account lookup for the recipient of a
transaction of a stale block fails, the loop returns `fallBack` at once, right
after that lookup (`pre` are the transactions of the block processed before
`tx`).  A failed balance fetch, transaction count query or mined count query
does not end the scan: the count query and the upsert follow every balance
fetch, the upsert follows every transaction count query and the update of the
mined count follows every mined count query, and each carries the value
fetched, or 0 in the place of a value whose fetch failed. -/
theorem checkOlderBlocks_failure_handling (w : World) :
    (∀ (fuel : Nat) (tr p : Trace) (e : Event) (rest : List Event),
      (checkOlderBlocks w fuel tr).1 = p ++ e :: rest →
      scanQueryFails w (tr ++ p) e = true →
      rest = [] ∧ ∃ b, (checkOlderBlocks w fuel tr).2 = .returned b)
    ∧ (∀ (fuel i : Nat) (fallBack : Bool) (tr : Trace) (rpcBlock : RpcBlock)
        (dbBlock : DBBlock) (pre post : List DBBlockTx) (tx : DBBlockTx),
      w.rpcGetBlockByHeight tr i true = some rpcBlock →
      w.dbGetBlockByHeight (tr ++ [Event.rpcGetBlockByHeight i true]) w.shardNumber i
        = some dbBlock →
      dbBlock.HeadHash ≠ rpcBlock.Hash →
      dbBlock.Txs = pre ++ tx :: post →
      (txLoop w pre (tr ++ [Event.rpcGetBlockByHeight i true,
        Event.dbGetBlockByHeight w.shardNumber i, Event.dbRemoveBlock i,
        Event.dbRemoveTxs i])).2 = true →
      w.dbGetAccountByAddress
        (tr ++ [Event.rpcGetBlockByHeight i true, Event.dbGetBlockByHeight w.shardNumber i,
            Event.dbRemoveBlock i, Event.dbRemoveTxs i]
          ++ (txLoop w pre (tr ++ [Event.rpcGetBlockByHeight i true,
            Event.dbGetBlockByHeight w.shardNumber i, Event.dbRemoveBlock i,
            Event.dbRemoveTxs i])).1) tx.To = none →
      checkLoop w (fuel + 1) i fallBack tr
        = ([Event.rpcGetBlockByHeight i true, Event.dbGetBlockByHeight w.shardNumber i,
              Event.dbRemoveBlock i, Event.dbRemoveTxs i]
            ++ (txLoop w pre (tr ++ [Event.rpcGetBlockByHeight i true,
              Event.dbGetBlockByHeight w.shardNumber i, Event.dbRemoveBlock i,
              Event.dbRemoveTxs i])).1
            ++ [Event.dbGetAccountByAddress tx.To], .returned fallBack))
    ∧ (∀ (fuel : Nat) (tr p : Trace) (a : String) (rest : List Event),
      (checkOlderBlocks w fuel tr).1 = p ++ Event.rpcGetBalance a :: rest →
      ∃ x y rest', rest = Event.dbGetTxCnt w.shardNumber x
        :: Event.dbUpdateAccount y ((w.rpcGetBalance (tr ++ p) a).getD 0)
            ((w.dbGetTxCnt (tr ++ p ++ [Event.rpcGetBalance a]) w.shardNumber x).getD 0)
        :: rest')
    ∧ (∀ (fuel : Nat) (tr p : Trace) (s : Int) (x : String) (rest : List Event),
      (checkOlderBlocks w fuel tr).1 = p ++ Event.dbGetTxCnt s x :: rest →
      ∃ y b rest', rest
        = Event.dbUpdateAccount y b ((w.dbGetTxCnt (tr ++ p) s x).getD 0) :: rest')
    ∧ (∀ (fuel : Nat) (tr p : Trace) (s : Int) (a : String) (rest : List Event),
      (checkOlderBlocks w fuel tr).1 = p ++ Event.dbGetMinedBlocksCnt s a :: rest →
      ∃ rest', rest = Event.dbUpdateAccountMinedBlock a
        ((w.dbGetMinedBlocksCnt (tr ++ p) s a).getD 0) :: rest') :=
  ⟨fun fuel tr p e rest h hf => checkOlderBlocks_stops_at_failed_query w fuel tr p e rest h hf,
   fun fuel i fb tr rpcBlock dbBlock pre post tx h1 h2 h3 h4 h5 h6 =>
    checkLoop_stops_at_failed_recipient_lookup w fuel i fb tr rpcBlock dbBlock pre post tx
      h1 h2 h3 h4 h5 h6,
   fun fuel tr p a rest h =>
    (checkOlderBlocks_uses_answer_or_zero w fuel tr p _ rest h).1 a rfl,
   fun fuel tr p s x rest h =>
    (checkOlderBlocks_uses_answer_or_zero w fuel tr p _ rest h).2.1 s x rfl,
   fun fuel tr p s a rest h =>
    (checkOlderBlocks_uses_answer_or_zero w fuel tr p _ rest h).2.2 s a rfl⟩

/-- C6, amended, on three replicas: on `genesisForkWorld` the remote fetch at
height `2 ^ 64 - 1` fails and is the last call; on `accountsDownWorld` the
lookup of the recipient `bob` fails and the loop returns right after it; on
`countsDownWorld`, where the balance fetches and both count queries fail, the
upserts carry balance 0 and count 0, the update of the mined count carries 0,
and the scan goes on to height 0. -/
theorem checkOlderBlocks_failure_handling_witness :
    (([] : List Event) = [] ∧ ∃ b, (checkOlderBlocks genesisForkWorld 2 []).2 = .returned b)
      ∧ checkLoop accountsDownWorld 1 1 false [Event.dbGetBlockHeight 1]
          = ([Event.rpcGetBlockByHeight 1 true, Event.dbGetBlockByHeight 1 1,
              Event.dbRemoveBlock 1, Event.dbRemoveTxs 1,
              Event.dbGetAccountByAddress "bob"], .returned false)
      ∧ (checkOlderBlocks countsDownWorld 2 []).1
          = [Event.dbGetBlockHeight 1,
             Event.rpcGetBlockByHeight 1 true, Event.dbGetBlockByHeight 1 1,
             Event.dbRemoveBlock 1, Event.dbRemoveTxs 1,
             Event.dbGetAccountByAddress "bob", Event.rpcGetBalance "bob",
             Event.dbGetTxCnt 1 "alice", Event.dbUpdateAccount "bob" 0 0,
             Event.dbGetAccountByAddress "alice", Event.rpcGetBalance "alice",
             Event.dbGetTxCnt 1 "alice", Event.dbUpdateAccount "bob" 0 0,
             Event.dbGetAccountByAddress "miner", Event.dbGetMinedBlocksCnt 1 "miner",
             Event.dbUpdateAccountMinedBlock "miner" 0,
             Event.rpcGetBlockByHeight 0 true, Event.dbGetBlockByHeight 1 0]
      ∧ (∃ x y rest', [Event.dbGetTxCnt 1 "alice", Event.dbUpdateAccount "bob" 0 0,
             Event.dbGetAccountByAddress "alice", Event.rpcGetBalance "alice",
             Event.dbGetTxCnt 1 "alice", Event.dbUpdateAccount "bob" 0 0,
             Event.dbGetAccountByAddress "miner", Event.dbGetMinedBlocksCnt 1 "miner",
             Event.dbUpdateAccountMinedBlock "miner" 0,
             Event.rpcGetBlockByHeight 0 true, Event.dbGetBlockByHeight 1 0]
          = Event.dbGetTxCnt 1 x :: Event.dbUpdateAccount y 0 0 :: rest')
      ∧ (∃ rest', [Event.dbUpdateAccountMinedBlock "miner" 0,
             Event.rpcGetBlockByHeight 0 true, Event.dbGetBlockByHeight 1 0]
          = Event.dbUpdateAccountMinedBlock "miner" 0 :: rest') :=
  ⟨(checkOlderBlocks_failure_handling genesisForkWorld).1 2 []
      [Event.dbGetBlockHeight 1, Event.rpcGetBlockByHeight 0 true,
        Event.dbGetBlockByHeight 1 0, Event.dbRemoveBlock 0, Event.dbRemoveTxs 0]
      (Event.rpcGetBlockByHeight 18446744073709551615 true) [] (by decide) (by decide),
   (checkOlderBlocks_failure_handling accountsDownWorld).2.1 0 1 false
      [Event.dbGetBlockHeight 1] ⟨"new", 1⟩ ⟨"old", "0x0", [⟨"alice", "bob"⟩]⟩ [] []
      ⟨"alice", "bob"⟩ (by decide) (by decide) (by decide) (by decide) (by decide)
      (by decide),
   by decide,
   (checkOlderBlocks_failure_handling countsDownWorld).2.2.1 2 []
      [Event.dbGetBlockHeight 1,
        Event.rpcGetBlockByHeight 1 true, Event.dbGetBlockByHeight 1 1,
        Event.dbRemoveBlock 1, Event.dbRemoveTxs 1,
        Event.dbGetAccountByAddress "bob"] "bob" _ (by decide),
   (checkOlderBlocks_failure_handling countsDownWorld).2.2.2.2 2 []
      [Event.dbGetBlockHeight 1,
        Event.rpcGetBlockByHeight 1 true, Event.dbGetBlockByHeight 1 1,
        Event.dbRemoveBlock 1, Event.dbRemoveTxs 1,
        Event.dbGetAccountByAddress "bob", Event.rpcGetBalance "bob",
        Event.dbGetTxCnt 1 "alice", Event.dbUpdateAccount "bob" 0 0,
        Event.dbGetAccountByAddress "alice", Event.rpcGetBalance "alice",
        Event.dbGetTxCnt 1 "alice", Event.dbUpdateAccount "bob" 0 0,
        Event.dbGetAccountByAddress "miner"] 1 "miner" _ (by decide)⟩

/-! ## The forward replay and the pending refresh -/

/-- C7, as stated, fails at the end of the `uint64` range: with `n = t =
2 ^ 64 - 1` the counter wraps after the height `2 ^ 64 - 1` and `sync` goes on
to fetch and apply height 0. -/
theorem sync_replay_wraps_at_max_tip :
    (sync maxTipWorld 2 []).1
      = [Event.dbGetBlockHeight 1,
         Event.rpcGetBlockByHeight 18446744073709551614 true,
         Event.dbGetBlockByHeight 1 18446744073709551614,
         Event.rpcCurrentBlock, Event.dbGetBlockHeight 1,
         Event.rpcGetBlockByHeight 18446744073709551615 true,
         Event.blockSync ⟨"h", 18446744073709551615⟩,
         Event.txSync ⟨"h", 18446744073709551615⟩,
         Event.accountSync ⟨"h", 18446744073709551615⟩,
         Event.rpcGetBlockByHeight 0 true,
         Event.blockSync ⟨"h", 0⟩, Event.txSync ⟨"h", 0⟩, Event.accountSync ⟨"h", 0⟩] := by
  decide

/-- C7, amended: when the rollback phase has returned, `CurrentBlock` reports
a tip height `t < 2 ^ 64 - 1`, `GetBlockHeight` reports `n` and no call
fails, `sync` fetches the heights `n, n + 1, ..., t` (none when `n > t`), each
once and in increasing order, runs `blockSync`, `txSync`, `accountSync` on the
fetched block of each height, then refreshes the pending transactions. -/
theorem sync_replays_missing_heights (w : World) (fuel : Nat) (tr : Trace) (fb : Bool)
    (cur : CurrentBlock) (n : Nat) (remote : Nat → RpcBlock)
    (hroll : (checkOlderBlocks w fuel tr).2 = .returned fb)
    (hcur : w.rpcCurrentBlock (tr ++ (checkOlderBlocks w fuel tr).1) = some cur)
    (hheight : w.dbGetBlockHeight
      (tr ++ ((checkOlderBlocks w fuel tr).1 ++ [Event.rpcCurrentBlock])) w.shardNumber = some n)
    (hn : n < u64) (ht : cur.Height + 1 < u64)
    (hfetch : ∀ hist h, n ≤ h → h ≤ cur.Height →
      w.rpcGetBlockByHeight hist h true = some (remote h))
    (hblock : ∀ hist b, w.blockSync hist b = true)
    (htx : ∀ hist b, w.txSync hist b = true)
    (hacc : ∀ hist b, w.accountSync hist b = true)
    (hfuel : cur.Height + 1 - n < fuel) :
    sync w fuel tr
      = ((checkOlderBlocks w fuel tr).1
          ++ [Event.rpcCurrentBlock, Event.dbGetBlockHeight w.shardNumber]
          ++ replayOf remote n (cur.Height + 1 - n)
          ++ [Event.pendingTxsSync], .returned false) := by
  have h1 : cur.Height % u64 = cur.Height := Nat.mod_eq_of_lt (by omega)
  have h2 : n % u64 = n := Nat.mod_eq_of_lt hn
  rw [sync_of_forward w fuel tr fb cur n hroll hcur hheight, h1, h2,
    forwardLoop_replay w cur.Height n remote ht hfetch hblock htx hacc
      (cur.Height + 1 - n) fuel n _ (le_refl _) rfl hfuel]
  simp

/-- C7, amended, on the replica of `reorgWorld`: after the rollback of the
heights 4 and 3 the store counts 3 blocks, the tip is at height 4, and `sync`
replays the heights 3 and 4. -/
theorem sync_replays_missing_heights_witness :
    (checkOlderBlocks reorgWorld 3 []).2 = .returned true
      ∧ reorgWorld.dbGetBlockHeight
          ([] ++ ((checkOlderBlocks reorgWorld 3 []).1 ++ [Event.rpcCurrentBlock])) 1 = some 3
      ∧ sync reorgWorld 3 []
          = ((checkOlderBlocks reorgWorld 3 []).1
              ++ [Event.rpcCurrentBlock, Event.dbGetBlockHeight 1]
              ++ [Event.rpcGetBlockByHeight 3 true, Event.blockSync ⟨"new", 3⟩,
                  Event.txSync ⟨"new", 3⟩, Event.accountSync ⟨"new", 3⟩,
                  Event.rpcGetBlockByHeight 4 true, Event.blockSync ⟨"new", 4⟩,
                  Event.txSync ⟨"new", 4⟩, Event.accountSync ⟨"new", 4⟩]
              ++ [Event.pendingTxsSync], .returned false) :=
  ⟨by decide, by decide,
   sync_replays_missing_heights reorgWorld 3 [] true ⟨"new", 4⟩ 3 reorgRemote
    (by decide) (by decide) (by decide) (by decide) (by decide)
    (fun hist h h1 h2 => by
      simp only [reorgWorld, reorgRemote]
      have h3 : ¬ h < 3 := by omega
      have h4 : h < 5 := by simp only at h2; omega
      simp [h3, h4])
    (fun _ _ => rfl) (fun _ _ => rfl) (fun _ _ => rfl) (by decide)⟩

/-- C8: in every run of `sync`, (1) when a step of the forward replay (the
fetch of the remote block, `blockSync`, `txSync` or `accountSync`) fails, no
step of the replay follows it, for that height or any other, `sync` returns,
and the replay phase issues no `RemoveBlock` or `RemoveTxs`, so what was
applied before stays; (2) every `accountSync` comes right after the fetch of
its block and the successful `blockSync` and `txSync` of that same block. -/
theorem sync_replay_stops_at_first_failure (w : World) (fuel : Nat) (tr : Trace) :
    (∀ (p : Trace) (e : Event) (rest : List Event),
      (sync w fuel tr).1
          = (checkOlderBlocks w fuel tr).1
            ++ [Event.rpcCurrentBlock, Event.dbGetBlockHeight w.shardNumber]
            ++ p ++ e :: rest →
      replayStepFails w
          (tr ++ (checkOlderBlocks w fuel tr).1
            ++ [Event.rpcCurrentBlock, Event.dbGetBlockHeight w.shardNumber] ++ p) e = true →
      (∀ x ∈ rest, isReplayStep x = false)
        ∧ (∀ x ∈ p ++ e :: rest, isRemoval x = false)
        ∧ (sync w fuel tr).2 = .returned false)
    ∧ (∀ (q : Trace) (b : RpcBlock) (r : List Event),
      (sync w fuel tr).1 = q ++ Event.accountSync b :: r →
      ∃ q' h, q = q' ++ [Event.rpcGetBlockByHeight h true, Event.blockSync b, Event.txSync b]
        ∧ w.rpcGetBlockByHeight (tr ++ q') h true = some b
        ∧ w.blockSync (tr ++ q' ++ [Event.rpcGetBlockByHeight h true]) b = true
        ∧ w.txSync (tr ++ q' ++ [Event.rpcGetBlockByHeight h true, Event.blockSync b]) b
            = true) := by
  have hR := not_isSyncCall_checkOlderBlocks w fuel tr
  generalize hc : checkOlderBlocks w fuel tr = c at hR
  constructor
  · intro p e rest hsplit hfail
    have hlen := congrArg List.length hsplit
    simp only [sync, hc] at hsplit hlen ⊢
    cases h0 : c.2 with
    | outOfFuel =>
      simp only [h0, List.length_append, List.length_cons] at hlen
      omega
    | returned fb =>
      simp only [h0] at hsplit hlen ⊢
      cases h1 : w.rpcCurrentBlock (tr ++ c.1) with
      | none =>
        simp only [h1, List.length_append, List.length_cons, List.length_nil] at hlen
        omega
      | some cur =>
        simp only [h1] at hsplit hlen ⊢
        cases h2 : w.dbGetBlockHeight (tr ++ (c.1 ++ [Event.rpcCurrentBlock])) w.shardNumber with
        | none =>
          simp only [h2, List.length_append, List.length_cons, List.length_nil] at hlen
          omega
        | some n =>
          simp only [h2] at hsplit ⊢
          have hK := forwardLoop_kinds w (cur.Height % u64) fuel (n % u64)
            (tr ++ (c.1 ++ [Event.rpcCurrentBlock] ++ [Event.dbGetBlockHeight w.shardNumber]))
          have hF := forwardLoop_stops_at_failure w (cur.Height % u64) fuel (n % u64)
            (tr ++ (c.1 ++ [Event.rpcCurrentBlock] ++ [Event.dbGetBlockHeight w.shardNumber]))
          generalize forwardLoop w (cur.Height % u64) fuel (n % u64)
            (tr ++ (c.1 ++ [Event.rpcCurrentBlock] ++ [Event.dbGetBlockHeight w.shardNumber]))
            = f at hsplit hK hF ⊢
          have hfail' : replayStepFails w
              (tr ++ (c.1 ++ [Event.rpcCurrentBlock] ++ [Event.dbGetBlockHeight w.shardNumber])
                ++ p) e = true := by
            simpa [List.append_assoc] using hfail
          cases h3 : f.2 with
          | outOfFuel =>
            simp only [h3] at hsplit
            have hs : f.1 = p ++ e :: rest := by
              simpa [List.append_assoc] using hsplit
            have := (hF p e rest hs hfail').2
            rw [h3] at this
            exact Outcome.noConfusion this
          | returned u =>
            simp only [h3] at hsplit ⊢
            have hs : f.1 ++ [Event.pendingTxsSync] = p ++ e :: rest := by
              simpa [List.append_assoc] using hsplit
            rcases concat_split hs with ⟨_, he, _⟩ | ⟨rest', hr, hf1⟩
            · subst he
              simp [replayStepFails] at hfail
            · have hrest := (hF p e rest' hf1 hfail').1
              have hkind : ∀ x ∈ f.1 ++ [Event.pendingTxsSync], isRemoval x = false := by
                intro x hx
                rcases List.mem_append.1 hx with hx | hx
                · rcases hK x hx with hk | rfl
                  · cases x <;> simp_all [isReplayStep, isRemoval]
                  · rfl
                · simp only [List.mem_singleton] at hx
                  subst hx; rfl
              refine ⟨?_, ?_, trivial⟩
              · intro x hx
                rw [hr] at hx
                rcases hrest with h | h <;> rw [h] at hx <;> simp at hx
                · subst hx; rfl
                · rcases hx with rfl | rfl <;> rfl
              · rw [← hs]
                exact hkind
  · intro q b r hsplit
    have hnot : Event.accountSync b ∉ c.1 := fun hm => by
      have := hR _ hm
      simp [isSyncCall] at this
    simp only [sync, hc] at hsplit
    cases h0 : c.2 with
    | outOfFuel =>
      simp only [h0] at hsplit
      exact absurd (by rw [hsplit]; simp) hnot
    | returned fb =>
      simp only [h0] at hsplit
      cases h1 : w.rpcCurrentBlock (tr ++ c.1) with
      | none =>
        simp only [h1] at hsplit
        obtain ⟨p', _, hp⟩ := append_split_of_not_mem hsplit hnot
        rcases p' with _ | ⟨x, p'⟩ <;> simp at hp
      | some cur =>
        simp only [h1] at hsplit
        have hnot2 : Event.accountSync b ∉ c.1 ++ [Event.rpcCurrentBlock]
            ++ [Event.dbGetBlockHeight w.shardNumber] := by
          simpa using hnot
        cases h2 : w.dbGetBlockHeight (tr ++ (c.1 ++ [Event.rpcCurrentBlock])) w.shardNumber with
        | none =>
          simp only [h2] at hsplit
          exact absurd (by rw [hsplit]; simp) hnot2
        | some n =>
          simp only [h2] at hsplit
          have hA := forwardLoop_accountSync_after w (cur.Height % u64) fuel (n % u64)
            (tr ++ (c.1 ++ [Event.rpcCurrentBlock] ++ [Event.dbGetBlockHeight w.shardNumber]))
          generalize forwardLoop w (cur.Height % u64) fuel (n % u64)
            (tr ++ (c.1 ++ [Event.rpcCurrentBlock] ++ [Event.dbGetBlockHeight w.shardNumber]))
            = f at hsplit hA
          have hfin : ∀ q1 r1, f.1 = q1 ++ Event.accountSync b :: r1 →
              q = c.1 ++ [Event.rpcCurrentBlock] ++ [Event.dbGetBlockHeight w.shardNumber] ++ q1 →
              ∃ q' h, q = q' ++ [Event.rpcGetBlockByHeight h true, Event.blockSync b,
                  Event.txSync b]
                ∧ w.rpcGetBlockByHeight (tr ++ q') h true = some b
                ∧ w.blockSync (tr ++ q' ++ [Event.rpcGetBlockByHeight h true]) b = true
                ∧ w.txSync (tr ++ q' ++ [Event.rpcGetBlockByHeight h true, Event.blockSync b]) b
                    = true := by
            intro q1 r1 hf1 hq
            obtain ⟨q', h, hq', h4, h5, h6⟩ := hA q1 b r1 hf1
            refine ⟨c.1 ++ [Event.rpcCurrentBlock] ++ [Event.dbGetBlockHeight w.shardNumber]
              ++ q', h, ?_, ?_, ?_, ?_⟩
            · rw [hq, hq']; simp
            · simpa [List.append_assoc] using h4
            · simpa [List.append_assoc] using h5
            · simpa [List.append_assoc] using h6
          cases h3 : f.2 with
          | outOfFuel =>
            simp only [h3] at hsplit
            obtain ⟨p', hp, hr⟩ := append_split_of_not_mem hsplit hnot2
            exact hfin p' r hr hp
          | returned u =>
            simp only [h3] at hsplit
            have hs : (c.1 ++ [Event.rpcCurrentBlock] ++ [Event.dbGetBlockHeight w.shardNumber])
                ++ (f.1 ++ [Event.pendingTxsSync]) = q ++ Event.accountSync b :: r := by
              simpa [List.append_assoc] using hsplit
            obtain ⟨p', hp, hr⟩ := append_split_of_not_mem hs hnot2
            rcases concat_split hr with ⟨_, he, _⟩ | ⟨rest', _, hf1⟩
            · exact Event.noConfusion he
            · exact hfin p' rest' hf1 hp

/-- C8, on the replica of `txSyncDownWorld`: height 3 is applied in full, at
height 4 `txSync` fails, and only the pending refresh follows. -/
theorem sync_replay_stops_at_first_failure_witness :
    (sync txSyncDownWorld 3 []).1
        = (checkOlderBlocks txSyncDownWorld 3 []).1
          ++ [Event.rpcCurrentBlock, Event.dbGetBlockHeight 1]
          ++ [Event.rpcGetBlockByHeight 3 true, Event.blockSync ⟨"new", 3⟩,
              Event.txSync ⟨"new", 3⟩, Event.accountSync ⟨"new", 3⟩,
              Event.rpcGetBlockByHeight 4 true, Event.blockSync ⟨"new", 4⟩]
          ++ Event.txSync ⟨"new", 4⟩ :: [Event.pendingTxsSync]
      ∧ (∀ x ∈ [Event.pendingTxsSync], isReplayStep x = false)
      ∧ (sync txSyncDownWorld 3 []).2 = .returned false :=
  have h := (sync_replay_stops_at_first_failure txSyncDownWorld 3 []).1
    [Event.rpcGetBlockByHeight 3 true, Event.blockSync ⟨"new", 3⟩,
      Event.txSync ⟨"new", 3⟩, Event.accountSync ⟨"new", 3⟩,
      Event.rpcGetBlockByHeight 4 true, Event.blockSync ⟨"new", 4⟩]
    (Event.txSync ⟨"new", 4⟩) [Event.pendingTxsSync] (by decide) (by decide)
  ⟨by decide, h.1, h.2.2⟩

/-- C9, as stated, fails: when `CurrentBlock` fails (`tipDownWorld`) or the
second `GetBlockHeight` fails (`heightDownWorld`), `sync` returns the error
without calling `pendingTxsSync`. -/
theorem sync_skips_pending_refresh_on_failed_tip_or_height :
    (Event.pendingTxsSync ∉ (sync tipDownWorld 2 []).1
        ∧ (sync tipDownWorld 2 []).2 = .returned true)
      ∧ (Event.pendingTxsSync ∉ (sync heightDownWorld 2 []).1
        ∧ (sync heightDownWorld 2 []).2 = .returned true) := by
  decide

/-- C9, amended: when the rollback scan has returned, there are three cases.
When `CurrentBlock` and the `GetBlockHeight` that follows it succeed and the
tip height is below `2 ^ 64 - 1`, `sync` calls `pendingTxsSync` exactly once,
as its last call, and returns nil, whatever fails during the rollback or the
forward replay.  When `CurrentBlock` fails, that call is the last one: `sync`
returns the error and does not call `pendingTxsSync`.  When `CurrentBlock`
succeeds and the `GetBlockHeight` that follows it fails, that call is the
last one: `sync` returns the error and does not call `pendingTxsSync`. -/
theorem sync_refreshes_pending_once (w : World) (fuel : Nat) (tr : Trace) (fb : Bool)
    (hroll : (checkOlderBlocks w fuel tr).2 = .returned fb) :
    (∀ (cur : CurrentBlock) (n : Nat),
        w.rpcCurrentBlock (tr ++ (checkOlderBlocks w fuel tr).1) = some cur →
        w.dbGetBlockHeight
          (tr ++ ((checkOlderBlocks w fuel tr).1 ++ [Event.rpcCurrentBlock])) w.shardNumber
            = some n →
        n < u64 → cur.Height + 1 < u64 → 1 ≤ fuel → cur.Height + 2 ≤ fuel + n →
        (sync w fuel tr).1.count Event.pendingTxsSync = 1
          ∧ (sync w fuel tr).1.getLast? = some Event.pendingTxsSync
          ∧ (sync w fuel tr).2 = .returned false)
      ∧ (w.rpcCurrentBlock (tr ++ (checkOlderBlocks w fuel tr).1) = none →
        sync w fuel tr
            = ((checkOlderBlocks w fuel tr).1 ++ [Event.rpcCurrentBlock], .returned true)
          ∧ Event.pendingTxsSync ∉ (sync w fuel tr).1)
      ∧ (∀ cur : CurrentBlock,
        w.rpcCurrentBlock (tr ++ (checkOlderBlocks w fuel tr).1) = some cur →
        w.dbGetBlockHeight
          (tr ++ ((checkOlderBlocks w fuel tr).1 ++ [Event.rpcCurrentBlock])) w.shardNumber
            = none →
        sync w fuel tr
            = ((checkOlderBlocks w fuel tr).1
                ++ [Event.rpcCurrentBlock, Event.dbGetBlockHeight w.shardNumber],
              .returned true)
          ∧ Event.pendingTxsSync ∉ (sync w fuel tr).1) := by
  have hR := not_isSyncCall_checkOlderBlocks w fuel tr
  have hscan : Event.pendingTxsSync ∉ (checkOlderBlocks w fuel tr).1 := by
    intro hm
    have := hR _ hm
    simp [isSyncCall] at this
  refine ⟨?_, ?_, ?_⟩
  · intro cur n hcur hheight hn ht hfuel1 hfuel
    have h1 : cur.Height % u64 = cur.Height := Nat.mod_eq_of_lt (by omega)
    have h2 : n % u64 = n := Nat.mod_eq_of_lt hn
    have hK := forwardLoop_kinds w cur.Height fuel n
      (tr ++ ((checkOlderBlocks w fuel tr).1 ++ [Event.rpcCurrentBlock]
        ++ [Event.dbGetBlockHeight w.shardNumber]))
    have hT := forwardLoop_returns w cur.Height ht fuel n
      (tr ++ ((checkOlderBlocks w fuel tr).1 ++ [Event.rpcCurrentBlock]
        ++ [Event.dbGetBlockHeight w.shardNumber])) hfuel1 hfuel
    rw [sync_of_forward w fuel tr fb cur n hroll hcur hheight, h1, h2, hT]
    have hc1 : (checkOlderBlocks w fuel tr).1.count Event.pendingTxsSync = 0 :=
      List.count_eq_zero.2 hscan
    have hc2 : (forwardLoop w cur.Height fuel n
        (tr ++ ((checkOlderBlocks w fuel tr).1 ++ [Event.rpcCurrentBlock]
          ++ [Event.dbGetBlockHeight w.shardNumber]))).1.count Event.pendingTxsSync = 0 := by
      rw [List.count_eq_zero]
      intro hm
      rcases hK _ hm with h | h
      · simp [isReplayStep] at h
      · exact Event.noConfusion h
    refine ⟨?_, ?_, rfl⟩
    · simp only [List.count_append, hc1, hc2, List.count_singleton]
      rfl
    · exact List.getLast?_concat _
  · intro hcur
    have hs : sync w fuel tr
        = ((checkOlderBlocks w fuel tr).1 ++ [Event.rpcCurrentBlock], .returned true) := by
      simp only [sync, hroll, hcur]
    refine ⟨hs, ?_⟩
    rw [hs]
    simp only [List.mem_append, List.mem_singleton, not_or]
    exact ⟨hscan, fun h => Event.noConfusion h⟩
  · intro cur hcur hheight
    have hs : sync w fuel tr
        = ((checkOlderBlocks w fuel tr).1
            ++ [Event.rpcCurrentBlock, Event.dbGetBlockHeight w.shardNumber],
          .returned true) := by
      simp only [sync, hroll, hcur, hheight, List.append_assoc, List.singleton_append]
    refine ⟨hs, ?_⟩
    rw [hs]
    simp only [List.mem_append, List.mem_cons, List.mem_singleton, List.not_mem_nil,
      or_false, not_or]
    exact ⟨hscan, fun h => Event.noConfusion h, fun h => Event.noConfusion h⟩

/-- C9, amended, on three replicas: on `txSyncDownWorld`, where `txSync` fails
during the forward replay, the pending refresh runs once, last; on
`tipDownWorld` the failed `CurrentBlock` is the last call, and on a replica
whose block count is read by the scan and fails afterwards the failed
`GetBlockHeight` is the last call. -/
theorem sync_refreshes_pending_once_witness :
    (checkOlderBlocks txSyncDownWorld 3 []).2 = .returned true
      ∧ ((sync txSyncDownWorld 3 []).1.count Event.pendingTxsSync = 1
        ∧ (sync txSyncDownWorld 3 []).1.getLast? = some Event.pendingTxsSync
        ∧ (sync txSyncDownWorld 3 []).2 = .returned false)
      ∧ (sync tipDownWorld 2 []
            = ((checkOlderBlocks tipDownWorld 2 []).1 ++ [Event.rpcCurrentBlock],
              .returned true)
          ∧ Event.pendingTxsSync ∉ (sync tipDownWorld 2 []).1)
      ∧ (sync heightLostWorld 2 []
            = ((checkOlderBlocks heightLostWorld 2 []).1
                ++ [Event.rpcCurrentBlock, Event.dbGetBlockHeight 1],
              .returned true)
          ∧ Event.pendingTxsSync ∉ (sync heightLostWorld 2 []).1) :=
  ⟨by decide,
   (sync_refreshes_pending_once txSyncDownWorld 3 [] true (by decide)).1 ⟨"new", 4⟩ 3
    (by decide) (by decide) (by decide) (by decide) (by decide) (by decide),
   (sync_refreshes_pending_once tipDownWorld 2 [] true (by decide)).2.1 (by decide),
   (sync_refreshes_pending_once heightLostWorld 2 [] true (by decide)).2.2 ⟨"new", 1⟩
    (by decide) (by decide)⟩

/-- C10: on a converged replica (`n >= 1` stored blocks, the remote tip at
height `n - 1`, the stored head hash at `n - 1` equal to the remote hash, the
store and the node answering the same as long as nothing is mutated), `sync`
makes exactly the calls below: no `RemoveBlock`, `RemoveTxs`, `UpdateAccount`,
`AddAccount`, `UpdateAccountMinedBlock`, `blockSync`, `txSync` or
`accountSync`; only the pending refresh runs. -/
theorem sync_idempotent_on_converged_replica (w : World) (fuel : Nat) (tr : Trace) (n : Nat)
    (rpcBlock : RpcBlock) (dbBlock : DBBlock) (cur : CurrentBlock)
    (hfuel : 1 ≤ fuel) (hn1 : 1 ≤ n) (hn : n < u64)
    (hheight : ∀ ev, (∀ e ∈ ev, isMutation e = false) →
      w.dbGetBlockHeight (tr ++ ev) w.shardNumber = some n)
    (hremote : ∀ ev, w.rpcGetBlockByHeight (tr ++ ev) (n - 1) true = some rpcBlock)
    (hlocal : ∀ ev, (∀ e ∈ ev, isMutation e = false) →
      w.dbGetBlockByHeight (tr ++ ev) w.shardNumber (n - 1) = some dbBlock)
    (hsame : dbBlock.HeadHash = rpcBlock.Hash)
    (htip : ∀ ev, w.rpcCurrentBlock (tr ++ ev) = some cur)
    (hcur : n = cur.Height + 1) :
    sync w fuel tr
        = ([Event.dbGetBlockHeight w.shardNumber,
            Event.rpcGetBlockByHeight (n - 1) true,
            Event.dbGetBlockByHeight w.shardNumber (n - 1),
            Event.rpcCurrentBlock,
            Event.dbGetBlockHeight w.shardNumber,
            Event.pendingTxsSync], .returned false)
      ∧ ∀ e ∈ (sync w fuel tr).1, isMutation e = false := by
  obtain ⟨f, rfl⟩ : ∃ f, fuel = f + 1 := ⟨fuel - 1, by omega⟩
  obtain ⟨m, rfl⟩ : ∃ m, n = m + 1 := ⟨n - 1, by omega⟩
  have hm : m = cur.Height := by omega
  have hmod : (m + 1) % u64 = m + 1 := Nat.mod_eq_of_lt hn
  have h1 := hheight [] (by simp)
  have h2 := hremote [Event.dbGetBlockHeight w.shardNumber]
  have h3 := hlocal [Event.dbGetBlockHeight w.shardNumber, Event.rpcGetBlockByHeight m true]
    (by simp [isMutation])
  have h4 := htip [Event.dbGetBlockHeight w.shardNumber, Event.rpcGetBlockByHeight m true,
    Event.dbGetBlockByHeight w.shardNumber m]
  have h5 := hheight [Event.dbGetBlockHeight w.shardNumber, Event.rpcGetBlockByHeight m true,
    Event.dbGetBlockByHeight w.shardNumber m, Event.rpcCurrentBlock] (by simp [isMutation])
  simp only [List.append_nil, Nat.add_sub_cancel] at h1 h2 h3
  have hc : checkOlderBlocks w (f + 1) tr
      = ([Event.dbGetBlockHeight w.shardNumber, Event.rpcGetBlockByHeight m true,
          Event.dbGetBlockByHeight w.shardNumber m], .returned false) := by
    simp [checkOlderBlocks, h1, hmod, decU64_succ hn, checkLoop, h2, h3, hsame]
  have hmodc : cur.Height % u64 = cur.Height := Nat.mod_eq_of_lt (by omega)
  have hlt : ¬ m + 1 ≤ cur.Height := by omega
  have hs : sync w (f + 1) tr
      = ([Event.dbGetBlockHeight w.shardNumber,
          Event.rpcGetBlockByHeight (m + 1 - 1) true,
          Event.dbGetBlockByHeight w.shardNumber (m + 1 - 1),
          Event.rpcCurrentBlock,
          Event.dbGetBlockHeight w.shardNumber,
          Event.pendingTxsSync], .returned false) := by
    simp [sync, hc, h4, h5, hmod, hmodc, forwardLoop, hlt]
  refine ⟨hs, ?_⟩
  rw [hs]
  simp [isMutation]

/-- C10, on the replica of `convergedWorld`: three stored blocks, the tip at
height 2. -/
theorem sync_idempotent_on_converged_replica_witness :
    (⟨"h", "0x0", []⟩ : DBBlock).HeadHash = (⟨"h", 2⟩ : RpcBlock).Hash
      ∧ sync convergedWorld 1 []
        = ([Event.dbGetBlockHeight 1, Event.rpcGetBlockByHeight 2 true,
            Event.dbGetBlockByHeight 1 2, Event.rpcCurrentBlock,
            Event.dbGetBlockHeight 1, Event.pendingTxsSync], .returned false) :=
  ⟨rfl,
   (sync_idempotent_on_converged_replica convergedWorld 1 [] 3 ⟨"h", 2⟩ ⟨"h", "0x0", []⟩
      ⟨"h", 2⟩ (by decide) (by decide) (by decide) (fun _ _ => rfl) (fun _ => rfl)
      (fun _ _ => rfl) rfl (fun _ => rfl) rfl).1⟩

/-! ## The empty replica -/

/-- C11: when `GetBlockHeight` reports 0, `checkOlderBlocks` returns `false`
after that one call: it fetches no block, from the node or from the store,
and issues no deletion and no account update. -/
theorem checkOlderBlocks_skips_empty_replica (w : World) (fuel : Nat) (tr : Trace)
    (hheight : w.dbGetBlockHeight tr w.shardNumber = some 0) :
    checkOlderBlocks w fuel tr = ([Event.dbGetBlockHeight w.shardNumber], .returned false) := by
  simp [checkOlderBlocks, hheight]

/-- C11, on the replica of `emptyWorld`, with no fuel at all. -/
theorem checkOlderBlocks_skips_empty_replica_witness :
    emptyWorld.dbGetBlockHeight [] emptyWorld.shardNumber = some 0
      ∧ checkOlderBlocks emptyWorld 0 [] = ([Event.dbGetBlockHeight 1], .returned false) :=
  ⟨rfl, checkOlderBlocks_skips_empty_replica emptyWorld 0 [] rfl⟩

/-! ## The rebuild of the ranked account tables -/

/-- C12: on the store of `exampleDB`, which holds the account `zoe` in shard
20, a new handler refreshes the table of shard 1 but leaves the snapshot of
the table of shard 20 empty, and a further `updateImpl` does the same. -/
theorem updateImpl_skips_shard_twenty :
    exampleDB.GetAccountsByShardNumber 20 maxShowAccountNum
        = some [exampleAccount "zoe" 5 20]
      ∧ (NewAccHandler exampleDB).map
          (fun h => h.accTbls.map fun t => (t.shardNumber, t.accountTbl))
        = some [(1, [exampleAccount "alice" 70 1, exampleAccount "bob" 30 1]),
            (2, []), (3, []), (4, []), (5, []), (6, []), (7, []), (8, []), (9, []), (10, []),
            (11, []), (12, []), (13, []), (14, []), (15, []), (16, []), (17, []), (18, []),
            (19, []), (20, [])]
      ∧ ((NewAccHandler exampleDB).bind AccountHandler.updateImpl).map
          (fun h => (h.accTbls[19]?).map fun t => (t.shardNumber, t.accountTbl))
        = some (some (20, [])) := by
  decide

/-- C13: after `updateImpl` on a handler of `shardCount` tables, for every
shard `s` in `1..20` the total balance of the table of shard `s` is the value
the mapping returned by `GetTotalBalance` holds for `s`, and 1 when `s` is
not a key of the mapping, whether or not `GetTotalBalance` also returned an
error. -/
theorem updateImpl_totalBalance (h : AccountHandler) (hlen : h.accTbls.length = shardCount) :
    ∃ h', h.updateImpl = some h'
      ∧ ∀ s : Nat, 1 ≤ s → s ≤ shardCount →
          (h'.accTbls[s - 1]?).map (fun t => t.totalBalance)
            = some (match h.DBClient.GetTotalBalance.1 (s : Int) with
                | some v => v
                | none => 1) := by
  obtain ⟨h', h1, _, _, h4⟩ := updateImpl_spec h hlen
  refine ⟨h', h1, ?_⟩
  intro s hs1 hs2
  obtain ⟨j, rfl⟩ : ∃ j, s = j + 1 := ⟨s - 1, by omega⟩
  have hj : j < h.accTbls.length := by omega
  rw [Nat.add_sub_cancel, h4 j (by omega), List.getElem?_eq_getElem hj]
  simp only [Option.map_some', setTotalBalance, Nat.cast_add, Nat.cast_one]
  cases h.DBClient.GetTotalBalance.1 ((j : Int) + 1) <;> rfl

/-- C13, on the tables of a new handler over two stores: `exampleDB`, whose
mapping holds 100 for shard 1 and 5 for shard 20, and `downDB`, whose
`GetTotalBalance` fails with an empty mapping. -/
theorem updateImpl_totalBalance_witness :
    (newAccTbls exampleDB).length = shardCount
      ∧ (NewAccHandler exampleDB).map (fun h => h.accTbls.map fun t => t.totalBalance)
        = some [100, 1, 1, 1, 1, 1, 1, 1, 1, 1, 1, 1, 1, 1, 1, 1, 1, 1, 1, 5]
      ∧ (∃ h', AccountHandler.updateImpl ⟨newAccTbls downDB, downDB⟩ = some h'
        ∧ ∀ s : Nat, 1 ≤ s → s ≤ shardCount →
            (h'.accTbls[s - 1]?).map (fun t => t.totalBalance)
              = some (match downDB.GetTotalBalance.1 (s : Int) with
                  | some v => v
                  | none => 1)) :=
  ⟨by decide, by decide, updateImpl_totalBalance ⟨newAccTbls downDB, downDB⟩ (by decide)⟩

/-! ## The pages of a ranked account table -/

/-- C14: on the snapshot of `exampleTbl`, whose entries `a`, `b`, `c` stand at
the indices 0, 1, 2, the page from 1 to 3 holds `b` and `c` with the ranks 1
and 2, their positions within the page, where their indices within the
snapshot plus one are 2 and 3. -/
theorem getAccountsByBeginAndEnd_rank_restarts :
    exampleTbl.accountTbl.map (fun d => d.Address) = ["a", "b", "c"]
      ∧ (exampleTbl.getAccountsByBeginAndEnd 1 3).map
          (fun page => page.map fun r => (r.Address, r.Rank))
        = some [("b", 1), ("c", 2)] := by
  decide

/-- C15, as stated, fails: on an empty snapshot `GetAccountsByIdx(0, 1)`
slices with the upper bound `2 ^ 64 - 1` and panics; on a snapshot of three
accounts `GetAccountsByIdx(3, 4)` slices with the bounds 3 and 2 and panics,
and `GetAccountsByIdx(0, 3)` slices with the upper bound 3, above
`max(N - 1, 0) = 2`. -/
theorem GetAccountsByIdx_unsafe_bounds :
    (clampEnd emptyTbl.accountTbl.length 1 = 18446744073709551615
        ∧ emptyTbl.GetAccountsByIdx 0 1 = none)
      ∧ (clampEnd exampleTbl.accountTbl.length 4 = 2 ∧ exampleTbl.GetAccountsByIdx 3 4 = none)
      ∧ (clampEnd exampleTbl.accountTbl.length 3 = 3
        ∧ exampleTbl.GetAccountsByIdx 0 3 = some exampleTbl.accountTbl) := by
  decide

/-- C15, amended: on a snapshot of length `N`, for `begin ≤ end` with
`end ≤ N`, or with `end > N` and `begin < N`, `GetAccountsByIdx(begin, end)`
does not panic, and the bounds it slices with satisfy `begin ≤ end' ≤ N`,
with `end' = N - 1` when `end > N`. -/
theorem GetAccountsByIdx_safe (a : AccountTbl) (begin end_ : Nat)
    (hlen : a.accountTbl.length < u64) (horder : begin ≤ end_)
    (hrange : end_ ≤ a.accountTbl.length ∨ begin < a.accountTbl.length) :
    (∃ page, a.GetAccountsByIdx begin end_ = some page)
      ∧ begin ≤ clampEnd a.accountTbl.length end_
      ∧ clampEnd a.accountTbl.length end_ ≤ a.accountTbl.length
      ∧ (a.accountTbl.length < end_ →
          clampEnd a.accountTbl.length end_ = a.accountTbl.length - 1) := by
  have hb : begin ≤ clampEnd a.accountTbl.length end_
      ∧ clampEnd a.accountTbl.length end_ ≤ a.accountTbl.length := by
    by_cases hle : end_ ≤ a.accountTbl.length
    · rw [clampEnd_of_le hle]
      exact ⟨horder, hle⟩
    · have hlt : begin < a.accountTbl.length := by omega
      rw [clampEnd_of_gt (by omega) (by omega) hlen]
      omega
  refine ⟨⟨(a.accountTbl.drop begin).take (clampEnd a.accountTbl.length end_ - begin), ?_⟩,
    hb.1, hb.2, fun hgt => clampEnd_of_gt hgt (by omega) hlen⟩
  simp only [AccountTbl.GetAccountsByIdx, hb, and_self, if_true]

/-- C15, amended, on the snapshot of `exampleTbl`: the range from 1 to 7 is
cut to the bounds 1 and 2. -/
theorem GetAccountsByIdx_safe_witness :
    (∃ page, exampleTbl.GetAccountsByIdx 1 7 = some page)
      ∧ 1 ≤ clampEnd exampleTbl.accountTbl.length 7
      ∧ clampEnd exampleTbl.accountTbl.length 7 ≤ exampleTbl.accountTbl.length
      ∧ (exampleTbl.accountTbl.length < 7 →
          clampEnd exampleTbl.accountTbl.length 7 = exampleTbl.accountTbl.length - 1) :=
  GetAccountsByIdx_safe exampleTbl 1 7 (by decide) (by decide) (Or.inr (by decide))

/-- C16: on a snapshot of length `N ≥ 1`, with `end' = end` when `end ≤ N` and
`end' = N - 1` when `end > N`, and `begin ≤ end'` (hence `begin ≤ end`),
`GetAccountsByIdx(begin, end)` returns `end' - begin` entries, the entries of
the snapshot at the indices `begin, ..., end' - 1`, in that order. -/
theorem GetAccountsByIdx_slice (a : AccountTbl) (begin end_ : Nat)
    (hlen : a.accountTbl.length < u64) (hN : 1 ≤ a.accountTbl.length)
    (hbegin : begin ≤ (if end_ ≤ a.accountTbl.length then end_ else a.accountTbl.length - 1)) :
    ∃ page, a.GetAccountsByIdx begin end_ = some page
      ∧ page.length
          = (if end_ ≤ a.accountTbl.length then end_ else a.accountTbl.length - 1) - begin
      ∧ ∀ j, j < (if end_ ≤ a.accountTbl.length then end_ else a.accountTbl.length - 1) - begin →
          page[j]? = a.accountTbl[begin + j]? ∧ begin + j < a.accountTbl.length := by
  have hclamp : clampEnd a.accountTbl.length end_
      = (if end_ ≤ a.accountTbl.length then end_ else a.accountTbl.length - 1) := by
    split_ifs with hle
    · exact clampEnd_of_le hle
    · exact clampEnd_of_gt (by omega) hN hlen
  have hupper : (if end_ ≤ a.accountTbl.length then end_ else a.accountTbl.length - 1)
      ≤ a.accountTbl.length := by
    split_ifs <;> omega
  refine ⟨(a.accountTbl.drop begin).take
    ((if end_ ≤ a.accountTbl.length then end_ else a.accountTbl.length - 1) - begin), ?_, ?_, ?_⟩
  · simp only [AccountTbl.GetAccountsByIdx, hclamp, hbegin, hupper, and_self, if_true]
  · rw [List.length_take, List.length_drop]
    omega
  · intro j hj
    rw [List.getElem?_take, if_pos hj, List.getElem?_drop]
    exact ⟨rfl, by omega⟩

/-- C16, on the snapshot of `exampleTbl`: the range from 1 to 7 yields the one
entry at index 1. -/
theorem GetAccountsByIdx_slice_witness :
    ∃ page, exampleTbl.GetAccountsByIdx 1 7 = some page
      ∧ page.length
          = (if 7 ≤ exampleTbl.accountTbl.length then 7 else exampleTbl.accountTbl.length - 1) - 1
      ∧ ∀ j, j < (if 7 ≤ exampleTbl.accountTbl.length then 7
            else exampleTbl.accountTbl.length - 1) - 1 →
          page[j]? = exampleTbl.accountTbl[1 + j]? ∧ 1 + j < exampleTbl.accountTbl.length :=
  GetAccountsByIdx_slice exampleTbl 1 7 (by decide) (by decide) (by decide)

/-- C17: when the slice of `getAccountsByBeginAndEnd(begin, end)` with
`begin ≤ end` is defined on a snapshot of `N` accounts, the page has at most
`end - begin` entries and the rank of every entry lies between 1 and `N`. -/
theorem getAccountsByBeginAndEnd_bounds (a : AccountTbl) (begin end_ : Nat)
    (page : List RetSimpleAccountInfo) (horder : begin ≤ end_)
    (hpage : a.getAccountsByBeginAndEnd begin end_ = some page) :
    page.length ≤ end_ - begin
      ∧ ∀ r ∈ page, 1 ≤ r.Rank ∧ r.Rank ≤ (a.accountTbl.length : Int) := by
  have hrank := fun k hk => (getAccountsByBeginAndEnd_rank a begin end_ k page hpage hk).2
  unfold AccountTbl.getAccountsByBeginAndEnd at hpage
  cases hidx : a.GetAccountsByIdx begin end_ with
  | none => simp [hidx] at hpage
  | some dbAccounts =>
    simp only [hidx, Option.some.injEq] at hpage
    obtain ⟨h1, h2, hdb⟩ := GetAccountsByIdx_eq_some hidx
    have hlenpage : page.length = clampEnd a.accountTbl.length end_ - begin := by
      rw [← hpage, rankLoop_length, hdb, List.length_take, List.length_drop]
      omega
    have hclamp : clampEnd a.accountTbl.length end_ ≤ end_ := by
      by_cases hgt : end_ > a.accountTbl.length
      · omega
      · rw [clampEnd_of_le (by omega)]
    refine ⟨by omega, ?_⟩
    intro r hr
    obtain ⟨k, hk, hkr⟩ := List.getElem_of_mem hr
    have := hrank k hk
    rw [List.getElem?_eq_getElem hk, hkr] at this
    simp only [Option.map_some', Option.some.injEq] at this
    rw [this]
    constructor
    · omega
    · have : k + 1 ≤ a.accountTbl.length := by omega
      exact_mod_cast this

/-- C17, on the snapshot of `exampleTbl`: the page from 1 to 7. -/
theorem getAccountsByBeginAndEnd_bounds_witness :
    (rankLoop 100 0 [exampleAccount "b" 30 1]).length ≤ 7 - 1
      ∧ ∀ r ∈ rankLoop 100 0 [exampleAccount "b" 30 1],
          1 ≤ r.Rank ∧ r.Rank ≤ (exampleTbl.accountTbl.length : Int) :=
  getAccountsByBeginAndEnd_bounds exampleTbl 1 7 (rankLoop 100 0 [exampleAccount "b" 30 1])
    (by decide) (by decide)

/-! ## The detail of an account -/

/-- C19: when the account lookup and both transaction lookups succeed and the
account is an external account, the result of `GetAccountByAddressImpl` lists
the pending transactions in the order of the store, then the persisted ones in
the order of the store, each converted field for field. -/
theorem GetAccountByAddressImpl_txs (clock : Clock) (h : AccountHandler) (address : String)
    (data : DBAccount) (txs pending : List DBTx)
    (htbls : h.accTbls.length = shardCount)
    (haccount : h.DBClient.GetAccountByAddress address = some data)
    (hexternal : data.AccType = 0)
    (htxs : h.DBClient.GetTxsByAddresss address txCount = some txs)
    (hpending : h.DBClient.GetPendingTxsByAddress address = some pending) :
    ∃ ret, h.GetAccountByAddressImpl clock address = some (some ret)
      ∧ ret.Txs.length = pending.length + txs.length
      ∧ ret.Txs = pending.map (createRetDetailAccountTxInfo clock data)
          ++ txs.map (createRetDetailAccountTxInfo clock data)
      ∧ ∀ t : DBTx,
          (createRetDetailAccountTxInfo clock data t).Hash = t.Hash
            ∧ (createRetDetailAccountTxInfo clock data t).From = t.From
            ∧ (createRetDetailAccountTxInfo clock data t).To = t.To
            ∧ (createRetDetailAccountTxInfo clock data t).Value = t.Amount
            ∧ (createRetDetailAccountTxInfo clock data t).Fee = t.Fee
            ∧ (createRetDetailAccountTxInfo clock data t).Block = t.Block
            ∧ (createRetDetailAccountTxInfo clock data t).ShardNumber = t.ShardNumber
            ∧ (createRetDetailAccountTxInfo clock data t).TxType = t.TxType
            ∧ (createRetDetailAccountTxInfo clock data t).Pending = t.Pending := by
  have hconv : ∀ tt, (createRetDetailAccountInfo clock data (pending ++ txs) tt).Txs
      = pending.map (createRetDetailAccountTxInfo clock data)
        ++ txs.map (createRetDetailAccountTxInfo clock data) := by
    intro tt
    simp [createRetDetailAccountInfo, detailTxLoop_Txs]
  have hfields : ∀ t : DBTx,
      (createRetDetailAccountTxInfo clock data t).Hash = t.Hash
        ∧ (createRetDetailAccountTxInfo clock data t).From = t.From
        ∧ (createRetDetailAccountTxInfo clock data t).To = t.To
        ∧ (createRetDetailAccountTxInfo clock data t).Value = t.Amount
        ∧ (createRetDetailAccountTxInfo clock data t).Fee = t.Fee
        ∧ (createRetDetailAccountTxInfo clock data t).Block = t.Block
        ∧ (createRetDetailAccountTxInfo clock data t).ShardNumber = t.ShardNumber
        ∧ (createRetDetailAccountTxInfo clock data t).TxType = t.TxType
        ∧ (createRetDetailAccountTxInfo clock data t).Pending = t.Pending :=
    fun t => ⟨rfl, rfl, rfl, rfl, rfl, rfl, rfl, rfl, rfl⟩
  by_cases hshard : data.ShardNumber ≥ 1 ∧ data.ShardNumber ≤ shardCount
  · have hidx : (data.ShardNumber - 1).toNat < h.accTbls.length := by
      rw [htbls]
      have h1 := hshard.1
      have h2 := hshard.2
      simp only [shardCount] at h2 ⊢
      omega
    refine ⟨createRetDetailAccountInfo clock data (pending ++ txs)
      (h.accTbls[(data.ShardNumber - 1).toNat]).totalBalance, ?_, ?_, hconv _, hfields⟩
    · simp only [AccountHandler.GetAccountByAddressImpl, haccount, hexternal, htxs, hpending,
        ne_eq, not_true_eq_false, if_false]
      rw [if_pos hshard, List.getElem?_eq_getElem hidx]
    · rw [hconv]
      simp
  · refine ⟨createRetDetailAccountInfo clock data (pending ++ txs) 0, ?_, ?_, hconv _, hfields⟩
    · simp only [AccountHandler.GetAccountByAddressImpl, haccount, hexternal, htxs, hpending,
        ne_eq, not_true_eq_false, if_false]
      rw [if_neg hshard]
    · rw [hconv]
      simp

/-- C19, on the store of `detailDB`: the pending transaction `p1` comes before
the persisted transaction `t1`. -/
theorem GetAccountByAddressImpl_txs_witness :
    ∃ ret, AccountHandler.GetAccountByAddressImpl exampleClock
          ⟨newAccTbls detailDB, detailDB⟩ "alice" = some (some ret)
      ∧ ret.Txs.length = 1 + 1
      ∧ ret.Txs.map (fun t => (t.Hash, t.Pending)) = [("p1", true), ("t1", false)] := by
  obtain ⟨ret, h1, h2, h3, _⟩ := GetAccountByAddressImpl_txs exampleClock
    ⟨newAccTbls detailDB, detailDB⟩ "alice" (exampleAccount "alice" 70 1)
    [{ TxType := 0, Hash := "t1", Block := "7", From := "alice", To := "bob",
       Amount := 3, Pending := false, Fee := 1, Timestamp := "100", ShardNumber := 1,
       AccountNonce := "0", Payload := "" }]
    [{ TxType := 0, Hash := "p1", Block := "", From := "bob", To := "alice",
       Amount := 4, Pending := true, Fee := 1, Timestamp := "200", ShardNumber := 1,
       AccountNonce := "1", Payload := "" }]
    (by decide) rfl rfl rfl rfl
  refine ⟨ret, h1, h2, ?_⟩
  rw [h3]
  rfl

/-! ## The percentages of a ranked account table -/

/-- C18, as stated, fails: on the store of `negativeDB` a new handler stores,
for shard 1, the snapshot of the one external account, of balance 10, and the
total balance 2, so the balances over the total sum to 5. -/
theorem updateImpl_share_sum_exceeds_one :
    (NewAccHandler negativeDB).bind
        (fun h => (h.accTbls[0]?).map fun t => (t.accountTbl, t.totalBalance))
      = some ([exampleAccount "a" 10 1], 2)
      ∧ shareSum [exampleAccount "a" 10 1] 2 = 5 := by
  refine ⟨by decide, ?_⟩
  norm_num [shareSum, exampleAccount]

/-- C18, amended: on a store whose account collection does not change during
the run and holds no negative balance, `updateImpl` stores for every shard
`1..19` the ranked accounts and the total balance of the shard; every entry
listed from the table has as percentage its balance over that total, and when
the balances of the shard sum to at most `2 ^ 53`, so that the floats of the
server add them exactly, and the total exceeds 1, the balances of the snapshot
over the total sum to at most 1. -/
theorem updateImpl_share_sum (accounts : List DBAccount) (base : BlockInfoDB)
    (h0 : AccountHandler)
    (hlen : h0.accTbls.length = shardCount)
    (hdb : h0.DBClient = storeDB accounts base)
    (htbl : ∀ (j : Nat) (t : AccountTbl), h0.accTbls[j]? = some t →
      t.DBClient = storeDB accounts base ∧ t.shardNumber = (j : Int) + 1)
    (hnonneg : ∀ a ∈ accounts, 0 ≤ a.Balance) :
    ∃ h, h0.updateImpl = some h
      ∧ ∀ (j : Nat) (t : AccountTbl), j + 1 < shardCount → h.accTbls[j]? = some t →
          t.accountTbl = storeGetAccountsByShardNumber accounts ((j : Int) + 1) maxShowAccountNum
            ∧ t.totalBalance
              = (storeGetTotalBalance accounts base.GetTotalBalance.1 ((j : Int) + 1)).getD 1
            ∧ (∀ begin end_ page, t.getAccountsByBeginAndEnd begin end_ = some page →
                ∀ r ∈ page, r.Percentage = ⟨r.Balance, t.totalBalance⟩)
            ∧ (((accounts.filter fun a => a.ShardNumber = (j : Int) + 1).map
                  (·.Balance)).sum ≤ 2 ^ 53 →
                1 < t.totalBalance → shareSum t.accountTbl t.totalBalance ≤ 1) := by
  obtain ⟨h, h1, _, _, h4⟩ := updateImpl_spec h0 hlen
  refine ⟨h, h1, ?_⟩
  intro j t hj ht
  have hj0 : j < h0.accTbls.length := by omega
  rw [h4 j (by omega), List.getElem?_eq_getElem hj0] at ht
  simp only [Option.map_some', Option.some.injEq, hj, if_true] at ht
  obtain ⟨hc, hs⟩ := htbl j _ (List.getElem?_eq_getElem hj0)
  have hsnap : t.accountTbl
      = storeGetAccountsByShardNumber accounts ((j : Int) + 1) maxShowAccountNum := by
    rw [← ht]
    simp only [setTotalBalance, AccountTbl.ProcessGAccountTable, hc, hs, storeDB]
    split <;> rfl
  have htot : t.totalBalance
      = (storeGetTotalBalance accounts base.GetTotalBalance.1 ((j : Int) + 1)).getD 1 := by
    rw [← ht]
    simp only [setTotalBalance, hdb, storeDB]
    split <;> rename_i heq <;> simp [heq, remianTotalBalance]
  refine ⟨hsnap, htot, ?_, ?_⟩
  · intro begin end_ page hpage r hr
    unfold AccountTbl.getAccountsByBeginAndEnd at hpage
    cases hidx : t.GetAccountsByIdx begin end_ with
    | none => simp [hidx] at hpage
    | some dbAccounts =>
      simp only [hidx, Option.some.injEq] at hpage
      subst hpage
      exact rankLoop_Percentage _ _ _ r hr
  · intro hbound hT
    have hexact : sumsExactly
        ((accounts.filter fun a => a.ShardNumber = (j : Int) + 1).map (·.Balance)) = true := by
      have habs : ∀ l : List DBAccount, (∀ a ∈ l, 0 ≤ a.Balance) →
          (((l.map (·.Balance)).map Int.natAbs).sum : Int) = (l.map (·.Balance)).sum := by
        intro l
        induction l with
        | nil => intro _; rfl
        | cons a rest ih =>
          intro hl
          have ha : 0 ≤ a.Balance := hl a (by simp)
          have hrest := ih (fun b hb => hl b (by simp [hb]))
          simp only [List.map_cons, List.sum_cons, Nat.cast_add, hrest]
          rw [Int.natAbs_of_nonneg ha]
      have hfilter := habs (accounts.filter fun a => a.ShardNumber = (j : Int) + 1)
        (fun a ha => hnonneg a (List.mem_of_mem_filter ha))
      unfold sumsExactly
      rw [decide_eq_true_eq]
      have : ((((accounts.filter fun a => a.ShardNumber = (j : Int) + 1).map
          (·.Balance)).map Int.natAbs).sum : Int) ≤ ((2 ^ 53 : Nat) : Int) := by
        rw [hfilter]
        exact_mod_cast hbound
      exact_mod_cast this
    cases hget : storeGetTotalBalance accounts base.GetTotalBalance.1 ((j : Int) + 1) with
    | none =>
      rw [htot, hget] at hT
      simp at hT
    | some T =>
      have hTeq : t.totalBalance = T := by rw [htot, hget]; rfl
      have hsum := store_snapshot_sum_le accounts base.GetTotalBalance.1 ((j : Int) + 1)
        maxShowAccountNum T hnonneg hexact hget
      rw [shareSum_eq, hsnap, hTeq]
      have hpos : (0 : ℚ) < (T : ℚ) := by
        have : 0 < T := by omega
        exact_mod_cast this
      rw [div_le_one hpos]
      exact_mod_cast hsum

/-- C18, amended, on the tables of a new handler over the store of
`exampleDB`, with shard 1 at index 0: the balances 70 and 30 sum to 100 and
the shares sum to at most 1. -/
theorem updateImpl_share_sum_witness :
    ∃ h, AccountHandler.updateImpl ⟨newAccTbls exampleDB, exampleDB⟩ = some h
      ∧ ∀ t, h.accTbls[0]? = some t →
          t.accountTbl = [exampleAccount "alice" 70 1, exampleAccount "bob" 30 1]
            ∧ t.totalBalance = 100
            ∧ shareSum t.accountTbl t.totalBalance ≤ 1 := by
  obtain ⟨h, h1, h2⟩ := updateImpl_share_sum
    [exampleAccount "bob" 30 1, exampleAccount "alice" 70 1, exampleAccount "zoe" 5 20] downDB
    ⟨newAccTbls exampleDB, exampleDB⟩ (by decide) rfl
    (fun j t ht => by
      have := newAccTbls_getElem? exampleDB j t ht
      exact ⟨this.1, this.2.1⟩)
    (by decide)
  refine ⟨h, h1, ?_⟩
  intro t ht
  obtain ⟨h3, h4, _, h6⟩ := h2 0 t (by decide) ht
  have h5 : t.totalBalance = 100 := by rw [h4]; decide
  refine ⟨?_, h5, h6 (by decide) (by rw [h5]; decide)⟩
  rw [h3]; decide

/-! ## The cadence of the sync loop -/

/-- C20: `StartSync` runs `sync` once before any tick is received; then every
cycle of its loop receives two ticks, one before its run of `sync` and one
after it.  On `2 k` delivered ticks there are `k` further runs of `sync`,
started on the ticks `1, 3, ..., 2 k - 1`, and one tick more starts the next
run. -/
theorem StartSync_cadence (k : Nat) :
    StartSync (List.replicate (2 * k) Recv.tick)
        = LoopEvent.sync :: (List.range k).flatMap (fun _ =>
            [LoopEvent.recv Recv.tick, LoopEvent.sync, LoopEvent.recv Recv.tick])
      ∧ syncStarts 0 (StartSync (List.replicate (2 * k) Recv.tick)) = 0 :: oddsBelow k
      ∧ (syncStarts 0 (StartSync (List.replicate (2 * k) Recv.tick))).length = 1 + k
      ∧ syncStarts 0 (StartSync (List.replicate (2 * k) Recv.tick ++ [Recv.tick]))
          = 0 :: oddsBelow (k + 1) := by
  have h := syncStarts_tickLoop k 0
  simp only [Nat.zero_add] at h
  refine ⟨?_, ?_, ?_, ?_⟩
  · rw [StartSync, tickLoop_cycles]
  · simp only [StartSync, syncStarts, h.1, oddsBelow]
  · simp only [StartSync, syncStarts, h.1, List.length_cons, List.length_map, List.length_range]
    omega
  · simp only [StartSync, syncStarts, h.2, oddsBelow]

/-! ## Readers at work during a rebuild -/

/-- C21, as stated, fails: the table of shard 1 holds the snapshot of `bob`
alone and the total 30 when the store has become that of `exampleDB`.  The
rebuild takes the write lock, assigns the new snapshot and releases the lock;
then a call of `getAccountsByBeginAndEnd(0, 1)` runs from `RLock` to its end,
and only then the rebuild assigns the new total 100.  The reader lists
`alice`, of the new snapshot, with the percentage 70 over the old total 30. -/
theorem rebuild_exposes_new_snapshot_with_old_total :
    ((staleConfig (getAccountsByBeginAndEndSteps 0 1)).run [true, true, true]).mem
        = { accountTbl := [exampleAccount "alice" 70 1, exampleAccount "bob" 30 1],
            totalBalance := 30, writeLocked := false, readLocks := 0 }
      ∧ ((staleConfig (getAccountsByBeginAndEndSteps 0 1)).run
          [true, true, true, false, false, false, false, false, true]).reader.result?
        = some [{ AccType := 0, ShardNumber := 1, Rank := 1, Address := "alice",
                  Balance := 70, Percentage := ⟨70, 30⟩, TxCount := 1 }]
      ∧ ((staleConfig (getAccountsByBeginAndEndSteps 0 1)).run
          [true, true, true, false, false, false, false, false, true]).mem
        = { accountTbl := [exampleAccount "alice" 70 1, exampleAccount "bob" 30 1],
            totalBalance := 100, writeLocked := false, readLocks := 0 } := by
  decide

/-- C21, amended: a run of `updateImpl` on the table `a`, the table at index
`j` of the handler, and a reader start with no lock held.  Under every
schedule of their steps: `GetAccountCnt` returns the length of the snapshot
of `a` or of the snapshot that the sequential `ProcessGAccountTable` stores;
`GetAccountsByIdx` returns, or panics as, the sequential `GetAccountsByIdx`
does on one of these two snapshots, and so does `getAccountsByBeginAndEnd`
for its page, whose entries keep the order of the page, carry their rank in
the page and, each on its own, the total of `a` or the total that the
sequential `updateImpl` stores.  Without a reader the rebuild ends after four
steps with that snapshot and that total; without a rebuild `GetAccountsByIdx`
and `getAccountsByBeginAndEnd` end with the results of the sequential
functions on `a`. -/
theorem rebuild_readers_read_whole_snapshot (h : AccountHandler) (j : Nat) (a : AccountTbl)
    (begin end_ : Nat) (schedule : List Bool) :
    (∀ n, ((h.rebuildWith j a GetAccountCntSteps).run schedule).reader.result? = some n →
        n = a.GetAccountCnt
          ∨ n = (if j + 1 < shardCount then a.ProcessGAccountTable else a).GetAccountCnt)
      ∧ (∀ page,
          ((h.rebuildWith j a (GetAccountsByIdxSteps begin end_ Prog.done)).run
            schedule).reader.result? = some page →
          a.GetAccountsByIdx begin end_ = some page
            ∨ (if j + 1 < shardCount then a.ProcessGAccountTable else a).GetAccountsByIdx
                begin end_ = some page)
      ∧ (((h.rebuildWith j a (GetAccountsByIdxSteps begin end_ Prog.done)).run
            schedule).reader.hasPanicked = true →
          a.GetAccountsByIdx begin end_ = none
            ∨ (if j + 1 < shardCount then a.ProcessGAccountTable else a).GetAccountsByIdx
                begin end_ = none)
      ∧ (∀ entries,
          ((h.rebuildWith j a (getAccountsByBeginAndEndSteps begin end_)).run
            schedule).reader.result? = some entries →
          ∃ page,
            (a.GetAccountsByIdx begin end_ = some page
              ∨ (if j + 1 < shardCount then a.ProcessGAccountTable else a).GetAccountsByIdx
                  begin end_ = some page)
            ∧ entries.length = page.length
            ∧ ∀ (i : Nat) (data : DBAccount), page[i]? = some data →
                ∃ tt, (tt = a.totalBalance
                    ∨ tt = (setTotalBalance h.DBClient.GetTotalBalance.1 j a).totalBalance)
                  ∧ entries[i]?
                    = some { createRetSimpleAccountInfo data tt with Rank := (i : Int) + 1 })
      ∧ (((h.rebuildWith j a (getAccountsByBeginAndEndSteps begin end_)).run
            schedule).reader.hasPanicked = true →
          a.GetAccountsByIdx begin end_ = none
            ∨ (if j + 1 < shardCount then a.ProcessGAccountTable else a).GetAccountsByIdx
                begin end_ = none)
      ∧ ((h.rebuildWith j a (Prog.done ())).run (List.replicate 4 true)).mem
          = { accountTbl := (if j + 1 < shardCount then a.ProcessGAccountTable else a).accountTbl,
              totalBalance := (setTotalBalance h.DBClient.GetTotalBalance.1 j a).totalBalance,
              writeLocked := false, readLocks := 0 }
      ∧ ((h.rebuildWith j a (GetAccountsByIdxSteps begin end_ Prog.done)).run
            (List.replicate 5 false)).reader
          = (match a.GetAccountsByIdx begin end_ with
              | some page => Prog.done page
              | none => Prog.panicked)
      ∧ ((h.rebuildWith j a (getAccountsByBeginAndEndSteps begin end_)).run
            (List.replicate (5 + a.accountTbl.length) false)).reader
          = (match a.getAccountsByBeginAndEnd begin end_ with
              | some entries => Prog.done entries
              | none => Prog.panicked) := by
  have hnone : ∀ t : AccountTbl,
      ¬ (begin ≤ clampEnd t.accountTbl.length end_
        ∧ clampEnd t.accountTbl.length end_ ≤ t.accountTbl.length) →
      t.GetAccountsByIdx begin end_ = none := by
    intro t ht
    unfold AccountTbl.GetAccountsByIdx
    simp only
    rw [if_neg ht]
  have hpage : ∀ page,
      pageOf begin end_ a.accountTbl page
        ∨ pageOf begin end_
            (if j + 1 < shardCount then a.ProcessGAccountTable else a).accountTbl page →
      a.GetAccountsByIdx begin end_ = some page
        ∨ (if j + 1 < shardCount then a.ProcessGAccountTable else a).GetAccountsByIdx
            begin end_ = some page := by
    intro page hp
    rcases hp with hp | hp
    · exact Or.inl ((pageOf_iff a begin end_ page).1 hp)
    · exact Or.inr ((pageOf_iff _ begin end_ page).1 hp)
  have hpanic : ∀ m : TblMem,
      (m.accountTbl = a.accountTbl
        ∨ m.accountTbl = (if j + 1 < shardCount then a.ProcessGAccountTable else a).accountTbl) →
      ¬ (begin ≤ clampEnd m.accountTbl.length end_
        ∧ clampEnd m.accountTbl.length end_ ≤ m.accountTbl.length) →
      a.GetAccountsByIdx begin end_ = none
        ∨ (if j + 1 < shardCount then a.ProcessGAccountTable else a).GetAccountsByIdx
            begin end_ = none := by
    intro m hm hb
    rcases hm with hm | hm
    · exact Or.inl (hnone a (hm ▸ hb))
    · exact Or.inr (hnone _ (hm ▸ hb))
  -- the three readers under a schedule
  obtain ⟨_, hcount⟩ := run_keeps a.accountTbl
    (if j + 1 < shardCount then a.ProcessGAccountTable else a).accountTbl a.totalBalance
    (setTotalBalance h.DBClient.GetTotalBalance.1 j a).totalBalance
    (countAt a.accountTbl (if j + 1 < shardCount then a.ProcessGAccountTable else a).accountTbl)
    (fun m m' r hr hf => countAt_stable _ _ m m' r hr hf)
    (fun m r r' m' hs _ hr hstep => countAt_step _ _ m r r' m' hs hr hstep)
    schedule (h.rebuildWith j a GetAccountCntSteps) (rebuildWith_start h j a _)
    (Or.inl ⟨rfl, rfl⟩)
  obtain ⟨hw2, hidx⟩ := run_keeps a.accountTbl
    (if j + 1 < shardCount then a.ProcessGAccountTable else a).accountTbl a.totalBalance
    (setTotalBalance h.DBClient.GetTotalBalance.1 j a).totalBalance
    (readerAt begin end_ a.accountTbl
      (if j + 1 < shardCount then a.ProcessGAccountTable else a).accountTbl Prog.done
      (fun page r => r = Prog.done page))
    (fun m m' r hr hf => readerAt_stable _ _ _ _ _ _ m m' r hr hf)
    (fun m r r' m' hs ht hr hstep => readerAt_step begin end_ a.accountTbl
      (if j + 1 < shardCount then a.ProcessGAccountTable else a).accountTbl a.totalBalance
      (setTotalBalance h.DBClient.GetTotalBalance.1 j a).totalBalance Prog.done
      (fun page r => r = Prog.done page)
      (fun page => rfl)
      (fun page m r r' m' _ hr hstep => by
        subst hr
        simp only [Prog.step] at hstep
        exact Option.noConfusion hstep)
      m r r' m' hs ht hr hstep)
    schedule (h.rebuildWith j a (GetAccountsByIdxSteps begin end_ Prog.done))
    (rebuildWith_start h j a _) (Or.inl ⟨rfl, rfl⟩)
  obtain ⟨hw3, hlist⟩ := run_keeps a.accountTbl
    (if j + 1 < shardCount then a.ProcessGAccountTable else a).accountTbl a.totalBalance
    (setTotalBalance h.DBClient.GetTotalBalance.1 j a).totalBalance
    (readerAt begin end_ a.accountTbl
      (if j + 1 < shardCount then a.ProcessGAccountTable else a).accountTbl
      (fun dbAccounts => rankLoopSteps 0 dbAccounts [])
      (rankLoopAt a.totalBalance (setTotalBalance h.DBClient.GetTotalBalance.1 j a).totalBalance))
    (fun m m' r hr hf => readerAt_stable _ _ _ _ _ _ m m' r hr hf)
    (fun m r r' m' hs ht hr hstep => readerAt_step begin end_ a.accountTbl
      (if j + 1 < shardCount then a.ProcessGAccountTable else a).accountTbl a.totalBalance
      (setTotalBalance h.DBClient.GetTotalBalance.1 j a).totalBalance
      (fun dbAccounts => rankLoopSteps 0 dbAccounts [])
      (rankLoopAt a.totalBalance (setTotalBalance h.DBClient.GetTotalBalance.1 j a).totalBalance)
      (fun page => rankLoopAt_entry _ _ page)
      (fun page m r r' m' ht hr hstep => rankLoopAt_step _ _ page m r r' m' ht hr hstep)
      m r r' m' hs ht hr hstep)
    schedule (h.rebuildWith j a (getAccountsByBeginAndEndSteps begin end_))
    (rebuildWith_start h j a _) (Or.inl ⟨rfl, rfl⟩)
  refine ⟨?_, ?_, ?_, ?_, ?_, ?_, ?_, ?_⟩
  · intro n hn
    rcases hcount with ⟨g, _⟩ | ⟨g, _⟩ | ⟨g, _⟩ | ⟨n', g, _, g3⟩
    · rw [g] at hn; simp [Prog.result?, GetAccountCntSteps] at hn
    · rw [g] at hn; simp [Prog.result?] at hn
    · rw [g] at hn; simp [Prog.result?] at hn
    · rw [g] at hn
      simp only [Prog.result?, Option.some.injEq] at hn
      subst hn
      exact g3
  · intro page hres
    rcases hidx with ⟨g, _⟩ | ⟨g, _⟩ | ⟨g, _⟩ | ⟨g, _⟩ | ⟨p, g, _⟩ | ⟨p, g, _, g3⟩ | ⟨g, _⟩
    · rw [g] at hres; simp [Prog.result?, GetAccountsByIdxSteps] at hres
    · rw [g] at hres; simp [Prog.result?] at hres
    · rw [g] at hres; simp [Prog.result?] at hres
    · rw [g] at hres; simp [Prog.result?, sliceSteps] at hres
    · rw [g] at hres; simp [Prog.result?] at hres
    · rw [g] at hres
      simp only [Prog.result?, Option.some.injEq] at hres
      subst hres
      exact hpage _ g3
    · rw [g] at hres; simp [Prog.result?] at hres
  · intro hp
    rcases hidx with ⟨g, _⟩ | ⟨g, _⟩ | ⟨g, _⟩ | ⟨g, _⟩ | ⟨p, g, _⟩ | ⟨p, g, _⟩ | ⟨_, _, _, g3⟩
    · rw [g] at hp; simp [Prog.hasPanicked, GetAccountsByIdxSteps] at hp
    · rw [g] at hp; simp [Prog.hasPanicked] at hp
    · rw [g] at hp; simp [Prog.hasPanicked] at hp
    · rw [g] at hp; simp [Prog.hasPanicked, sliceSteps] at hp
    · rw [g] at hp; simp [Prog.hasPanicked] at hp
    · rw [g] at hp; simp [Prog.hasPanicked] at hp
    · exact hpanic _ (rebuildAt_fields hw2).1 g3
  · intro entries hres
    rcases hlist with ⟨g, _⟩ | ⟨g, _⟩ | ⟨g, _⟩ | ⟨g, _⟩ | ⟨p, g, _⟩ | ⟨p, g, _, g3⟩ | ⟨g, _⟩
    · rw [g] at hres; simp [Prog.result?, GetAccountsByIdxSteps] at hres
    · rw [g] at hres; simp [Prog.result?] at hres
    · rw [g] at hres; simp [Prog.result?] at hres
    · rw [g] at hres; simp [Prog.result?, sliceSteps] at hres
    · rw [g] at hres; simp [Prog.result?] at hres
    · obtain ⟨h1, h2⟩ := rankLoopAt_result _ _ p _ entries g hres
      exact ⟨p, hpage _ g3, h1, h2⟩
    · rw [g] at hres; simp [Prog.result?] at hres
  · intro hp
    rcases hlist with ⟨g, _⟩ | ⟨g, _⟩ | ⟨g, _⟩ | ⟨g, _⟩ | ⟨p, g, _⟩ | ⟨p, g, _⟩ | ⟨_, _, _, g3⟩
    · rw [g] at hp; simp [Prog.hasPanicked, GetAccountsByIdxSteps] at hp
    · rw [g] at hp; simp [Prog.hasPanicked] at hp
    · rw [g] at hp; simp [Prog.hasPanicked] at hp
    · rw [g] at hp; simp [Prog.hasPanicked, sliceSteps] at hp
    · rw [g] at hp; simp [Prog.hasPanicked] at hp
    · rw [rankLoopAt_no_panic _ _ p _ g] at hp
      exact Bool.noConfusion hp
    · exact hpanic _ (rebuildAt_fields hw3).1 g3
  · unfold AccountHandler.rebuildWith AccountHandler.updateImplSteps
      AccountTbl.ProcessGAccountTableSteps AccountTbl.ProcessGAccountTable
    by_cases hj : j + 1 < shardCount
    · simp only [hj, if_true]
      cases a.DBClient.GetAccountsByShardNumber a.shardNumber maxShowAccountNum with
      | none => simp [List.replicate, Config.run, Config.move, Prog.step]
      | some temp => simp [List.replicate, Config.run, Config.move, Prog.step]
    · simp [hj, List.replicate, Config.run, Config.move, Prog.step]
  · simp only [AccountHandler.rebuildWith, List.replicate, Config.run, List.foldl, Config.move,
      GetAccountsByIdxSteps, sliceSteps, Prog.step, AccountTbl.GetAccountsByIdx, clampEnd,
      Bool.false_eq_true, if_false, and_self, if_true]
    by_cases hlen : end_ > a.accountTbl.length
    · simp only [hlen, if_true, Prog.step]
      by_cases hb : begin ≤ decU64 a.accountTbl.length
          ∧ decU64 a.accountTbl.length ≤ a.accountTbl.length
      · simp only [hb, and_self, if_true, Prog.step]
      · simp only [hb, if_false, Prog.step]
    · simp only [hlen, if_false, sliceSteps, Prog.step]
      by_cases hb : begin ≤ end_ ∧ end_ ≤ a.accountTbl.length
      · simp only [hb, and_self, if_true, Prog.step]
      · simp only [hb, if_false, Prog.step]
  · have htake : ∀ e' : Nat,
        ((a.accountTbl.drop begin).take (e' - begin)).length ≤ a.accountTbl.length := by
      intro e'
      simp only [List.length_take, List.length_drop]
      omega
    unfold AccountTbl.getAccountsByBeginAndEnd AccountTbl.GetAccountsByIdx
      getAccountsByBeginAndEndSteps AccountHandler.rebuildWith
    simp only [clampEnd]
    by_cases hlen : end_ > a.accountTbl.length
    · rw [List.replicate_add, Config.run, List.foldl_append]
      simp only [List.replicate, List.foldl, Config.move, GetAccountsByIdxSteps, sliceSteps,
        Prog.step, Bool.false_eq_true, if_false, and_self, if_true, hlen]
      by_cases hb : begin ≤ decU64 a.accountTbl.length
          ∧ decU64 a.accountTbl.length ≤ a.accountTbl.length
      · simp only [hb, and_self, if_true, Prog.step]
        have := rankLoopSteps_alone (h.updateImplSteps j a)
          { accountTbl := a.accountTbl, totalBalance := a.totalBalance, writeLocked := false,
            readLocks := 0 + 1 - 1 }
          ((a.accountTbl.drop begin).take (decU64 a.accountTbl.length - begin)) 0 []
          a.accountTbl.length (htake _)
        simp only [Config.run] at this
        rw [this]
        simp
      · simp only [hb, if_false, Prog.step]
        have := run_ended
          { accountTbl := a.accountTbl, totalBalance := a.totalBalance, writeLocked := false,
            readLocks := 0 + 1 } (h.updateImplSteps j a)
          (Prog.panicked : Prog (List RetSimpleAccountInfo)) (fun _ => rfl)
          a.accountTbl.length
        simp only [Config.run] at this
        rw [this]
    · have hsplit : 5 + a.accountTbl.length = 4 + (a.accountTbl.length + 1) := by omega
      rw [hsplit, List.replicate_add, Config.run, List.foldl_append]
      have hloop := rankLoopSteps_alone (h.updateImplSteps j a)
        { accountTbl := a.accountTbl, totalBalance := a.totalBalance, writeLocked := false,
          readLocks := 0 + 1 - 1 }
        ((a.accountTbl.drop begin).take (end_ - begin)) 0 []
        (a.accountTbl.length + 1) (Nat.le_succ_of_le (htake _))
      have hend := run_ended
        { accountTbl := a.accountTbl, totalBalance := a.totalBalance, writeLocked := false,
          readLocks := 0 + 1 } (h.updateImplSteps j a)
        (Prog.panicked : Prog (List RetSimpleAccountInfo)) (fun _ => rfl)
        (a.accountTbl.length + 1)
      simp only [Config.run] at hloop hend
      generalize List.replicate (a.accountTbl.length + 1) false = later at hloop hend ⊢
      simp only [List.replicate, List.foldl, Config.move, GetAccountsByIdxSteps, sliceSteps,
        Prog.step, Bool.false_eq_true, if_false, and_self, if_true, hlen]
      by_cases hb : begin ≤ end_ ∧ end_ ≤ a.accountTbl.length
      · simp only [hb, and_self, if_true, Prog.step]
        rw [hloop]
        simp
      · simp only [hb, if_false, Prog.step]
        rw [hend]

/-- C21, amended, on the table `staleTbl`.  When the reader takes the read
lock first, the rebuild waits at `Lock` until the reader has released it, and
`GetAccountsByIdx(0, 1)` returns the page of the old snapshot, `bob`.  Under
the schedule in which the rebuild stores the snapshot, then the reader runs,
then the rebuild stores the total, the page of `getAccountsByBeginAndEnd(0,
1)` is the page of the new snapshot, `alice`. -/
theorem rebuild_readers_read_whole_snapshot_witness :
    ((staleConfig (GetAccountsByIdxSteps 0 1 Prog.done)).run
          [false, true, false, true, false, false, true, true, true, true]).reader.result?
        = some [exampleAccount "bob" 30 1]
      ∧ (staleTbl.GetAccountsByIdx 0 1 = some [exampleAccount "bob" 30 1]
        ∨ (if 0 + 1 < shardCount then staleTbl.ProcessGAccountTable
            else staleTbl).GetAccountsByIdx 0 1 = some [exampleAccount "bob" 30 1])
      ∧ ∃ page,
          (staleTbl.GetAccountsByIdx 0 1 = some page
            ∨ (if 0 + 1 < shardCount then staleTbl.ProcessGAccountTable
                else staleTbl).GetAccountsByIdx 0 1 = some page)
          ∧ [({ AccType := 0, ShardNumber := 1, Rank := 1, Address := "alice", Balance := 70,
                Percentage := ⟨70, 30⟩, TxCount := 1 } : RetSimpleAccountInfo)].length
              = page.length := by
  have key := rebuild_readers_read_whole_snapshot ⟨newAccTbls exampleDB, exampleDB⟩ 0 staleTbl
    0 1 [false, true, false, true, false, false, true, true, true, true]
  have key2 := rebuild_readers_read_whole_snapshot ⟨newAccTbls exampleDB, exampleDB⟩ 0 staleTbl
    0 1 [true, true, true, false, false, false, false, false, true]
  refine ⟨by decide, key.2.1 [exampleAccount "bob" 30 1] (by decide), ?_⟩
  obtain ⟨page, h1, h2, _⟩ := key2.2.2.2.1
    [{ AccType := 0, ShardNumber := 1, Rank := 1, Address := "alice", Balance := 70,
       Percentage := ⟨70, 30⟩, TxCount := 1 }] (by decide)
  exact ⟨page, h1, h2⟩

/-! ## The rollback on the collections of the store -/

/-- C22: on the store of `twoShardStore` the walker of shard 1 finds its
block of height 1 stale and calls `RemoveBlock(1)` and `RemoveTxs(1)`; the
calls delete the block and the transaction that shard 2 stored for height 1,
and the stale block of shard 1 and its transaction stay. -/
theorem checkOlderBlocks_removes_block_of_other_shard :
    (checkOlderBlocks (storeWorld 1 twoShardStore forkRemote) 3 []).2 = .returned true
      ∧ removals (checkOlderBlocks (storeWorld 1 twoShardStore forkRemote) 3 []).1
        = [Event.dbRemoveBlock 1, Event.dbRemoveTxs 1]
      ∧ storeAfter twoShardStore (checkOlderBlocks (storeWorld 1 twoShardStore forkRemote) 3 []).1
        = { block := [⟨1, 0, ⟨"g", "0x0", []⟩⟩, ⟨1, 1, ⟨"old", "0x0", [⟨"alice", "bob"⟩]⟩⟩]
            transaction := [exampleTx "t1" 1 1] }
      ∧ storeGetBlockByHeight twoShardStore 2 1 = some ⟨"other", "0x0", [⟨"alice", "bob"⟩]⟩
      ∧ storeGetBlockByHeight
          (storeAfter twoShardStore
            (checkOlderBlocks (storeWorld 1 twoShardStore forkRemote) 3 []).1) 2 1
        = none := by
  decide

/-- C23: on the store of `twoTxStore` the walker of shard 1 deletes its stale
block of height 1, which holds two transactions; `RemoveTxs(1)` deletes the
first of them and the second stays in the collection, with block height 1. -/
theorem checkOlderBlocks_leaves_stale_transaction :
    (checkOlderBlocks (storeWorld 1 twoTxStore forkRemote) 3 []).2 = .returned true
      ∧ removals (checkOlderBlocks (storeWorld 1 twoTxStore forkRemote) 3 []).1
        = [Event.dbRemoveBlock 1, Event.dbRemoveTxs 1]
      ∧ storeAfter twoTxStore (checkOlderBlocks (storeWorld 1 twoTxStore forkRemote) 3 []).1
        = { block := [⟨1, 0, ⟨"g", "0x0", []⟩⟩]
            transaction := [exampleTx "t2" 1 1] }
      ∧ (exampleTx "t2" 1 1).Block = "1" := by
  decide

/-! ## The divisor of the percentages -/

/-- C24: on the store of `zeroDB`, whose only account of shard 1 has balance
0, `GetTotalBalance` maps shard 1 to 0; a new handler stores 0 as the total of
the table of shard 1, and the first page of the table carries the percentage
0 over 0. -/
theorem updateImpl_keeps_zero_total :
    zeroDB.GetTotalBalance.1 1 = some 0
      ∧ (NewAccHandler zeroDB).bind
          (fun h => (h.accTbls[0]?).map fun t =>
            (t.totalBalance, t.getAccountsByBeginAndEnd 0 1))
        = some (0, some [{ AccType := 0, ShardNumber := 1, Rank := 1, Address := "miner",
                           Balance := 0, Percentage := ⟨0, 0⟩, TxCount := 0 }]) := by
  decide

/-! ## The availability of the account detail -/

/-- C25: on a handler of `shardCount` tables, `GetAccountByAddressImpl`
returns `nil` exactly when the account lookup fails, or the account found is
not an external one, or the lookup of the persisted transactions fails, or
the lookup of the pending transactions fails; in every other case it returns
a record whose address, balance, transaction count, account type and shard
are those of the account found. -/
theorem GetAccountByAddressImpl_available (clock : Clock) (h : AccountHandler)
    (address : String) (htbls : h.accTbls.length = shardCount) :
    (h.GetAccountByAddressImpl clock address = some none ↔
        (h.DBClient.GetAccountByAddress address = none
          ∨ (∃ data, h.DBClient.GetAccountByAddress address = some data ∧ data.AccType ≠ 0)
          ∨ h.DBClient.GetTxsByAddresss address txCount = none
          ∨ h.DBClient.GetPendingTxsByAddress address = none))
      ∧ (h.GetAccountByAddressImpl clock address ≠ some none →
          ∃ data ret, h.DBClient.GetAccountByAddress address = some data
            ∧ h.GetAccountByAddressImpl clock address = some (some ret)
            ∧ ret.Address = data.Address
            ∧ ret.Balance = data.Balance
            ∧ ret.TxCount = data.TxCount
            ∧ ret.AccType = data.AccType
            ∧ ret.ShardNumber = data.ShardNumber) := by
  have hrecord : ∀ (data : DBAccount) (txs : List DBTx) (tt : Int),
      (createRetDetailAccountInfo clock data txs tt).Address = data.Address
        ∧ (createRetDetailAccountInfo clock data txs tt).Balance = data.Balance
        ∧ (createRetDetailAccountInfo clock data txs tt).TxCount = data.TxCount
        ∧ (createRetDetailAccountInfo clock data txs tt).AccType = data.AccType
        ∧ (createRetDetailAccountInfo clock data txs tt).ShardNumber = data.ShardNumber := by
    intro data txs tt
    obtain ⟨h1, h2, h3, h4⟩ := detailTxLoop_account clock data txs
      { AccType := data.AccType, Address := data.Address, Balance := data.Balance,
        TxCount := data.TxCount, Percentage := ⟨data.Balance, tt⟩, ShardNumber := 0,
        ContractCreationCode := "", Txs := [] }
    exact ⟨h2, h3, h4, h1, rfl⟩
  cases haccount : h.DBClient.GetAccountByAddress address with
  | none =>
    have hnil : h.GetAccountByAddressImpl clock address = some none := by
      simp only [AccountHandler.GetAccountByAddressImpl, haccount]
    exact ⟨⟨fun _ => Or.inl rfl, fun _ => hnil⟩, fun hne => absurd hnil hne⟩
  | some data =>
    by_cases hexternal : data.AccType = 0
    swap
    · have hnil : h.GetAccountByAddressImpl clock address = some none := by
        simp only [AccountHandler.GetAccountByAddressImpl, haccount, ne_eq, hexternal,
          not_false_eq_true, if_true]
      exact ⟨⟨fun _ => Or.inr (Or.inl ⟨data, rfl, hexternal⟩), fun _ => hnil⟩,
        fun hne => absurd hnil hne⟩
    cases htxs : h.DBClient.GetTxsByAddresss address txCount with
    | none =>
      have hnil : h.GetAccountByAddressImpl clock address = some none := by
        simp only [AccountHandler.GetAccountByAddressImpl, haccount, ne_eq, hexternal,
          not_true_eq_false, if_false, htxs]
      exact ⟨⟨fun _ => Or.inr (Or.inr (Or.inl rfl)), fun _ => hnil⟩,
        fun hne => absurd hnil hne⟩
    | some txs =>
      cases hpending : h.DBClient.GetPendingTxsByAddress address with
      | none =>
        have hnil : h.GetAccountByAddressImpl clock address = some none := by
          simp only [AccountHandler.GetAccountByAddressImpl, haccount, ne_eq, hexternal,
            not_true_eq_false, if_false, htxs, hpending]
        exact ⟨⟨fun _ => Or.inr (Or.inr (Or.inr rfl)), fun _ => hnil⟩,
          fun hne => absurd hnil hne⟩
      | some pending =>
        have hret : ∃ tt, h.GetAccountByAddressImpl clock address
            = some (some (createRetDetailAccountInfo clock data (pending ++ txs) tt)) := by
          by_cases hshard : data.ShardNumber ≥ 1 ∧ data.ShardNumber ≤ shardCount
          · have hidx : (data.ShardNumber - 1).toNat < h.accTbls.length := by
              rw [htbls]
              have h1 := hshard.1
              have h2 := hshard.2
              simp only [shardCount] at h2 ⊢
              omega
            refine ⟨(h.accTbls[(data.ShardNumber - 1).toNat]).totalBalance, ?_⟩
            simp only [AccountHandler.GetAccountByAddressImpl, haccount, hexternal, htxs,
              hpending, ne_eq, not_true_eq_false, if_false]
            rw [if_pos hshard, List.getElem?_eq_getElem hidx]
          · refine ⟨0, ?_⟩
            simp only [AccountHandler.GetAccountByAddressImpl, haccount, hexternal, htxs,
              hpending, ne_eq, not_true_eq_false, if_false]
            rw [if_neg hshard]
        obtain ⟨tt, hret⟩ := hret
        refine ⟨⟨fun hnil => ?_, fun hfail => ?_⟩, fun _ => ?_⟩
        · rw [hret] at hnil
          simp at hnil
        · rcases hfail with hfail | ⟨d, hd, hd2⟩ | hfail | hfail
          · simp at hfail
          · obtain rfl := Option.some.inj hd
            exact absurd hexternal hd2
          · simp at hfail
          · simp at hfail
        · obtain ⟨r1, r2, r3, r4, r5⟩ := hrecord data (pending ++ txs) tt
          exact ⟨data, _, rfl, hret, r1, r2, r3, r4, r5⟩

/-- C25, on the store of `detailDB`: the detail of `alice` is a record with
her address, balance 70, transaction count 1, type 0 and shard 1, and the
detail of the unknown address `nobody` is `nil`. -/
theorem GetAccountByAddressImpl_available_witness :
    (newAccTbls detailDB).length = shardCount
      ∧ (∃ ret, AccountHandler.GetAccountByAddressImpl exampleClock
            ⟨newAccTbls detailDB, detailDB⟩ "alice" = some (some ret)
          ∧ (ret.Address, ret.Balance, ret.TxCount, ret.AccType, ret.ShardNumber)
            = ("alice", 70, 1, 0, 1))
      ∧ AccountHandler.GetAccountByAddressImpl exampleClock
          ⟨newAccTbls detailDB, detailDB⟩ "nobody" = some none := by
  refine ⟨by decide, ?_, ?_⟩
  · obtain ⟨data, ret, h1, h2, h3, h4, h5, h6, h7⟩ :=
      (GetAccountByAddressImpl_available exampleClock ⟨newAccTbls detailDB, detailDB⟩ "alice"
        (by decide)).2 (by decide)
    have hdata : data = exampleAccount "alice" 70 1 := (Option.some.inj h1).symm
    subst hdata
    exact ⟨ret, h2, by rw [h3, h4, h5, h6, h7]; rfl⟩
  · exact (GetAccountByAddressImpl_available exampleClock ⟨newAccTbls detailDB, detailDB⟩
      "nobody" (by decide)).1.2 (Or.inl rfl)

end ScanApi
